import Mathlib

/-!
# A shallow embedding of the reactor of `src/reactor/reactor.go`

The reactor owns three timing wheels, an active-task map and four bounded
submission queues.  The embedding follows the Go code function by function.

* `Core` is the part of the reactor that the poll paths (`pollStart`,
  `pollWake`, `pollInterval`, `stopTask`, `schedule`, `onTick`) read and write:
  the task objects, the active-task map `r.tasks` and the three wheels.
* `Reactor` adds the queues, the tick counters and the statistics around it.
* `World` is the producer-side view used by `Wake` and `WakeAfter`: the task
  objects and the wake queue of every reactor.

Code that the repository keeps in other files (the wheel, the task object, the
bounded queue, the concurrent map, the wake list) is modelled from the
specification; each such definition says so in its doc comment.

Conventions of the embedding:

* `int64` values are integers; `/` and `%` are Go's truncated operations, and
  the one increment that can wrap around (the loop counter of `catchup`) wraps.
  Statistics counters are not wrapped.
* User logic (`Poll`, `PollClose`) acts on its own task: it may set the stop
  flag and assign `wakeAfter` and `interval`, and it returns or panics.
  Callbacks submitted through `Invoke` run outside the reactor state.  Nothing
  is enqueued while the reactor thread runs.
* A panic is a result without a value (`Run.value = none`); a deferred
  `recover()` turns it into a normal return.
* `timex.NanoTime` is an arbitrary sequence of readings.
* Two ghost logs record calls: `Core.calls` (user logic, wheel scheduling) and
  `Reactor.trace` (tick numbers and drained queue items).  They are written
  only by the embedding and never read by it.
-/

namespace Wormhole

/-! ## Go integers -/

/-- Go `time.Duration`: a signed 64-bit count of nanoseconds. -/
abbrev Duration := Int

/-- Largest `int64`. -/
def maxInt64 : Int := 9223372036854775807

/-- Smallest `int64`. -/
def minInt64 : Int := -9223372036854775808

/-- Go `math.MaxUint32`. -/
def MaxUint32 : Nat := 4294967295

/-- Two-complement wrap-around of an integer into the `int64` range. -/
def wrap64 (x : Int) : Int := (x + 9223372036854775808) % 18446744073709551616 - 9223372036854775808

/-- Membership in the `int64` range. -/
def inInt64 (x : Int) : Prop := minInt64 ≤ x ∧ x ≤ maxInt64

instance (x : Int) : Decidable (inInt64 x) := by unfold inInt64; infer_instance

/-- Go `a % b` on `int64` for `b ≠ 0`: the remainder has the sign of `a`. -/
def goMod (a b : Int) : Int := Int.tmod a b

/-- Go `a / b` on `int64` for `b ≠ 0`: truncated, wrapping at `minInt64 / -1`. -/
def goDiv (a b : Int) : Int := wrap64 (Int.tdiv a b)

/-- One millisecond as a `Duration`. -/
def Millisecond : Duration := 1000000

/-- One second as a `Duration`. -/
def Second : Duration := 1000000000

/-! ## Tasks and user logic -/

/-- Address of a `Task` object (`*Task`). -/
abbrev TaskRef := Nat

/-- Address of a `Reactor` object (`*Reactor`). -/
abbrev ReactorRef := Nat

/-- Trigger reason carried by `Context`. -/
inductive Reason where
  | Start
  | Wake
  | Interval
  deriving DecidableEq

/-- A non-nil error returned by user logic: the sentinel `ErrStop`, or any other error. -/
inductive PollError where
  | ErrStop
  | other
  deriving DecidableEq

/-- How a call into user logic ends: it returns (`nil` or an error) or it panics. -/
inductive Completion where
  | returned (err : Option PollError)
  | panicked
  deriving DecidableEq

/-- The fields of a task that user logic can observe through the task handle. -/
structure TaskView where
  id : Int
  stop : Bool
  wakeAfter : Duration
  interval : Duration
  wakes : Int
  intervals : Int
  started : Int
  deriving DecidableEq

/-- Go `Context`, the argument of `Future.Poll`. -/
structure Context where
  Task : TaskView
  Time : Int
  Interval : Duration
  Reason : Reason
  deriving DecidableEq

/-- Go `CloseEvent`, the argument of `PollClose.PollClose` (its `Reason` is always nil). -/
structure CloseEvent where
  Task : TaskView
  Time : Int
  deriving DecidableEq

/-- What one call into user logic does.  User logic acts on its own task through the
task handle: it may set the stop flag and may assign `wakeAfter` and `interval`; then
it returns or panics. -/
structure Effect where
  stop : Bool
  wakeAfter : Duration
  interval : Duration
  outcome : Completion
  deriving DecidableEq

/-- User-supplied logic: the required `Poll` and the optional `PollClose` capability. -/
structure Future where
  Poll : Context → Effect
  PollClose : Option (CloseEvent → Effect)

/-- Modelled from the spec: the `Task` object (declared outside `reactor.go`), with the
fields that `reactor.go` reads and writes. -/
structure Task where
  id : Int
  reactor : Option ReactorRef
  future : Future
  stop : Bool
  wakeAfter : Duration
  interval : Duration
  wakes : Int
  intervals : Int
  started : Int

/-- The user-visible fields of a task. -/
def Task.view (t : Task) : TaskView :=
  ⟨t.id, t.stop, t.wakeAfter, t.interval, t.wakes, t.intervals, t.started⟩

/-- The task after user logic with effect `e` ran on it. -/
def Task.apply (t : Task) (e : Effect) : Task :=
  { t with stop := t.stop || e.stop, wakeAfter := e.wakeAfter, interval := e.interval }

/-! ## The timing wheel -/

/-- The three wheels of a reactor. -/
inductive Level where
  | l1
  | l2
  | l3
  deriving DecidableEq

/-- One occupied place of a wheel: the task, the duration of the list that holds it
(`taskSwapList.dur`), the kind of slot (`taskSwapSlot.wake`) and the slot index. -/
structure WheelEntry where
  task : TaskRef
  dur : Duration
  wake : Bool
  slot : Nat
  deriving DecidableEq

/-- Modelled from the spec: the `Wheel` (declared outside `reactor.go`): tick duration,
maximum representable delay, number of slots (`len(durations)`), current slot cursor and
the tasks held in the slots. -/
structure Wheel where
  tickDur : Duration
  maxDur : Duration
  durations : Nat
  cursor : Nat
  entries : List WheelEntry
  deriving DecidableEq

/-- The list handed to the expiry callback; `reactor.go` reads only its `dur`. -/
structure taskSwapList where
  dur : Duration
  deriving DecidableEq

/-- The slot handed to the expiry callback; `reactor.go` reads only its `wake`. -/
structure taskSwapSlot where
  wake : Bool
  deriving DecidableEq

/-- The wheel without the entries of `task`. -/
def Wheel.detach (w : Wheel) (task : TaskRef) : Wheel :=
  { w with entries := w.entries.filter (fun e => e.task != task) }

/-- The slot that lies `delay` ahead of the cursor. -/
def Wheel.slotFor (w : Wheel) (delay : Duration) : Nat :=
  (w.cursor + (goDiv delay w.tickDur).toNat) % w.durations

/-- The wheel with one more entry for `task`, in the slot `delay` ahead of the cursor. -/
def Wheel.insert (w : Wheel) (task : TaskRef) (delay : Duration) (wake : Bool) : Wheel :=
  { w with entries := w.entries ++ [⟨task, delay, wake, w.slotFor delay⟩] }

/-! ## The reactor-thread state -/

/-- A call recorded in the ghost log of `Core`. -/
inductive Call where
  | poll (task : TaskRef) (reason : Reason)
  | pollClose (task : TaskRef)
  | schedule (level : Level) (task : TaskRef) (delay : Duration) (wake : Bool)
  | advance (level : Level)
  deriving DecidableEq

/-- Modelled from the spec: the concurrent map behind `r.tasks` (declared outside
`reactor.go`), a map from task id to task object. -/
abbrev SyncMap := Int → Option TaskRef

/-- Modelled from the spec: `put(key, value)`. -/
def SyncMap.Put (m : SyncMap) (k : Int) (v : TaskRef) : SyncMap :=
  Function.update m k (some v)

/-- Modelled from the spec: `delete(key) -> (value, found)`; the second component is the
map afterwards. -/
def SyncMap.Delete (m : SyncMap) (k : Int) : (Option TaskRef × Bool) × SyncMap :=
  ((m k, (m k).isSome), Function.update m k none)

/-- The state touched by the poll paths of the reactor thread. -/
structure Core where
  heap : TaskRef → Task
  tasks : SyncMap
  tickWheel : Wheel
  level2Wheel : Wheel
  level3Wheel : Wheel
  calls : List Call

/-- The wheel of a level. -/
def Core.wheel (c : Core) : Level → Wheel
  | .l1 => c.tickWheel
  | .l2 => c.level2Wheel
  | .l3 => c.level3Wheel

/-- Replace the wheel of a level. -/
def Core.setWheel (c : Core) (lvl : Level) (w : Wheel) : Core :=
  match lvl with
  | .l1 => { c with tickWheel := w }
  | .l2 => { c with level2Wheel := w }
  | .l3 => { c with level3Wheel := w }

/-- Write a task object. -/
def Core.setTask (c : Core) (task : TaskRef) (t : Task) : Core :=
  { c with heap := Function.update c.heap task t }

/-- Append to the ghost call log. -/
def Core.log (c : Core) (e : Call) : Core :=
  { c with calls := c.calls ++ [e] }

/-- The result of a call on the reactor thread: the state it leaves and the value it
returns; `none` means that a panic is propagating out of the call. -/
structure Run (α : Type) where
  core : Core
  value : Option α

/-- A deferred `recover()`: the call returns normally, with the zero value of its result
type if it was panicking. -/
def Run.recover {α : Type} (r : Run α) (zero : α) : Run α :=
  ⟨r.core, some (r.value.getD zero)⟩

/-- Modelled from the spec: `Task.clearSlots` (declared outside `reactor.go`) clears all
wheel memberships of the task. -/
def Task.clearSlots (task : TaskRef) (c : Core) : Core :=
  { c with
    tickWheel := c.tickWheel.detach task
    level2Wheel := c.level2Wheel.detach task
    level3Wheel := c.level3Wheel.detach task }

/-- Modelled from the spec: `Wheel.schedule` (declared outside `reactor.go`), called on
the wheel of level `lvl`.  A task occupies at most one slot in exactly one of the three
wheels: it is first detached from any prior slot, in whichever wheel that is, and then
inserted into the slot `delay` ahead of the cursor of this wheel. -/
def Wheel.schedule (lvl : Level) (task : TaskRef) (delay : Duration) (wake : Bool)
    (c : Core) : Core :=
  let c := Task.clearSlots task c
  c.setWheel lvl ((c.wheel lvl).insert task delay wake)

/-- Modelled from the spec: `Task.remove` (declared outside `reactor.go`) takes the
stopped task out of the wheels before the object goes back to the pool.  The pool itself
is not part of the state. -/
def Task.remove (task : TaskRef) (c : Core) : Core :=
  Task.clearSlots task c

/-- Call `task.future.Poll(ctx)`: the effect is written to the task and logged. -/
def callPoll (task : TaskRef) (now : Int) (interval : Duration) (reason : Reason)
    (c : Core) : Completion × Core :=
  let t := c.heap task
  let e := t.future.Poll ⟨t.view, now, interval, reason⟩
  (e.outcome, (c.setTask task (t.apply e)).log (.poll task reason))

/-- Call `pc.PollClose(event)` for a future `pc` that has the capability. -/
def callPollClose (pc : CloseEvent → Effect) (task : TaskRef) (time : Int)
    (c : Core) : Completion × Core :=
  let t := c.heap task
  let e := pc ⟨t.view, time⟩
  (e.outcome, (c.setTask task (t.apply e)).log (.pollClose task))

/-- `Reactor.schedule`: the finest wheel whose range holds `delay` takes the task. -/
def schedule (task : TaskRef) (delay : Duration) (wake : Bool) (c : Core) : Core :=
  if delay < c.tickWheel.maxDur ∧ c.tickWheel.tickDur > 0 then
    (Wheel.schedule .l1 task delay wake c).log (.schedule .l1 task delay wake)
  else if delay < c.level2Wheel.maxDur ∧ c.level2Wheel.tickDur > 0 then
    (Wheel.schedule .l2 task delay wake c).log (.schedule .l2 task delay wake)
  else if delay < c.level3Wheel.maxDur ∧ c.level3Wheel.tickDur > 0 then
    (Wheel.schedule .l3 task delay wake c).log (.schedule .l3 task delay wake)
  else c

/-- The body of `Reactor.stopTask`, before its deferred function runs. -/
def stopTaskBody (time : Int) (task : TaskRef) (c : Core) : Run Unit :=
  let del := SyncMap.Delete c.tasks (c.heap task).id
  let c := { c with tasks := del.2 }
  if !del.1.2 then ⟨c, some ()⟩
  else
    let c := c.setTask task { c.heap task with stop := true }
    let c := Task.clearSlots task c
    match (c.heap task).future.PollClose with
    | none => ⟨c, some ()⟩
    | some pc =>
      match callPollClose pc task time c with
      | (.panicked, c) => ⟨c, none⟩
      | (.returned _, c) => ⟨c, some ()⟩

/-- `Reactor.stopTask`: the deferred function runs `task.remove()` and then recovers. -/
def stopTask (time : Int) (task : TaskRef) (c : Core) : Run Unit :=
  let r := stopTaskBody time task c
  Run.recover ⟨Task.remove task r.core, r.value⟩ ()

/-- The body of `Reactor.pollStart`, under its deferred `recover()`. -/
def pollStartBody (now : Int) (task : TaskRef) (c : Core) : Run Unit :=
  let c := c.setTask task { c.heap task with started := now }
  match callPoll task now 0 .Start c with
  | (.panicked, c) => ⟨c, none⟩
  | (.returned err, c) =>
    let c := if err = some .ErrStop then c.setTask task { c.heap task with stop := true } else c
    if (c.heap task).stop then stopTask now task c
    else
      let c := { c with tasks := c.tasks.Put (c.heap task).id task }
      let c := if (c.heap task).wakeAfter > 0 then schedule task (c.heap task).wakeAfter true c else c
      let c := if (c.heap task).interval > 0 then schedule task (c.heap task).interval false c else c
      ⟨c, some ()⟩

/-- `Reactor.pollStart`. -/
def pollStart (now : Int) (task : TaskRef) (c : Core) : Run Unit :=
  (pollStartBody now task c).recover ()

/-- The part of `Reactor.pollWake` that runs under its deferred `recover()`. -/
def pollWakeBody (now : Int) (task : TaskRef) (c : Core) : Run Unit :=
  let interval := (c.heap task).interval
  let wakeAfter := (c.heap task).wakeAfter
  if wakeAfter > 0 then
    let c := c.setTask task { c.heap task with wakeAfter := 0 }
    ⟨schedule task wakeAfter true c, some ()⟩
  else
    let c := c.setTask task { c.heap task with wakes := (c.heap task).wakes + 1 }
    match callPoll task now 0 .Wake c with
    | (.panicked, c) => ⟨c, none⟩
    | (.returned err, c) =>
      let c := if err = some .ErrStop then c.setTask task { c.heap task with stop := true } else c
      if (c.heap task).stop then stopTask now task c
      else
        let newWakeAfter := (c.heap task).wakeAfter
        let c := if newWakeAfter ≠ wakeAfter ∧ newWakeAfter > 0 then
            schedule task newWakeAfter true c else c
        let nextInterval := (c.heap task).interval
        let c := if nextInterval ≠ interval ∧ nextInterval ≤ 0 then
            c.setTask task { c.heap task with interval := 0 } else c
        ⟨c, some ()⟩

/-- `Reactor.pollWake`: a stopped task is left alone before any `defer` is set up. -/
def pollWake (now : Int) (task : TaskRef) (c : Core) : Run Unit :=
  if (c.heap task).stop then ⟨c, some ()⟩
  else (pollWakeBody now task c).recover ()

/-- The part of `Reactor.pollInterval` that runs under its deferred `recover()`. -/
def pollIntervalBody (now : Int) (task : TaskRef) (c : Core) : Run Bool :=
  let interval := (c.heap task).interval
  let wakeAfter := (c.heap task).wakeAfter
  let c := c.setTask task { c.heap task with intervals := (c.heap task).intervals + 1 }
  match callPoll task now interval .Interval c with
  | (.panicked, c) => ⟨c, none⟩
  | (.returned err, c) =>
    let c := if err = some .ErrStop then c.setTask task { c.heap task with stop := true } else c
    if (c.heap task).stop then
      let r := stopTask now task c
      ⟨r.core, r.value.map (fun _ => false)⟩
    else
      let newWakeAfter := (c.heap task).wakeAfter
      let c := if newWakeAfter ≠ wakeAfter ∧ newWakeAfter > 0 then
          schedule task newWakeAfter true c else c
      let nextInterval := (c.heap task).interval
      if nextInterval ≠ interval then
        if nextInterval ≤ 0 then
          ⟨c.setTask task { c.heap task with interval := 0 }, some false⟩
        else
          ⟨schedule task nextInterval false c, some false⟩
      else ⟨c, some true⟩

/-- `Reactor.pollInterval`: the result tells the wheel whether the entry stays. -/
def pollInterval (now : Int) (list : taskSwapList) (task : TaskRef) (c : Core) : Run Bool :=
  if (c.heap task).stop ∨ (c.heap task).interval = 0 ∨ list.dur ≠ (c.heap task).interval then
    ⟨c, some false⟩
  else (pollIntervalBody now task c).recover false

/-- `Reactor.onTick`, the expiry callback handed to the wheels. -/
def onTick (now : Int) (list : taskSwapList) (slot : taskSwapSlot) (task : TaskRef)
    (c : Core) : Run Bool :=
  if slot.wake then
    let r := pollWake now task c
    ⟨r.core, r.value.map (fun _ => false)⟩
  else pollInterval now list task c

/-- Modelled from the spec: `Wheel.tick` (declared outside `reactor.go`) advances the
wheel by one slot and invokes the expiry callback for every task of the slot being
vacated.  The slot is emptied before the callbacks run, so they may schedule into the
wheel; an entry whose callback returns `true` stays in rotation, its duration ahead of
the new cursor. -/
def Wheel.tick (lvl : Level) (now : Int)
    (fn : Int → taskSwapList → taskSwapSlot → TaskRef → Core → Run Bool) (c : Core) : Core :=
  let w := c.wheel lvl
  let due := w.entries.filter (fun e => e.slot = w.cursor)
  let w1 : Wheel :=
    { w with cursor := (w.cursor + 1) % w.durations
             entries := w.entries.filter (fun e => e.slot ≠ w.cursor) }
  due.foldl
    (fun c e =>
      let r := fn now ⟨e.dur⟩ ⟨e.wake⟩ e.task c
      if r.value = some true then
        let w2 := r.core.wheel lvl
        r.core.setWheel lvl { w2 with entries := w2.entries ++ [{ e with slot := w2.slotFor e.dur }] }
      else r.core)
    ((c.setWheel lvl w1).log (.advance lvl))

/-! ## Queues -/

/-- Modelled from the spec: the bounded queue `mpmc.BoundedWake` (declared outside
`reactor.go`), a FIFO of at most `cap` items. -/
structure BoundedWake (α : Type) where
  cap : Nat
  items : List α

/-- Modelled from the spec: `enqueue(item) -> bool`, `false` when the queue is full. -/
def BoundedWake.Enqueue {α : Type} (q : BoundedWake α) (x : α) : Bool × BoundedWake α :=
  if q.items.length < q.cap then (true, { q with items := q.items ++ [x] }) else (false, q)

/-- Modelled from the spec: `is-empty() -> bool`. -/
def BoundedWake.IsEmpty {α : Type} (q : BoundedWake α) : Bool := q.items.isEmpty

/-- Modelled from the spec: `dequeue-many(max, callback) -> count` takes up to `max` items
from the front.  The result is the batch handed to the callback, in order, and the queue
that remains; the count is the length of the batch. -/
def BoundedWake.DequeueMany {α : Type} (q : BoundedWake α) (max : Nat) : List α × BoundedWake α :=
  (q.items.take max, { q with items := q.items.drop max })

/-- A full queue: the next `Enqueue` fails. -/
def BoundedWake.full {α : Type} (q : BoundedWake α) : Prop := q.cap ≤ q.items.length

instance {α : Type} (q : BoundedWake α) : Decidable q.full := by
  unfold BoundedWake.full; infer_instance

/-- A callback `func()` submitted through `Invoke`; it runs outside the reactor state. -/
structure Fn where
  id : Nat
  panics : Bool
  deriving DecidableEq

/-- Modelled from the spec: a `WakeList` (declared outside `reactor.go`) batches wake
entries for tasks (`TaskSlot.task`, possibly nil) and bare callbacks (`FuncSlot.Value`,
possibly nil) of one reactor. -/
structure WakeList where
  reactor : ReactorRef
  wakes : List (Option TaskRef)
  funcs : List (Option Fn)
  deriving DecidableEq

/-! ## The reactor -/

/-- The counters of `Stats` that `reactor.go` writes. -/
structure Stats where
  ticks : Int
  ticksDur : Int
  ticksDurMin : Int
  ticksDurMax : Int
  spawns : Int
  wakes : Int
  wakeLists : Int
  wakeListsWakes : Int
  wakeListsInvokes : Int
  invokes : Int
  flushes : Int
  flushesDur : Int
  skew : Int
  skewDur : Int
  deriving DecidableEq

/-- Go `Config`. -/
structure Config where
  Name : String
  Level1Wheel : Wheel
  Level2Wheel : Wheel
  Level3Wheel : Wheel
  InvokeQSize : Int
  WakeQSize : Int
  SpawnQSize : Int
  LockOSThread : Bool
  deriving DecidableEq

/-- An entry of the ghost trace of `Reactor`. -/
inductive Event where
  | tick (n : Int)
  | wakeList (list : WakeList)
  | fn (f : Option Fn)
  | wake (task : TaskRef)
  | spawn (task : TaskRef)
  deriving DecidableEq

/-- Go `Reactor`.  `core` holds `tasks` and the three wheels together with the task
objects; `clock` and `reads` stand for `timex.NanoTime`, whose `n`-th reading is
`clock n`. -/
structure Reactor where
  stats : Stats
  id : Int
  now : Int
  config : Config
  wakeQ : BoundedWake TaskRef
  wakeListQ : BoundedWake WakeList
  spawnQ : BoundedWake TaskRef
  invokeQ : BoundedWake (Option Fn)
  lastTick : Int
  currentTick : Int
  core : Core
  tickDur : Duration
  ticksPerLevel2 : Int
  ticksPerLevel3 : Int
  clock : Nat → Int
  reads : Nat
  trace : List Event

/-- Why a call on the reactor thread does not return: a run-time panic from an integer
division by zero, or a loop that never exits. -/
inductive Fault where
  | divideByZero
  | endless
  deriving DecidableEq

/-- `timex.NanoTime()`. -/
def NanoTime (r : Reactor) : Int × Reactor :=
  (r.clock r.reads, { r with reads := r.reads + 1 })

/-- Append to the ghost trace. -/
def Reactor.log (r : Reactor) (e : Event) : Reactor :=
  { r with trace := r.trace ++ [e] }

/-- `Reactor.invoke`: the callback runs outside the reactor state and under a deferred
`recover()`, so the reactor is left as it was whether or not the callback panics. -/
def invoke (_fn : Option Fn) (r : Reactor) : Reactor := r

/-- `Reactor.onTaskSlotWake`. -/
def onTaskSlotWake (slot : Option TaskRef) (r : Reactor) : Reactor :=
  match slot with
  | none => r
  | some t => { r with core := (pollWake r.now t r.core).core }

/-- `Reactor.onFuncSlotWake`. -/
def onFuncSlotWake (slot : Option Fn) (r : Reactor) : Reactor :=
  match slot with
  | none => r
  | some f => invoke (some f) r

/-- `Reactor.pollWakeList`: every task slot and then every callback slot of the list is
woken, and both counts are added to the statistics. -/
def pollWakeList (_now : Int) (list : WakeList) (r : Reactor) : Reactor :=
  let r := list.wakes.foldl (fun r s => onTaskSlotWake s r) r
  let r := { r with stats := { r.stats with wakeListsWakes := r.stats.wakeListsWakes + list.wakes.length } }
  let r := list.funcs.foldl (fun r s => onFuncSlotWake s r) r
  { r with stats := { r.stats with wakeListsInvokes := r.stats.wakeListsInvokes + list.funcs.length } }

/-- `Reactor.onSpawn`. -/
def onSpawn (task : TaskRef) (r : Reactor) : Reactor :=
  let r := r.log (.spawn task)
  { r with core := (pollStart r.now task r.core).core }

/-- `Reactor.onWake`. -/
def onWake (task : TaskRef) (r : Reactor) : Reactor :=
  let r := r.log (.wake task)
  { r with core := (pollWake r.now task r.core).core }

/-- `Reactor.onWakeList`. -/
def onWakeList (list : WakeList) (r : Reactor) : Reactor :=
  pollWakeList r.now list (r.log (.wakeList list))

/-- `Reactor.onFn`. -/
def onFn (task : Option Fn) (r : Reactor) : Reactor :=
  invoke task (r.log (.fn task))

/-- `Reactor.flushQueues`: one pass over the four queues; the result is the number of
items handled. -/
def flushQueues (r : Reactor) : Nat × Reactor :=
  let total := 0
  let (total, r) :=
    if !r.wakeListQ.IsEmpty then
      let (batch, q) := r.wakeListQ.DequeueMany MaxUint32
      let r := batch.foldl (fun r x => onWakeList x r) { r with wakeListQ := q }
      (total + batch.length,
        { r with stats := { r.stats with wakeLists := r.stats.wakeLists + batch.length } })
    else (total, r)
  let (total, r) :=
    if !r.invokeQ.IsEmpty then
      let (batch, q) := r.invokeQ.DequeueMany MaxUint32
      let r := batch.foldl (fun r x => onFn x r) { r with invokeQ := q }
      (total + batch.length,
        { r with stats := { r.stats with invokes := r.stats.invokes + batch.length } })
    else (total, r)
  let (total, r) :=
    if !r.wakeQ.IsEmpty then
      let (batch, q) := r.wakeQ.DequeueMany MaxUint32
      let r := batch.foldl (fun r x => onWake x r) { r with wakeQ := q }
      (total + batch.length,
        { r with stats := { r.stats with wakes := r.stats.wakes + batch.length } })
    else (total, r)
  let (total, r) :=
    if !r.spawnQ.IsEmpty then
      let (batch, q) := r.spawnQ.DequeueMany MaxUint32
      let r := batch.foldl (fun r x => onSpawn x r) { r with spawnQ := q }
      (total + batch.length,
        { r with stats := { r.stats with spawns := r.stats.spawns + batch.length } })
    else (total, r)
  (total, r)

/-- `Reactor.tick`: level 1 always advances, levels 2 and 3 when the tick number is a
multiple of their ratio.  A zero ratio makes the `%` panic. -/
def tick (tick : Int) (now : Int) (r : Reactor) : Except Fault Reactor :=
  let r := r.log (.tick tick)
  let r := { r with core := Wheel.tick .l1 now onTick r.core }
  if r.ticksPerLevel2 = 0 then .error .divideByZero
  else
    let r := if goMod tick r.ticksPerLevel2 = 0 then
        { r with core := Wheel.tick .l2 now onTick r.core } else r
    if r.ticksPerLevel3 = 0 then .error .divideByZero
    else
      let r := if goMod tick r.ticksPerLevel3 = 0 then
          { r with core := Wheel.tick .l3 now onTick r.core } else r
      .ok r

/-- `Reactor.rebalance`: an empty hook. -/
def rebalance (r : Reactor) : Reactor := r

/-- The loop of `Reactor.catchup`, `for ; nextTick <= currentTick; nextTick++`, run for at
most `fuel` iterations; `nextTick++` wraps around at `maxInt64`. -/
def catchupLoop : Nat → Int → Int → Int → Reactor → Except Fault Reactor
  | 0, _, _, _, _ => .error .endless
  | fuel + 1, nextTick, currentTick, now, r =>
    if nextTick ≤ currentTick then
      match tick nextTick now r with
      | .error e => .error e
      | .ok r => catchupLoop fuel (wrap64 (nextTick + 1)) currentTick now r
    else .ok r

/-- `Reactor.catchup`.  The loop gets one iteration more than the distance from
`lastTick` to `currentTick`, which is what it needs unless `nextTick++` wraps around, and
then it never exits. -/
def catchup (lastTick currentTick : Int) (r : Reactor) : Except Fault Reactor :=
  let (now, r) := NanoTime r
  catchupLoop ((currentTick - lastTick).toNat + 1) (wrap64 (lastTick + 1)) currentTick now r

/-- The `// Stats` block of `Reactor.processTick`, for a tick that took `elapsed`. -/
def tickStats (elapsed : Int) (st : Stats) : Stats :=
  let st := { st with ticks := st.ticks + 1, ticksDur := st.ticksDur + elapsed }
  let st := if st.ticksDurMin = 0 ∨ st.ticksDurMin > elapsed then
      { st with ticksDurMin := elapsed } else st
  if st.ticksDurMax < elapsed then { st with ticksDurMax := elapsed } else st

/-- The statistics written by `Reactor.processTick` after its flush, which ran from
`begin_` to `end_`; `start` is the reading taken before the tick. -/
def flushStats (interval start begin_ end_ : Int) (st : Stats) : Stats :=
  let st := { st with flushesDur := st.flushesDur + (end_ - begin_) }
  let elapsed := end_ - start
  let st := { st with flushes := st.flushes + 1 }
  if elapsed > interval then
    { st with skew := st.skew + 1, skewDur := st.skewDur + elapsed }
  else st

/-- The part of `Reactor.processTick` that follows `r.tick(tick, begin)`: the statistics
of the tick, the flush of the queues and the statistics of the flush. -/
def afterTick (interval start : Int) (r : Reactor) : Reactor :=
  let (end_, r) := NanoTime r
  let elapsed := end_ - start
  let r := { r with stats := tickStats elapsed r.stats }
  let begin_ := end_
  let r := (flushQueues r).2
  let (end_, r) := NanoTime r
  let r := { r with stats := flushStats interval start begin_ end_ r.stats }
  if end_ - start > interval then rebalance r else r

/-- `Reactor.processTick`. -/
def processTick (tk : Int) (r : Reactor) : Except Fault Reactor :=
  let interval := r.tickDur
  let (start, r) := NanoTime r
  let begin_ := start
  match tick tk begin_ r with
  | .error e => .error e
  | .ok r => .ok (afterTick interval start r)

/-- `Reactor.maybeProcessTick`. -/
def maybeProcessTick (v : Int) (r : Reactor) : Except Fault Reactor :=
  if v < 1 ∨ v = r.lastTick then .ok r
  else
    let r := { r with currentTick := v }
    let caught := if r.lastTick < v - 1 then catchup r.lastTick r.currentTick r else .ok r
    match caught with
    | .error e => .error e
    | .ok r =>
      let r := { r with lastTick := r.currentTick }
      processTick r.currentTick r

/-- The number of items waiting in the four queues. -/
def Reactor.queued (r : Reactor) : Nat :=
  r.wakeListQ.items.length + r.invokeQ.items.length + r.wakeQ.items.length +
    r.spawnQ.items.length

/-- The loop of `Reactor.onWakeMessage`, which repeats `flushQueues` while a pass handles
something and reads the clock after each such pass, run for at most `fuel` passes. -/
def flushLoop : Nat → Reactor → Except Fault Reactor
  | 0, _ => .error .endless
  | fuel + 1, r =>
    let (n, r) := flushQueues r
    if n > 0 then
      let (t, r) := NanoTime r
      flushLoop fuel { r with now := t }
    else .ok r

/-- `Reactor.onWakeMessage`.  Every pass of the loop that handles something shortens the
queues, so one pass more than the number of queued items is all the loop can use. -/
def onWakeMessage (v : Int) (r : Reactor) : Except Fault Reactor :=
  match maybeProcessTick v r with
  | .error e => .error e
  | .ok r =>
    let (t, r) := NanoTime r
    let r := { r with now := t }
    flushLoop (r.queued + 1) r

/-! ## Construction -/

/-- What `NewReactor` takes from outside `reactor.go`: `pmath.CeilToPowerOf2`, the three
preset wheels `NewWheel(Millis250)`, `NewWheel(Seconds)` and `NewWheel(Minutes)`, the
index handed out by `reactors.AppendIndex`, and the memory and clock of the process. -/
structure Deps where
  CeilToPowerOf2 : Int → Int
  Millis250 : Wheel
  Seconds : Wheel
  Minutes : Wheel
  index : Int
  heap : TaskRef → Task
  clock : Nat → Int

/-- The two configuration errors of `NewReactor`. -/
inductive ConfigError where
  | level2NotDivisible
  | level3NotDivisible
  deriving DecidableEq

/-- The result of `NewReactor`: a reactor, an error, or a panic from `%` by zero. -/
inductive Construction where
  | reactor (r : Reactor)
  | error (e : ConfigError)
  | panic

/-- Go `DefaultInvokeQueueSize`. -/
def DefaultInvokeQueueSize : Int := 1024 * 1

/-- Go `DefaultWakeQueueSize`. -/
def DefaultWakeQueueSize : Int := 1024 * 1

/-- Go `DefaultSpawnQueueSize`. -/
def DefaultSpawnQueueSize : Int := 1024 * 1

/-- Modelled from the spec: `mpmc.NewBoundedWake(size, wakeCh)`, an empty queue of the
given capacity. -/
def NewBoundedWake (α : Type) (size : Int) : BoundedWake α := ⟨size.toNat, []⟩

/-- The zero value of `Stats`. -/
def Stats.zero : Stats := ⟨0, 0, 0, 0, 0, 0, 0, 0, 0, 0, 0, 0, 0, 0⟩


/-- The configuration with the defaults of `NewReactor` filled in: the name, the queue
sizes (rounded up to a power of two) and the wheels that are not set. -/
def Config.normalize (d : Deps) (config : Config) : Config :=
  { Name := if config.Name = "" then "loop" else config.Name
    InvokeQSize :=
      d.CeilToPowerOf2 (if config.InvokeQSize ≤ 4 then DefaultInvokeQueueSize else config.InvokeQSize)
    WakeQSize :=
      d.CeilToPowerOf2 (if config.WakeQSize ≤ 4 then DefaultWakeQueueSize else config.WakeQSize)
    SpawnQSize :=
      d.CeilToPowerOf2 (if config.SpawnQSize ≤ 4 then DefaultSpawnQueueSize else config.SpawnQSize)
    Level1Wheel := if config.Level1Wheel.durations = 0 then d.Millis250 else config.Level1Wheel
    Level2Wheel := if config.Level2Wheel.durations = 0 then d.Seconds else config.Level2Wheel
    Level3Wheel := if config.Level3Wheel.durations = 0 then d.Minutes else config.Level3Wheel
    LockOSThread := config.LockOSThread }

/-- `NewReactor`.  The first part of the function rewrites `config` field by field
(`Config.normalize`); the divisibility checks and the construction follow. -/
def NewReactor (d : Deps) (config : Config) : Construction :=
  let config := config.normalize d
  if config.Level1Wheel.tickDur = 0 then .panic
  else if goMod config.Level2Wheel.tickDur config.Level1Wheel.tickDur ≠ 0 then
    .error .level2NotDivisible
  else if goMod config.Level3Wheel.tickDur config.Level1Wheel.tickDur ≠ 0 then
    .error .level3NotDivisible
  else
    .reactor
      { stats := Stats.zero
        id := d.index
        now := 0
        config := config
        wakeQ := NewBoundedWake TaskRef config.WakeQSize
        wakeListQ := NewBoundedWake WakeList config.WakeQSize
        spawnQ := NewBoundedWake TaskRef config.SpawnQSize
        invokeQ := NewBoundedWake (Option Fn) config.InvokeQSize
        lastTick := 0
        currentTick := 0
        core :=
          { heap := d.heap
            tasks := fun _ => none
            tickWheel := config.Level1Wheel
            level2Wheel := config.Level2Wheel
            level3Wheel := config.Level3Wheel
            calls := [] }
        tickDur := config.Level1Wheel.tickDur
        ticksPerLevel2 := goDiv config.Level2Wheel.tickDur config.Level1Wheel.tickDur
        ticksPerLevel3 := goDiv config.Level3Wheel.tickDur config.Level1Wheel.tickDur
        clock := d.clock
        reads := 0
        trace := [] }

/-! ## The producer side: `Wake` and `WakeAfter` -/

/-- The state that `Wake` and `WakeAfter` read and write from any thread: the task
objects and the wake queue of every reactor. -/
structure World where
  heap : TaskRef → Task
  wakeQ : ReactorRef → BoundedWake TaskRef

/-- The errors returned by `Wake` and `WakeAfter`. -/
inductive WakeError where
  | taskIsNil
  | taskNotScheduled
  | ErrQueueFull
  deriving DecidableEq

/-- `r.wakeQ.Enqueue(task)` on the wake queue of reactor `r`: the answer of the queue and
the world afterwards. -/
def World.enqueue (w : World) (r : ReactorRef) (task : TaskRef) : Bool × World :=
  let e := (w.wakeQ r).Enqueue task
  (e.1, { w with wakeQ := Function.update w.wakeQ r e.2 })

/-- `Reactor.Wake`; `none` is the nil error. -/
def Wake (r : ReactorRef) (task : Option TaskRef) (w : World) : Option WakeError × World :=
  match task with
  | none => (some .taskIsNil, w)
  | some t =>
    match h : (w.heap t).reactor with
    | none => (some .taskNotScheduled, w)
    | some reactor =>
      if hr : reactor ≠ r then Wake reactor (some t) w
      else
        let e := w.enqueue r t
        (none, e.2)
termination_by (if (task.bind fun t => (w.heap t).reactor) = some r then 0 else 1)
decreasing_by
  simp only [Option.some_bind, h]
  have : ¬ (some reactor = some r) := fun hc => hr (Option.some.inj hc)
  simp [this]

/-- `Reactor.WakeAfter`. -/
def WakeAfter (r : ReactorRef) (task : Option TaskRef) (after : Duration) (w : World) :
    Option WakeError × World :=
  match task with
  | none => (some .taskIsNil, w)
  | some t =>
    if after ≤ 0 then Wake r (some t) w
    else
      match (w.heap t).reactor with
      | none => (some .taskNotScheduled, w)
      | some reactor =>
        let w := { w with heap := Function.update w.heap t { w.heap t with wakeAfter := after } }
        if reactor ≠ r then Wake reactor (some t) w
        else
          let e := w.enqueue r t
          if !e.1 then (some .ErrQueueFull, e.2) else (none, e.2)

/-! ## Auxiliary definitions

Projections of the ghost logs, the stages of `flushQueues` and of the poll paths, and the
predicates used in the statements. -/

/-- The tick numbers that were handed to `Reactor.tick`, oldest first. -/
def Reactor.ticked (r : Reactor) : List Int :=
  r.trace.filterMap (fun e => match e with | .tick n => some n | _ => none)

/-- The tick numbers handed to `Reactor.tick` by a call, if the call returns. -/
def tickedBy (x : Except Fault Reactor) : Option (List Int) :=
  match x with
  | .ok r => some r.ticked
  | .error _ => none

/-- The items one pass of `flushQueues` takes from a queue. -/
def BoundedWake.batch {α : Type} (q : BoundedWake α) : List α := q.items.take MaxUint32

/-- The queue one pass of `flushQueues` leaves. -/
def BoundedWake.rest {α : Type} (q : BoundedWake α) : BoundedWake α :=
  { q with items := q.items.drop MaxUint32 }

/-- The first block of `flushQueues`, as a function of the running total and the reactor. -/
def flushWakeListQ (x : Nat × Reactor) : Nat × Reactor :=
  if !x.2.wakeListQ.IsEmpty then
    let (batch, q) := x.2.wakeListQ.DequeueMany MaxUint32
    let r := batch.foldl (fun r x => onWakeList x r) { x.2 with wakeListQ := q }
    (x.1 + batch.length,
      { r with stats := { r.stats with wakeLists := r.stats.wakeLists + batch.length } })
  else x

/-- The second block of `flushQueues`. -/
def flushInvokeQ (x : Nat × Reactor) : Nat × Reactor :=
  if !x.2.invokeQ.IsEmpty then
    let (batch, q) := x.2.invokeQ.DequeueMany MaxUint32
    let r := batch.foldl (fun r x => onFn x r) { x.2 with invokeQ := q }
    (x.1 + batch.length,
      { r with stats := { r.stats with invokes := r.stats.invokes + batch.length } })
  else x

/-- The third block of `flushQueues`. -/
def flushWakeQ (x : Nat × Reactor) : Nat × Reactor :=
  if !x.2.wakeQ.IsEmpty then
    let (batch, q) := x.2.wakeQ.DequeueMany MaxUint32
    let r := batch.foldl (fun r x => onWake x r) { x.2 with wakeQ := q }
    (x.1 + batch.length,
      { r with stats := { r.stats with wakes := r.stats.wakes + batch.length } })
  else x

/-- The fourth block of `flushQueues`. -/
def flushSpawnQ (x : Nat × Reactor) : Nat × Reactor :=
  if !x.2.spawnQ.IsEmpty then
    let (batch, q) := x.2.spawnQ.DequeueMany MaxUint32
    let r := batch.foldl (fun r x => onSpawn x r) { x.2 with spawnQ := q }
    (x.1 + batch.length,
      { r with stats := { r.stats with spawns := r.stats.spawns + batch.length } })
  else x

/-- The events one pass of `flushQueues` appends to the trace. -/
def Reactor.drained (r : Reactor) : List Event :=
  r.wakeListQ.batch.map Event.wakeList ++ r.invokeQ.batch.map Event.fn ++
    r.wakeQ.batch.map Event.wake ++ r.spawnQ.batch.map Event.spawn

/-- Whether a trace entry is a call of `Reactor.tick`. -/
def Event.isTick : Event → Bool
  | .tick _ => true
  | _ => false

/-- The wheels after `Reactor.tick` with non-zero ratios: level 1 advanced, then level 2
and level 3 when the tick number is a multiple of their ratio. -/
def cascade (tk now tp2 tp3 : Int) (c : Core) : Core :=
  let c := Wheel.tick .l1 now onTick c
  let c := if goMod tk tp2 = 0 then Wheel.tick .l2 now onTick c else c
  if goMod tk tp3 = 0 then Wheel.tick .l3 now onTick c else c

/-- The integers `a, a+1, ..., a+k-1`. -/
def upFrom (a : Int) (k : Nat) : List Int := (List.range k).map (fun (i : Nat) => a + (i : Int))

/-- The wheel that `Reactor.schedule` picks for a delay, if any. -/
def Core.levelFor (c : Core) (delay : Duration) : Option Level :=
  if delay < c.tickWheel.maxDur ∧ c.tickWheel.tickDur > 0 then some .l1
  else if delay < c.level2Wheel.maxDur ∧ c.level2Wheel.tickDur > 0 then some .l2
  else if delay < c.level3Wheel.maxDur ∧ c.level3Wheel.tickDur > 0 then some .l3
  else none

/-- Whether a wheel holds no entry of the task. -/
def Wheel.free (w : Wheel) (task : TaskRef) : Prop := ∀ e ∈ w.entries, e.task ≠ task

/-- The state `stopTask` reaches for a registered task before the close notification:
the map entry is deleted, the stop flag is set and the wheel slots are cleared. -/
def stopped (task : TaskRef) (c : Core) : Core :=
  Task.clearSlots task
    (({ c with tasks := Function.update c.tasks (c.heap task).id none } : Core).setTask task
      { c.heap task with stop := true })

/-- The effect of the user logic when `pollStart` polls the task in state `c`. -/
def startEffect (now : Int) (task : TaskRef) (c : Core) : Effect :=
  (c.heap task).future.Poll
    ⟨({ c.heap task with started := now } : Task).view, now, 0, .Start⟩

/-- The invariant of the active map for one task: it is in the map exactly if it has been
started and its stop flag is unset. -/
def Registered (started : Prop) (task : TaskRef) (c : Core) : Prop :=
  c.tasks (c.heap task).id = some task ↔ (started ∧ (c.heap task).stop = false)

/-- What a poll path on `task` leaves alone for another task `other`, from state `c` to
state `c'`: the object of `other` (its stop flag with it), the map entry under its id and
its entries in each wheel.  The id of `task` stays as well. -/
def Untouched (task other : TaskRef) (c c' : Core) : Prop :=
  (c'.heap task).id = (c.heap task).id ∧ c'.heap other = c.heap other ∧
    c'.tasks (c.heap other).id = c.tasks (c.heap other).id ∧
    ∀ lvl, (c'.wheel lvl).entries.filter (fun e => e.task = other) =
      (c.wheel lvl).entries.filter (fun e => e.task = other)

/-- The effect of the user logic when `pollInterval` polls the task in state `c`. -/
def intervalEffect (now : Int) (task : TaskRef) (c : Core) : Effect :=
  (c.heap task).future.Poll
    ⟨({ c.heap task with intervals := (c.heap task).intervals + 1 } : Task).view, now,
      (c.heap task).interval, .Interval⟩

/-- The calls of user logic in a call log. -/
def polls (calls : List Call) : List Call :=
  calls.filter (fun e => match e with | .poll _ _ => true | _ => false)

/-- The delays of the interval entries that a call log schedules for a task. -/
def intervalDelays (task : TaskRef) (calls : List Call) : List Duration :=
  calls.filterMap (fun e => match e with
    | .schedule _ t d false => if t = task then some d else none
    | _ => none)

/-- The state after the poll of `pollInterval` returned without a stop signal: the poll
is logged and a changed positive `wakeAfter` is scheduled as a wake entry. -/
def intervalPolled (now : Int) (task : TaskRef) (c : Core) : Core :=
  let c1 := (callPoll task now (c.heap task).interval .Interval
    (c.setTask task { c.heap task with intervals := (c.heap task).intervals + 1 })).2
  if (c1.heap task).wakeAfter ≠ (c.heap task).wakeAfter ∧ (c1.heap task).wakeAfter > 0 then
    schedule task (c1.heap task).wakeAfter true c1
  else c1

/-- Two calls of `maybeProcessTick` in a row with the same tick value. -/
def maybeProcessTickTwice (v : Int) (r : Reactor) : Except Fault Reactor :=
  match maybeProcessTick v r with
  | .error e => .error e
  | .ok r1 => maybeProcessTick v r1

/-- The finest level whose maximum representable delay strictly exceeds `delay`, in the
words of the specification: the search looks at `maxDur` only. -/
def finestLevel (c : Core) (delay : Duration) : Option Level :=
  [Level.l1, Level.l2, Level.l3].find? (fun l => decide (delay < (c.wheel l).maxDur))

/-- The wheel advances (calls of `Wheel.tick`) in a call log, oldest first. -/
def advances (calls : List Call) : List Level :=
  calls.filterMap (fun e => match e with | .advance l => some l | _ => none)

/-- What the poll paths leave alone between two states: the log of wheel advances and the
cursor and the number of slots of each wheel. -/
def Steady (c c' : Core) : Prop :=
  advances c'.calls = advances c.calls ∧
    ∀ lvl, (c'.wheel lvl).cursor = (c.wheel lvl).cursor ∧
      (c'.wheel lvl).durations = (c.wheel lvl).durations

/-- `Reactor.tick` called for the tick numbers `1, 2, ..., n` in turn. -/
def runTicks : Nat → Int → Reactor → Except Fault Reactor
  | 0, _, r => .ok r
  | n + 1, now, r =>
    match runTicks n now r with
    | .error e => .error e
    | .ok r1 => tick ((n : Int) + 1) now r1

/-- The tick numbers that `maybeProcessTick v` hands to `Reactor.tick`, in order: none for
an ignored value; otherwise the numbers `lastTick+1, ..., v` of the catch-up loop when more
than one tick has elapsed, and then `v`. -/
def ticksDue (v : Int) (r : Reactor) : List Int :=
  if v < 1 ∨ v = r.lastTick then []
  else if r.lastTick < v - 1 then upFrom (r.lastTick + 1) (v - r.lastTick).toNat ++ [v]
  else [v]

/-- The core after the task slots of a wake list were woken in order; a nil slot is
skipped. -/
def wakeSlots (now : Int) (slots : List (Option TaskRef)) (c : Core) : Core :=
  slots.foldl (fun c s => match s with | none => c | some t => (pollWake now t c).core) c

/-- The core that one pass of `flushQueues` leaves: `pollWake` for every task slot of every
dequeued wake list, then `pollWake` for every dequeued wake, then `pollStart` for every
dequeued spawn, each in queue order. -/
def Reactor.drainedCore (r : Reactor) : Core :=
  r.spawnQ.batch.foldl (fun c t => (pollStart r.now t c).core)
    (r.wakeQ.batch.foldl (fun c t => (pollWake r.now t c).core)
      (r.wakeListQ.batch.foldl (fun c x => wakeSlots r.now x.wakes c) r.core))

/-! ## Example states -/

/-- User logic that leaves its task as it is and returns nil. -/
def Future.idle : Future :=
  ⟨fun ctx => ⟨false, ctx.Task.wakeAfter, ctx.Task.interval, .returned none⟩, none⟩

/-- A fresh task object with the given id, owner and logic. -/
def Task.fresh (id : Int) (reactor : Option ReactorRef) (future : Future) : Task :=
  ⟨id, reactor, future, false, 0, 0, 0, 0, 0⟩

/-- An empty wheel with the given tick duration and number of slots. -/
def Wheel.empty (tickDur : Duration) (slots : Nat) : Wheel :=
  ⟨tickDur, tickDur * slots, slots, 0, []⟩

/-- A core with empty wheels of 10ms x 25, 250ms x 16 and 4s x 16 and an empty task map. -/
def Core.example (heap : TaskRef → Task) : Core :=
  { heap := heap
    tasks := fun _ => none
    tickWheel := Wheel.empty (10 * Millisecond) 25
    level2Wheel := Wheel.empty (250 * Millisecond) 16
    level3Wheel := Wheel.empty (4 * Second) 16
    calls := [] }

/-- The configuration of the example reactor. -/
def Config.example : Config :=
  ⟨"loop", Wheel.empty (10 * Millisecond) 25, Wheel.empty (250 * Millisecond) 16,
    Wheel.empty (4 * Second) 16, 8, 8, 8, false⟩

/-- A reactor over `Core.example` with empty queues of capacity 8 whose last processed
tick is `lastTick`; the clock stands still at 0. -/
def Reactor.example (heap : TaskRef → Task) (lastTick : Int) : Reactor :=
  { stats := Stats.zero
    id := 0
    now := 0
    config := Config.example
    wakeQ := ⟨8, []⟩
    wakeListQ := ⟨8, []⟩
    spawnQ := ⟨8, []⟩
    invokeQ := ⟨8, []⟩
    lastTick := lastTick
    currentTick := lastTick
    core := Core.example heap
    tickDur := 10 * Millisecond
    ticksPerLevel2 := 25
    ticksPerLevel3 := 400
    clock := fun _ => 0
    reads := 0
    trace := [] }

/-- A world with two reactors: reactor 0 has room in its wake queue, the wake queue of
reactor 1 is full.  Task 7 belongs to reactor 1. -/
def World.example : World :=
  { heap := fun _ => Task.fresh 7 (some 1) Future.idle
    wakeQ := fun r => if r = 1 then ⟨2, [5, 6]⟩ else ⟨2, []⟩ }

/-- Dependencies used in the examples: sizes are kept, presets are 250ms, 1s and 1min wheels. -/
def Deps.example : Deps :=
  { CeilToPowerOf2 := fun n => n
    Millis250 := Wheel.empty (250 * Millisecond) 16
    Seconds := Wheel.empty Second 60
    Minutes := Wheel.empty (60 * Second) 60
    index := 0
    heap := fun _ => Task.fresh 0 none Future.idle
    clock := fun _ => 0 }

/-- A configuration with level-1 tick `l1`, level-2 tick `l2` and level-3 tick `l3`. -/
def Config.ofTicks (l1 l2 l3 : Duration) : Config :=
  ⟨"reactor", Wheel.empty l1 25, Wheel.empty l2 16, Wheel.empty l3 16, 1024, 1024, 1024, false⟩

/-- User logic whose Start poll asks for a wake after 50ms and whose Wake poll returns
`ErrStop`. -/
def Future.wakeOnce : Future :=
  ⟨fun ctx =>
      match ctx.Reason with
      | .Start => ⟨false, 50 * Millisecond, ctx.Task.interval, .returned none⟩
      | .Wake => ⟨false, ctx.Task.wakeAfter, ctx.Task.interval, .returned (some .ErrStop)⟩
      | .Interval => ⟨false, ctx.Task.wakeAfter, ctx.Task.interval, .returned none⟩,
    none⟩

/-- User logic whose every call panics, the close notification included. -/
def Future.panicking : Future :=
  ⟨fun ctx => ⟨false, ctx.Task.wakeAfter, ctx.Task.interval, .panicked⟩,
    some (fun ev => ⟨false, ev.Task.wakeAfter, ev.Task.interval, .panicked⟩)⟩

/-- User logic that sets its interval to `next` in every Interval poll and returns nil. -/
def Future.retime (next : Duration) : Future :=
  ⟨fun ctx =>
      match ctx.Reason with
      | .Interval => ⟨false, ctx.Task.wakeAfter, next, .returned none⟩
      | _ => ⟨false, ctx.Task.wakeAfter, ctx.Task.interval, .returned none⟩,
    none⟩

/-- Idle user logic with a close notification that returns nil. -/
def Future.closing : Future :=
  ⟨fun ctx => ⟨false, ctx.Task.wakeAfter, ctx.Task.interval, .returned none⟩,
    some (fun ev => ⟨false, ev.Task.wakeAfter, ev.Task.interval, .returned none⟩)⟩

/-- The example core with one task object, at address 0 with id 1, running `future`. -/
def Core.single (future : Future) : Core :=
  Core.example (fun _ => Task.fresh 1 (some 0) future)

/-- The example core with one task object, at address 0 with id 1, spawned with an interval
of 100ms and running `future`. -/
def Core.every100ms (future : Future) : Core :=
  Core.example (fun _ => { Task.fresh 1 (some 0) future with interval := 100 * Millisecond })

/-- A core with two task objects: task 0 (id 1) runs panicking logic; task 1 (id 2) is
idle, registered in the active map and holds an interval entry in the level-1 wheel. -/
def Core.pair : Core :=
  { Core.example (fun p =>
      if p = 0 then Task.fresh 1 (some 0) Future.panicking
      else { Task.fresh 2 (some 0) Future.idle with interval := 100 * Millisecond }) with
    tasks := fun k => if k = 2 then some 1 else none
    tickWheel := (Wheel.empty (10 * Millisecond) 25).insert 1 (100 * Millisecond) false }

/-- The example reactor at last tick 4 with work in all four queues: one wake list, one
callback, one wake and one spawn, for the idle task at address 0. -/
def Reactor.busy : Reactor :=
  { Reactor.example (fun _ => Task.fresh 1 (some 0) Future.idle) 4 with
    wakeListQ := ⟨8, [⟨0, [some 0], [none]⟩]⟩
    invokeQ := ⟨8, [some ⟨1, false⟩]⟩
    wakeQ := ⟨8, [0]⟩
    spawnQ := ⟨8, [0]⟩ }

/-- The example core in which task 0 waits in the level-2 wheel for a wake after one second,
as after `WakeAfter(task, 1s)`. -/
def Core.waiting : Core := schedule 0 Second true (Core.single Future.idle)

/-! # Theorems -/

/-! ## Draining the queues -/

theorem foldl_onWake (l : List TaskRef) (r : Reactor) :
    ∃ c, l.foldl (fun r x => onWake x r) r =
      { r with core := c, trace := r.trace ++ l.map Event.wake } := by
  induction l generalizing r with
  | nil => exact ⟨r.core, by simp⟩
  | cons x xs ih =>
    obtain ⟨c, hc⟩ := ih (onWake x r)
    refine ⟨c, ?_⟩
    simp only [List.foldl_cons, hc]
    simp [onWake, Reactor.log]

theorem foldl_onSpawn (l : List TaskRef) (r : Reactor) :
    ∃ c, l.foldl (fun r x => onSpawn x r) r =
      { r with core := c, trace := r.trace ++ l.map Event.spawn } := by
  induction l generalizing r with
  | nil => exact ⟨r.core, by simp⟩
  | cons x xs ih =>
    obtain ⟨c, hc⟩ := ih (onSpawn x r)
    refine ⟨c, ?_⟩
    simp only [List.foldl_cons, hc]
    simp [onSpawn, Reactor.log]

theorem foldl_onFn (l : List (Option Fn)) (r : Reactor) :
    l.foldl (fun r x => onFn x r) r = { r with trace := r.trace ++ l.map Event.fn } := by
  induction l generalizing r with
  | nil => simp
  | cons x xs ih =>
    simp only [List.foldl_cons, ih]
    simp [onFn, invoke, Reactor.log]

theorem foldl_onTaskSlotWake (l : List (Option TaskRef)) (r : Reactor) :
    ∃ c, l.foldl (fun r s => onTaskSlotWake s r) r = { r with core := c } := by
  induction l generalizing r with
  | nil => exact ⟨r.core, rfl⟩
  | cons x xs ih =>
    obtain ⟨c, hc⟩ := ih (onTaskSlotWake x r)
    refine ⟨c, ?_⟩
    simp only [List.foldl_cons, hc]
    cases x <;> simp [onTaskSlotWake]

theorem foldl_onFuncSlotWake (l : List (Option Fn)) (r : Reactor) :
    l.foldl (fun r s => onFuncSlotWake s r) r = r := by
  induction l generalizing r with
  | nil => rfl
  | cons x xs ih =>
    simp only [List.foldl_cons, ih]
    cases x <;> simp [onFuncSlotWake, invoke]

theorem pollWakeList_shape (now : Int) (list : WakeList) (r : Reactor) :
    ∃ c st, pollWakeList now list r = { r with core := c, stats := st } := by
  obtain ⟨c, hc⟩ := foldl_onTaskSlotWake list.wakes r
  simp only [pollWakeList, hc, foldl_onFuncSlotWake]
  exact ⟨c, _, rfl⟩

theorem foldl_onWakeList (l : List WakeList) (r : Reactor) :
    ∃ c st, l.foldl (fun r x => onWakeList x r) r =
      { r with core := c, stats := st, trace := r.trace ++ l.map Event.wakeList } := by
  induction l generalizing r with
  | nil => exact ⟨r.core, r.stats, by simp⟩
  | cons x xs ih =>
    obtain ⟨c, st, hc⟩ := ih (onWakeList x r)
    obtain ⟨c1, st1, h1⟩ := pollWakeList_shape r.now x (r.log (.wakeList x))
    refine ⟨c, st, ?_⟩
    simp only [List.foldl_cons, hc]
    simp only [onWakeList, Reactor.log] at h1 ⊢
    simp [h1]

theorem flushQueues_blocks (r : Reactor) :
    flushQueues r = flushSpawnQ (flushWakeQ (flushInvokeQ (flushWakeListQ (0, r)))) := rfl

theorem BoundedWake.batch_of_empty {α : Type} (q : BoundedWake α) (h : q.items = []) :
    q.batch = [] := by simp [BoundedWake.batch, h]

theorem BoundedWake.rest_of_empty {α : Type} (q : BoundedWake α) (h : q.items = []) :
    q.rest = q := by
  cases q; simp only [BoundedWake.rest] at *; simp [h]

theorem flushWakeListQ_shape (n : Nat) (r : Reactor) :
    ∃ c st, flushWakeListQ (n, r) = (n + r.wakeListQ.batch.length,
      { r with core := c, stats := st, wakeListQ := r.wakeListQ.rest,
               trace := r.trace ++ r.wakeListQ.batch.map Event.wakeList }) := by
  by_cases h : r.wakeListQ.items = []
  · refine ⟨r.core, r.stats, ?_⟩
    simp [flushWakeListQ, BoundedWake.IsEmpty, h, BoundedWake.batch_of_empty,
      BoundedWake.rest_of_empty]
  · obtain ⟨c, st, hc⟩ := foldl_onWakeList r.wakeListQ.batch { r with wakeListQ := r.wakeListQ.rest }
    simp only [BoundedWake.batch, BoundedWake.rest] at hc ⊢
    have hne : (!r.wakeListQ.IsEmpty) = true := by simp [BoundedWake.IsEmpty, h]
    simp only [flushWakeListQ, hne, if_true, BoundedWake.DequeueMany, hc]
    exact ⟨c, _, rfl⟩

theorem flushInvokeQ_shape (n : Nat) (r : Reactor) :
    ∃ st, flushInvokeQ (n, r) = (n + r.invokeQ.batch.length,
      { r with stats := st, invokeQ := r.invokeQ.rest,
               trace := r.trace ++ r.invokeQ.batch.map Event.fn }) := by
  by_cases h : r.invokeQ.items = []
  · refine ⟨r.stats, ?_⟩
    simp [flushInvokeQ, BoundedWake.IsEmpty, h, BoundedWake.batch_of_empty,
      BoundedWake.rest_of_empty]
  · simp only [BoundedWake.batch, BoundedWake.rest]
    have hne : (!r.invokeQ.IsEmpty) = true := by simp [BoundedWake.IsEmpty, h]
    simp only [flushInvokeQ, hne, if_true, BoundedWake.DequeueMany, foldl_onFn]
    exact ⟨_, rfl⟩

theorem flushWakeQ_shape (n : Nat) (r : Reactor) :
    ∃ c st, flushWakeQ (n, r) = (n + r.wakeQ.batch.length,
      { r with core := c, stats := st, wakeQ := r.wakeQ.rest,
               trace := r.trace ++ r.wakeQ.batch.map Event.wake }) := by
  by_cases h : r.wakeQ.items = []
  · refine ⟨r.core, r.stats, ?_⟩
    simp [flushWakeQ, BoundedWake.IsEmpty, h, BoundedWake.batch_of_empty,
      BoundedWake.rest_of_empty]
  · obtain ⟨c, hc⟩ := foldl_onWake r.wakeQ.batch { r with wakeQ := r.wakeQ.rest }
    simp only [BoundedWake.batch, BoundedWake.rest] at hc ⊢
    have hne : (!r.wakeQ.IsEmpty) = true := by simp [BoundedWake.IsEmpty, h]
    simp only [flushWakeQ, hne, if_true, BoundedWake.DequeueMany, hc]
    exact ⟨c, _, rfl⟩

theorem flushSpawnQ_shape (n : Nat) (r : Reactor) :
    ∃ c st, flushSpawnQ (n, r) = (n + r.spawnQ.batch.length,
      { r with core := c, stats := st, spawnQ := r.spawnQ.rest,
               trace := r.trace ++ r.spawnQ.batch.map Event.spawn }) := by
  by_cases h : r.spawnQ.items = []
  · refine ⟨r.core, r.stats, ?_⟩
    simp [flushSpawnQ, BoundedWake.IsEmpty, h, BoundedWake.batch_of_empty,
      BoundedWake.rest_of_empty]
  · obtain ⟨c, hc⟩ := foldl_onSpawn r.spawnQ.batch { r with spawnQ := r.spawnQ.rest }
    simp only [BoundedWake.batch, BoundedWake.rest] at hc ⊢
    have hne : (!r.spawnQ.IsEmpty) = true := by simp [BoundedWake.IsEmpty, h]
    simp only [flushSpawnQ, hne, if_true, BoundedWake.DequeueMany, hc]
    exact ⟨c, _, rfl⟩

theorem flushQueues_shape (r : Reactor) :
    ∃ c st, flushQueues r =
      (r.wakeListQ.batch.length + r.invokeQ.batch.length + r.wakeQ.batch.length +
          r.spawnQ.batch.length,
        { r with core := c, stats := st, wakeListQ := r.wakeListQ.rest,
                 invokeQ := r.invokeQ.rest, wakeQ := r.wakeQ.rest, spawnQ := r.spawnQ.rest,
                 trace := r.trace ++ r.drained }) := by
  obtain ⟨c1, st1, h1⟩ := flushWakeListQ_shape 0 r
  rw [flushQueues_blocks, h1]
  obtain ⟨st2, h2⟩ := flushInvokeQ_shape (0 + r.wakeListQ.batch.length)
    { r with core := c1, stats := st1, wakeListQ := r.wakeListQ.rest,
             trace := r.trace ++ r.wakeListQ.batch.map Event.wakeList }
  rw [h2]
  obtain ⟨c3, st3, h3⟩ := flushWakeQ_shape (0 + r.wakeListQ.batch.length + r.invokeQ.batch.length)
    { r with core := c1, stats := st2, wakeListQ := r.wakeListQ.rest, invokeQ := r.invokeQ.rest,
             trace := r.trace ++ r.wakeListQ.batch.map Event.wakeList ++
               r.invokeQ.batch.map Event.fn }
  simp only [List.append_assoc] at h3 ⊢
  rw [h3]
  obtain ⟨c4, st4, h4⟩ := flushSpawnQ_shape
    (0 + r.wakeListQ.batch.length + r.invokeQ.batch.length + r.wakeQ.batch.length)
    { r with core := c3, stats := st3, wakeListQ := r.wakeListQ.rest, invokeQ := r.invokeQ.rest,
             wakeQ := r.wakeQ.rest,
             trace := r.trace ++ (r.wakeListQ.batch.map Event.wakeList ++
               (r.invokeQ.batch.map Event.fn ++ r.wakeQ.batch.map Event.wake)) }
  simp only [List.append_assoc] at h4 ⊢
  rw [h4]
  refine ⟨c4, st4, ?_⟩
  simp [Reactor.drained]

/-! ## Ticks and catch-up -/

theorem wrap64_of_inInt64 (x : Int) (h : inInt64 x) : wrap64 x = x := by
  unfold inInt64 minInt64 maxInt64 at h
  unfold wrap64
  omega

theorem drained_not_tick (r : Reactor) : ∀ e ∈ r.drained, e.isTick = false := by
  intro e he
  simp only [Reactor.drained, List.mem_append, List.mem_map] at he
  rcases he with ((⟨_, _, rfl⟩ | ⟨_, _, rfl⟩) | ⟨_, _, rfl⟩) | ⟨_, _, rfl⟩ <;> rfl

theorem tick_eq (n now : Int) (r : Reactor) :
    tick n now r =
      if r.ticksPerLevel2 = 0 ∨ r.ticksPerLevel3 = 0 then .error .divideByZero
      else .ok { r with core := cascade n now r.ticksPerLevel2 r.ticksPerLevel3 r.core,
                        trace := r.trace ++ [Event.tick n] } := by
  unfold tick cascade
  by_cases h2 : r.ticksPerLevel2 = 0
  · simp [h2, Reactor.log]
  · by_cases h3 : r.ticksPerLevel3 = 0
    · by_cases hm2 : goMod n r.ticksPerLevel2 = 0 <;> simp [h2, h3, hm2, Reactor.log]
    · by_cases hm2 : goMod n r.ticksPerLevel2 = 0 <;>
        by_cases hm3 : goMod n r.ticksPerLevel3 = 0 <;>
        simp [h2, h3, hm2, hm3, Reactor.log]

theorem tick_ok (n now : Int) (r r' : Reactor) (h : tick n now r = .ok r') :
    ∃ c, r' = { r with core := c, trace := r.trace ++ [Event.tick n] } := by
  rw [tick_eq] at h
  split at h
  · cases h
  · injection h with h
    exact ⟨_, h.symm⟩

theorem tick_total (n now : Int) (r : Reactor) (h2 : r.ticksPerLevel2 ≠ 0)
    (h3 : r.ticksPerLevel3 ≠ 0) : ∃ r', tick n now r = .ok r' := by
  rw [tick_eq]
  simp [h2, h3]

theorem catchupLoop_ok (cur now : Int) :
    ∀ (fuel : Nat) (next : Int) (r r' : Reactor), catchupLoop fuel next cur now r = .ok r' →
      ∃ (c : Core) (ns : List Int), r' = { r with core := c, trace := r.trace ++ ns.map Event.tick } := by
  intro fuel
  induction fuel with
  | zero => intro next r r' h; simp [catchupLoop] at h
  | succ k ih =>
    intro next r r' h
    simp only [catchupLoop] at h
    split at h
    · cases ht : tick next now r with
      | error e => simp [ht] at h
      | ok r1 =>
        simp only [ht] at h
        obtain ⟨c1, h1⟩ := tick_ok _ _ _ _ ht
        obtain ⟨c, ns, hc⟩ := ih _ _ _ h
        refine ⟨c, next :: ns, ?_⟩
        rw [hc, h1]
        simp
    · injection h with h
      exact ⟨r.core, [], by simp [← h]⟩

theorem upFrom_succ (a : Int) (k : Nat) : upFrom a (k + 1) = a :: upFrom (a + 1) k := by
  simp only [upFrom, List.range_succ_eq_map, List.map_cons, List.map_map]
  refine congrArg₂ _ (by simp) ?_
  apply List.map_congr_left
  intro i _
  simp only [Function.comp, Nat.succ_eq_add_one]
  push_cast
  ring

theorem catchupLoop_total (cur now : Int) (hcur : cur < maxInt64) :
    ∀ (k : Nat) (next : Int) (r : Reactor), r.ticksPerLevel2 ≠ 0 → r.ticksPerLevel3 ≠ 0 →
      minInt64 ≤ next → next + k = cur + 1 →
      ∃ c, catchupLoop (k + 1) next cur now r =
        .ok { r with core := c, trace := r.trace ++ (upFrom next k).map Event.tick } := by
  intro k
  induction k with
  | zero =>
    intro next r _ _ _ hk
    refine ⟨r.core, ?_⟩
    have : ¬ next ≤ cur := by omega
    simp [catchupLoop, this, upFrom]
  | succ k ih =>
    intro next r h2 h3 hlo hk
    have hle : next ≤ cur := by omega
    obtain ⟨r1, ht⟩ := tick_total next now r h2 h3
    obtain ⟨c1, h1⟩ := tick_ok _ _ _ _ ht
    subst h1
    have hw : wrap64 (next + 1) = next + 1 := by
      apply wrap64_of_inInt64
      unfold inInt64
      unfold maxInt64 at hcur
      unfold minInt64 at hlo ⊢
      unfold maxInt64
      omega
    obtain ⟨c, hc⟩ := ih (next + 1) { r with core := c1, trace := r.trace ++ [Event.tick next] }
      h2 h3 (by omega) (by push_cast at hk ⊢; omega)
    refine ⟨c, ?_⟩
    rw [catchupLoop, if_pos hle, ht]
    simp only [hw]
    rw [hc]
    simp [upFrom_succ]

theorem afterTick_shape (interval start : Int) (r : Reactor) :
    ∃ c st, afterTick interval start r =
      { r with core := c, stats := st, reads := r.reads + 2,
               wakeListQ := r.wakeListQ.rest, invokeQ := r.invokeQ.rest,
               wakeQ := r.wakeQ.rest, spawnQ := r.spawnQ.rest,
               trace := r.trace ++ r.drained } := by
  obtain ⟨c, st, h⟩ := flushQueues_shape
    { r with reads := r.reads + 1, stats := tickStats (r.clock r.reads - start) r.stats }
  simp only [afterTick, NanoTime, h, rebalance, ite_self]
  exact ⟨c, _, rfl⟩

theorem processTick_ok (tk : Int) (r r' : Reactor) (h : processTick tk r = .ok r') :
    ∃ c st, r' = { r with core := c, stats := st, reads := r.reads + 3,
                          wakeListQ := r.wakeListQ.rest, invokeQ := r.invokeQ.rest,
                          wakeQ := r.wakeQ.rest, spawnQ := r.spawnQ.rest,
                          trace := r.trace ++ [Event.tick tk] ++ r.drained } := by
  simp only [processTick, NanoTime] at h
  cases ht : tick tk (r.clock r.reads) { r with reads := r.reads + 1 } with
  | error e => simp [ht] at h
  | ok r1 =>
    obtain ⟨c1, h1⟩ := tick_ok _ _ _ _ ht
    subst h1
    simp only [ht] at h
    injection h with h
    obtain ⟨c, st, hs⟩ := afterTick_shape r.tickDur (r.clock r.reads)
      { r with reads := r.reads + 1, core := c1, trace := r.trace ++ [Event.tick tk] }
    rw [hs] at h
    exact ⟨c, st, h.symm⟩

theorem processTick_total (tk : Int) (r : Reactor) (h2 : r.ticksPerLevel2 ≠ 0)
    (h3 : r.ticksPerLevel3 ≠ 0) : ∃ r', processTick tk r = .ok r' := by
  obtain ⟨r1, ht⟩ := tick_total tk (r.clock r.reads) { r with reads := r.reads + 1 } h2 h3
  simp only [processTick, NanoTime, ht]
  exact ⟨_, rfl⟩

theorem ticked_append (r : Reactor) (es : List Event) :
    ({ r with trace := r.trace ++ es } : Reactor).ticked =
      r.ticked ++ es.filterMap (fun e => match e with | .tick n => some n | _ => none) := by
  simp [Reactor.ticked, List.filterMap_append]

theorem filterMap_tick_map (ns : List Int) :
    (ns.map Event.tick).filterMap (fun e => match e with | .tick n => some n | _ => none) = ns := by
  induction ns with
  | nil => rfl
  | cons n ns ih => simp [List.filterMap_cons, ih]

theorem filterMap_tick_of_not_tick (ds : List Event) (h : ∀ e ∈ ds, e.isTick = false) :
    ds.filterMap (fun e => match e with | .tick n => some n | _ => none) = [] := by
  induction ds with
  | nil => rfl
  | cons d ds ih =>
    have hd := h d (List.mem_cons_self _ _)
    have ht := ih (fun e he => h e (List.mem_cons_of_mem _ he))
    cases d <;> simp_all [Event.isTick, List.filterMap_cons]

theorem catchup_ok (last cur : Int) (r r' : Reactor) (h : catchup last cur r = .ok r') :
    ∃ (c : Core) (ns : List Int),
      r' = { r with core := c, reads := r.reads + 1, trace := r.trace ++ ns.map Event.tick } := by
  simp only [catchup, NanoTime] at h
  obtain ⟨c, ns, hc⟩ := catchupLoop_ok _ _ _ _ _ _ h
  exact ⟨c, ns, hc⟩

theorem catchup_total (last cur : Int) (r : Reactor) (h2 : r.ticksPerLevel2 ≠ 0)
    (h3 : r.ticksPerLevel3 ≠ 0) (hlo : minInt64 ≤ last + 1) (hlt : last < cur)
    (hcur : cur < maxInt64) :
    ∃ c, catchup last cur r =
      .ok { r with core := c, reads := r.reads + 1,
                   trace := r.trace ++ (upFrom (last + 1) (cur - last).toNat).map Event.tick } := by
  have hw : wrap64 (last + 1) = last + 1 := by
    apply wrap64_of_inInt64
    unfold inInt64
    unfold maxInt64 at hcur ⊢
    omega
  obtain ⟨c, hc⟩ := catchupLoop_total cur (r.clock r.reads) hcur (cur - last).toNat (last + 1)
    { r with reads := r.reads + 1 } h2 h3 hlo (by omega)
  refine ⟨c, ?_⟩
  simp only [catchup, NanoTime, hw, hc]

/-- What `maybeProcessTick` leaves when it returns: nothing changes for an ignored tick
value; otherwise the catch-up ticks `ns`, then the tick `v`, then one flush. -/
theorem maybeProcessTick_ok (v : Int) (r r' : Reactor) (h : maybeProcessTick v r = .ok r') :
    ((v < 1 ∨ v = r.lastTick) ∧ r' = r) ∨
    (¬ (v < 1 ∨ v = r.lastTick) ∧ ∃ (c : Core) (st : Stats) (rd : Nat) (ns : List Int),
      r' = { r with core := c, stats := st, reads := rd, currentTick := v, lastTick := v,
                    wakeListQ := r.wakeListQ.rest, invokeQ := r.invokeQ.rest,
                    wakeQ := r.wakeQ.rest, spawnQ := r.spawnQ.rest,
                    trace := r.trace ++ ns.map Event.tick ++ [Event.tick v] ++ r.drained }) := by
  unfold maybeProcessTick at h
  by_cases hv : v < 1 ∨ v = r.lastTick
  · rw [if_pos hv] at h
    injection h with h
    exact Or.inl ⟨hv, h.symm⟩
  · rw [if_neg hv] at h
    refine Or.inr ⟨hv, ?_⟩
    by_cases hs : r.lastTick < v - 1
    · simp only [hs, if_true] at h
      cases hc : catchup r.lastTick v { r with currentTick := v } with
      | error e => simp [hc] at h
      | ok r1 =>
        obtain ⟨c1, ns, h1⟩ := catchup_ok _ _ _ _ hc
        dsimp only at h1
        simp only [hc] at h
        obtain ⟨c, st, hp⟩ := processTick_ok _ _ _ h
        rw [h1] at hp
        dsimp only [Reactor.drained] at hp
        exact ⟨c, st, r.reads + 1 + 3, ns, by rw [hp]; simp [Reactor.drained]⟩
    · simp only [hs, if_false] at h
      obtain ⟨c, st, hp⟩ := processTick_ok _ _ _ h
      dsimp only [Reactor.drained] at hp
      exact ⟨c, st, r.reads + 3, [], by rw [hp]; simp [Reactor.drained]⟩

theorem maybeProcessTick_skew (v : Int) (r : Reactor) (h2 : r.ticksPerLevel2 ≠ 0)
    (h3 : r.ticksPerLevel3 ≠ 0) (hL : 0 ≤ r.lastTick) (hv : r.lastTick + 1 < v)
    (hmax : v < maxInt64) :
    ∃ r', maybeProcessTick v r = .ok r' ∧ r'.lastTick = v ∧
      r'.ticked = r.ticked ++ upFrom (r.lastTick + 1) (v - r.lastTick).toNat ++ [v] := by
  have hign : ¬ (v < 1 ∨ v = r.lastTick) := by omega
  have hs : r.lastTick < v - 1 := by omega
  obtain ⟨c1, hc⟩ := catchup_total r.lastTick v { r with currentTick := v } h2 h3
    (by unfold minInt64; omega) (by omega) hmax
  obtain ⟨r', hp⟩ := processTick_total v
    { r with currentTick := v, lastTick := v, core := c1, reads := r.reads + 1,
             trace := r.trace ++ (upFrom (r.lastTick + 1) (v - r.lastTick).toNat).map Event.tick }
    h2 h3
  obtain ⟨c, st, hshape⟩ := processTick_ok _ _ _ hp
  refine ⟨r', ?_, ?_, ?_⟩
  · simp only [maybeProcessTick, if_neg hign, hs, if_true, hc]
    exact hp
  · rw [hshape]
  · have hd := filterMap_tick_of_not_tick r.drained (drained_not_tick r)
    rw [hshape]
    simp only [Reactor.ticked, Reactor.drained, List.filterMap_append, List.append_eq_nil,
      filterMap_tick_map] at hd ⊢
    simp [hd, List.filterMap_cons]

theorem maybeProcessTick_next (v : Int) (r : Reactor) (h2 : r.ticksPerLevel2 ≠ 0)
    (h3 : r.ticksPerLevel3 ≠ 0) (hL : 0 ≤ r.lastTick) (hv : v = r.lastTick + 1) :
    ∃ r', maybeProcessTick v r = .ok r' ∧ r'.lastTick = v ∧ r'.ticked = r.ticked ++ [v] := by
  have hign : ¬ (v < 1 ∨ v = r.lastTick) := by omega
  have hs : ¬ r.lastTick < v - 1 := by omega
  obtain ⟨r', hp⟩ := processTick_total v { r with currentTick := v, lastTick := v } h2 h3
  obtain ⟨c, st, hshape⟩ := processTick_ok _ _ _ hp
  refine ⟨r', ?_, ?_, ?_⟩
  · simp only [maybeProcessTick, if_neg hign, hs, if_false]
    exact hp
  · rw [hshape]
  · have hd := filterMap_tick_of_not_tick r.drained (drained_not_tick r)
    rw [hshape]
    simp only [Reactor.ticked, Reactor.drained, List.filterMap_append, List.append_eq_nil,
      filterMap_tick_map] at hd ⊢
    simp [hd, List.filterMap_cons]

theorem BoundedWake.rest_of_batch_nil {α : Type} (q : BoundedWake α) (h : q.batch.length = 0) :
    q.rest = { q with items := [] } := by
  have hb : q.items.take MaxUint32 = [] := List.length_eq_zero.mp h
  rcases List.take_eq_nil_iff.mp hb with h0 | h0
  · exact absurd h0 (by decide)
  · simp [BoundedWake.rest, h0]

theorem BoundedWake.batch_add_rest {α : Type} (q : BoundedWake α) :
    q.batch.length + q.rest.items.length = q.items.length := by
  simp only [BoundedWake.batch, BoundedWake.rest, List.length_take, List.length_drop]
  omega

theorem maybeProcessTick_total (v : Int) (r : Reactor) (h2 : r.ticksPerLevel2 ≠ 0)
    (h3 : r.ticksPerLevel3 ≠ 0) (hL : minInt64 ≤ r.lastTick) (hmax : v < maxInt64) :
    ∃ r', maybeProcessTick v r = .ok r' := by
  by_cases hign : v < 1 ∨ v = r.lastTick
  · exact ⟨r, by simp only [maybeProcessTick, if_pos hign]⟩
  · by_cases hs : r.lastTick < v - 1
    · obtain ⟨c1, hc⟩ := catchup_total r.lastTick v { r with currentTick := v } h2 h3
        (by omega) (by omega) hmax
      obtain ⟨r', hp⟩ := processTick_total v
        { r with currentTick := v, lastTick := v, core := c1, reads := r.reads + 1,
                 trace := r.trace ++
                   (upFrom (r.lastTick + 1) (v - r.lastTick).toNat).map Event.tick } h2 h3
      refine ⟨r', ?_⟩
      simp only [maybeProcessTick, if_neg hign, hs, if_true, hc]
      exact hp
    · obtain ⟨r', hp⟩ := processTick_total v { r with currentTick := v, lastTick := v } h2 h3
      refine ⟨r', ?_⟩
      simp only [maybeProcessTick, if_neg hign, hs, if_false]
      exact hp

/-- What the drain loop leaves when it exits: the four queues are empty and only drained
items were added to the trace. -/
theorem flushLoop_ok :
    ∀ (fuel : Nat) (r r' : Reactor), flushLoop fuel r = .ok r' →
      ∃ (c : Core) (st : Stats) (rd : Nat) (nw : Int) (ds : List Event),
        r' = { r with core := c, stats := st, reads := rd, now := nw,
                      wakeListQ := { r.wakeListQ with items := [] },
                      invokeQ := { r.invokeQ with items := [] },
                      wakeQ := { r.wakeQ with items := [] },
                      spawnQ := { r.spawnQ with items := [] },
                      trace := r.trace ++ ds } ∧
        ∀ e ∈ ds, e.isTick = false := by
  intro fuel
  induction fuel with
  | zero => intro r r' h; simp [flushLoop] at h
  | succ k ih =>
    intro r r' h
    obtain ⟨c, st, hq⟩ := flushQueues_shape r
    simp only [flushLoop, hq, NanoTime] at h
    split at h
    · obtain ⟨c', st', rd', nw', ds', hr', hds'⟩ := ih _ _ h
      refine ⟨c', st', rd', nw', r.drained ++ ds', ?_, ?_⟩
      · rw [hr']
        simp [BoundedWake.rest]
      · intro e he
        rcases List.mem_append.mp he with he | he
        · exact drained_not_tick r e he
        · exact hds' e he
    · rename_i hn
      injection h with h
      have h1 : r.wakeListQ.batch.length = 0 := by omega
      have h2 : r.invokeQ.batch.length = 0 := by omega
      have h3 : r.wakeQ.batch.length = 0 := by omega
      have h4 : r.spawnQ.batch.length = 0 := by omega
      refine ⟨c, st, r.reads, r.now, r.drained, ?_, drained_not_tick r⟩
      rw [← h, BoundedWake.rest_of_batch_nil _ h1, BoundedWake.rest_of_batch_nil _ h2,
        BoundedWake.rest_of_batch_nil _ h3, BoundedWake.rest_of_batch_nil _ h4]

theorem flushLoop_total :
    ∀ (fuel : Nat) (r : Reactor), r.queued < fuel → ∃ r', flushLoop fuel r = .ok r' := by
  intro fuel
  induction fuel with
  | zero => intro r h; omega
  | succ k ih =>
    intro r hlt
    obtain ⟨c, st, hq⟩ := flushQueues_shape r
    simp only [flushLoop, hq, NanoTime]
    split
    · rename_i hn
      apply ih
      have e1 := BoundedWake.batch_add_rest r.wakeListQ
      have e2 := BoundedWake.batch_add_rest r.invokeQ
      have e3 := BoundedWake.batch_add_rest r.wakeQ
      have e4 := BoundedWake.batch_add_rest r.spawnQ
      simp only [Reactor.queued] at hlt ⊢
      omega
    · exact ⟨_, rfl⟩

theorem onWakeMessage_ok (v : Int) (r r' : Reactor) (h : onWakeMessage v r = .ok r') :
    r'.queued = 0 ∧
    ∃ (ns : List Int) (ds : List Event),
      r'.trace = r.trace ++ ns.map Event.tick ++ ds ∧ ∀ e ∈ ds, e.isTick = false := by
  unfold onWakeMessage at h
  cases hm : maybeProcessTick v r with
  | error e => simp [hm] at h
  | ok r1 =>
    simp only [hm, NanoTime] at h
    obtain ⟨c, st, rd, nw, ds, hr', hds⟩ := flushLoop_ok _ _ _ h
    rcases maybeProcessTick_ok _ _ _ hm with ⟨_, h1⟩ | ⟨_, c1, st1, rd1, ns, h1⟩
    · subst h1
      refine ⟨by rw [hr']; rfl, [], ds, by rw [hr']; simp, hds⟩
    · refine ⟨by rw [hr']; rfl, ns ++ [v], r.drained ++ ds, ?_, ?_⟩
      · rw [hr', h1]
        simp
      · intro e he
        rcases List.mem_append.mp he with he | he
        · exact drained_not_tick r e he
        · exact hds e he

theorem onWakeMessage_total (v : Int) (r : Reactor) (h2 : r.ticksPerLevel2 ≠ 0)
    (h3 : r.ticksPerLevel3 ≠ 0) (hL : minInt64 ≤ r.lastTick) (hmax : v < maxInt64) :
    ∃ r', onWakeMessage v r = .ok r' := by
  obtain ⟨r1, hm⟩ := maybeProcessTick_total v r h2 h3 hL hmax
  simp only [onWakeMessage, hm, NanoTime]
  exact flushLoop_total _ _ (by simp [Reactor.queued])

theorem BoundedWake.batch_of_small {α : Type} (q : BoundedWake α)
    (h : q.items.length ≤ MaxUint32) : q.batch = q.items ∧ q.rest.items = [] := by
  constructor
  · exact List.take_of_length_le h
  · exact List.drop_of_length_le h

/-! ## Wake and WakeAfter -/

theorem Wake_own (r : ReactorRef) (t : TaskRef) (w : World) (h : (w.heap t).reactor = some r) :
    Wake r (some t) w = (none, (w.enqueue r t).2) := by
  rw [Wake]
  split
  · rename_i h'; rw [h] at h'; cases h'
  · rename_i reactor h'
    rw [h] at h'
    cases h'
    simp

theorem Wake_forward (r b : ReactorRef) (t : TaskRef) (w : World)
    (h : (w.heap t).reactor = some b) : Wake r (some t) w = (none, (w.enqueue b t).2) := by
  by_cases hb : b = r
  · subst hb; exact Wake_own _ _ _ h
  · rw [Wake]
    split
    · rename_i h'; rw [h] at h'; cases h'
    · rename_i reactor h'
      rw [h] at h'
      cases h'
      simp only [ne_eq, hb, not_false_eq_true, dite_true]
      exact Wake_own _ _ _ h

/-! ## Construction -/

theorem goMod_eq_zero_iff (a b : Int) : goMod a b = 0 ↔ a % b = 0 := by
  unfold goMod
  constructor
  · intro h
    exact Int.emod_eq_zero_of_dvd (Int.dvd_of_tmod_eq_zero h)
  · intro h
    exact Int.tmod_eq_zero_of_dvd (Int.dvd_of_emod_eq_zero h)

theorem goDiv_mul_cancel (a b : Int) (ha : inInt64 a) (hb : 0 < b) (h : a % b = 0) :
    goDiv a b * b = a := by
  have hd : b ∣ a := Int.dvd_of_emod_eq_zero h
  have hq : Int.tdiv a b * b = a := Int.tdiv_mul_cancel hd
  have hin : inInt64 (Int.tdiv a b) := by
    unfold inInt64 minInt64 maxInt64 at ha ⊢
    constructor <;> nlinarith
  unfold goDiv
  rw [wrap64_of_inInt64 _ hin, hq]

theorem NewReactor_set (d : Deps) (config : Config) (h1 : config.Level1Wheel.durations ≠ 0)
    (h2 : config.Level2Wheel.durations ≠ 0) (h3 : config.Level3Wheel.durations ≠ 0) :
    (config.normalize d).Level1Wheel = config.Level1Wheel ∧
    (config.normalize d).Level2Wheel = config.Level2Wheel ∧
    (config.normalize d).Level3Wheel = config.Level3Wheel := by
  simp [Config.normalize, h1, h2, h3]

/-- C2. Construction divisibility: for a configuration whose three wheels are set and
whose level-1 tick duration is positive, `NewReactor` returns an error exactly when the
level-2 or the level-3 tick duration is not a multiple of the level-1 tick duration, and
otherwise a reactor with `ticksPerLevelN * level-1 tickDur = level-N tickDur`. -/
theorem NewReactor_divisibility (d : Deps) (config : Config)
    (h1 : config.Level1Wheel.durations ≠ 0) (h2 : config.Level2Wheel.durations ≠ 0)
    (h3 : config.Level3Wheel.durations ≠ 0) (hpos : 0 < config.Level1Wheel.tickDur)
    (hr2 : inInt64 config.Level2Wheel.tickDur) (hr3 : inInt64 config.Level3Wheel.tickDur) :
    ((config.Level2Wheel.tickDur % config.Level1Wheel.tickDur ≠ 0 ∨
        config.Level3Wheel.tickDur % config.Level1Wheel.tickDur ≠ 0) →
      ∃ e, NewReactor d config = .error e) ∧
    ((config.Level2Wheel.tickDur % config.Level1Wheel.tickDur = 0 ∧
        config.Level3Wheel.tickDur % config.Level1Wheel.tickDur = 0) →
      ∃ r, NewReactor d config = .reactor r ∧
        r.ticksPerLevel2 * config.Level1Wheel.tickDur = config.Level2Wheel.tickDur ∧
        r.ticksPerLevel3 * config.Level1Wheel.tickDur = config.Level3Wheel.tickDur) := by
  obtain ⟨e1, e2, e3⟩ := NewReactor_set d config h1 h2 h3
  have hne : config.Level1Wheel.tickDur ≠ 0 := ne_of_gt hpos
  constructor
  · intro h
    unfold NewReactor
    simp only [e1, e2, e3, if_neg hne]
    by_cases hm2 : goMod config.Level2Wheel.tickDur config.Level1Wheel.tickDur = 0
    · have hm3 : goMod config.Level3Wheel.tickDur config.Level1Wheel.tickDur ≠ 0 := by
        rcases h with h | h
        · exact absurd ((goMod_eq_zero_iff _ _).mp hm2) h
        · exact fun hc => h ((goMod_eq_zero_iff _ _).mp hc)
      exact ⟨.level3NotDivisible, by simp [hm2, hm3]⟩
    · exact ⟨.level2NotDivisible, by simp [hm2]⟩
  · rintro ⟨hd2, hd3⟩
    have hm2 := (goMod_eq_zero_iff _ _).mpr hd2
    have hm3 := (goMod_eq_zero_iff _ _).mpr hd3
    unfold NewReactor
    simp only [e1, e2, e3, if_neg hne, hm2, hm3, ne_eq, not_true_eq_false, if_false]
    exact ⟨_, rfl, goDiv_mul_cancel _ _ hr2 hpos hd2, goDiv_mul_cancel _ _ hr3 hpos hd3⟩

/-- Witness for C2: 10ms against 300ms and 4s succeeds with `ticksPerLevel2 = 30`, and
10ms against 25ms fails. -/
theorem NewReactor_divisibility_witness :
    (∃ r, NewReactor Deps.example
        (Config.ofTicks (10 * Millisecond) (300 * Millisecond) (4 * Second)) = .reactor r ∧
      r.ticksPerLevel2 = 30) ∧
    (∃ e, NewReactor Deps.example
        (Config.ofTicks (10 * Millisecond) (25 * Millisecond) (4 * Second)) = .error e) := by
  constructor
  · obtain ⟨r, hr, h2, _⟩ :=
      (NewReactor_divisibility Deps.example
        (Config.ofTicks (10 * Millisecond) (300 * Millisecond) (4 * Second))
        (by decide) (by decide) (by decide) (by decide) (by decide) (by decide)).2
        ⟨by decide, by decide⟩
    refine ⟨r, hr, ?_⟩
    have e1 : (Config.ofTicks (10 * Millisecond) (300 * Millisecond) (4 * Second)).Level1Wheel.tickDur
        = 10000000 := by decide
    have e2 : (Config.ofTicks (10 * Millisecond) (300 * Millisecond) (4 * Second)).Level2Wheel.tickDur
        = 300000000 := by decide
    rw [e1, e2] at h2
    omega
  · exact (NewReactor_divisibility Deps.example
        (Config.ofTicks (10 * Millisecond) (25 * Millisecond) (4 * Second))
        (by decide) (by decide) (by decide) (by decide) (by decide) (by decide)).1
        (Or.inl (by decide))

/-! ## Scheduling and stopping -/

theorem schedule_eq (task : TaskRef) (delay : Duration) (wake : Bool) (c : Core) :
    schedule task delay wake c =
      match c.levelFor delay with
      | none => c
      | some lvl =>
        (Wheel.schedule lvl task delay wake c).log (.schedule lvl task delay wake) := by
  unfold schedule Core.levelFor
  split_ifs <;> rfl

@[simp] theorem schedule_heap (task : TaskRef) (delay : Duration) (wake : Bool) (c : Core) :
    (schedule task delay wake c).heap = c.heap := by
  unfold schedule
  split_ifs <;> rfl

@[simp] theorem schedule_tasks (task : TaskRef) (delay : Duration) (wake : Bool) (c : Core) :
    (schedule task delay wake c).tasks = c.tasks := by
  unfold schedule
  split_ifs <;> rfl

theorem schedule_calls (task : TaskRef) (delay : Duration) (wake : Bool) (c : Core) :
    (schedule task delay wake c).calls =
      c.calls ++ (match c.levelFor delay with
        | none => []
        | some lvl => [Call.schedule lvl task delay wake]) := by
  unfold schedule Core.levelFor
  split_ifs <;> simp [Core.log, Wheel.schedule, Core.setWheel, Task.clearSlots]

theorem Wheel.detach_detach (w : Wheel) (task : TaskRef) :
    (w.detach task).detach task = w.detach task := by
  simp [Wheel.detach, List.filter_filter]

theorem Wheel.detach_free (w : Wheel) (task : TaskRef) : (w.detach task).free task := by
  intro e he
  simp only [Wheel.detach, List.mem_filter] at he
  simpa using he.2

theorem clearSlots_clearSlots (task : TaskRef) (c : Core) :
    Task.clearSlots task (Task.clearSlots task c) = Task.clearSlots task c := by
  simp [Task.clearSlots, Wheel.detach_detach]

@[simp] theorem setTask_heap (c : Core) (task : TaskRef) (t : Task) :
    (c.setTask task t).heap = Function.update c.heap task t := rfl

@[simp] theorem setTask_tasks (c : Core) (task : TaskRef) (t : Task) :
    (c.setTask task t).tasks = c.tasks := rfl

@[simp] theorem setTask_tickWheel (c : Core) (task : TaskRef) (t : Task) :
    (c.setTask task t).tickWheel = c.tickWheel := rfl

@[simp] theorem setTask_level2Wheel (c : Core) (task : TaskRef) (t : Task) :
    (c.setTask task t).level2Wheel = c.level2Wheel := rfl

@[simp] theorem setTask_level3Wheel (c : Core) (task : TaskRef) (t : Task) :
    (c.setTask task t).level3Wheel = c.level3Wheel := rfl

@[simp] theorem setTask_calls (c : Core) (task : TaskRef) (t : Task) :
    (c.setTask task t).calls = c.calls := rfl

@[simp] theorem log_heap (c : Core) (e : Call) : (c.log e).heap = c.heap := rfl

@[simp] theorem log_tasks (c : Core) (e : Call) : (c.log e).tasks = c.tasks := rfl

@[simp] theorem log_tickWheel (c : Core) (e : Call) : (c.log e).tickWheel = c.tickWheel := rfl

@[simp] theorem log_level2Wheel (c : Core) (e : Call) : (c.log e).level2Wheel = c.level2Wheel := rfl

@[simp] theorem log_level3Wheel (c : Core) (e : Call) : (c.log e).level3Wheel = c.level3Wheel := rfl

@[simp] theorem log_calls (c : Core) (e : Call) : (c.log e).calls = c.calls ++ [e] := rfl

@[simp] theorem clearSlots_heap (task : TaskRef) (c : Core) :
    (Task.clearSlots task c).heap = c.heap := rfl

@[simp] theorem clearSlots_tasks (task : TaskRef) (c : Core) :
    (Task.clearSlots task c).tasks = c.tasks := rfl

@[simp] theorem clearSlots_calls (task : TaskRef) (c : Core) :
    (Task.clearSlots task c).calls = c.calls := rfl

@[simp] theorem clearSlots_tickWheel (task : TaskRef) (c : Core) :
    (Task.clearSlots task c).tickWheel = c.tickWheel.detach task := rfl

@[simp] theorem clearSlots_level2Wheel (task : TaskRef) (c : Core) :
    (Task.clearSlots task c).level2Wheel = c.level2Wheel.detach task := rfl

@[simp] theorem clearSlots_level3Wheel (task : TaskRef) (c : Core) :
    (Task.clearSlots task c).level3Wheel = c.level3Wheel.detach task := rfl

theorem stopTaskBody_eq (time : Int) (task : TaskRef) (c : Core) :
    stopTaskBody time task c =
      if (c.tasks (c.heap task).id).isSome then
        match (c.heap task).future.PollClose with
        | none => ⟨stopped task c, some ()⟩
        | some pc =>
          ⟨(callPollClose pc task time (stopped task c)).2,
            if (callPollClose pc task time (stopped task c)).1 = .panicked then none else some ()⟩
      else ⟨{ c with tasks := Function.update c.tasks (c.heap task).id none }, some ()⟩ := by
  unfold stopTaskBody
  by_cases h : (c.tasks (c.heap task).id).isSome
  · simp only [SyncMap.Delete, h, Bool.not_true, Bool.false_eq_true, if_false, if_true]
    show (match ((stopped task c).heap task).future.PollClose with
      | none => (⟨stopped task c, some ()⟩ : Run Unit)
      | some pc =>
        match callPollClose pc task time (stopped task c) with
        | (.panicked, c) => ⟨c, none⟩
        | (.returned _, c) => ⟨c, some ()⟩) = _
    have hf : ((stopped task c).heap task).future = (c.heap task).future := by
      simp [stopped]
    rw [hf]
    cases (c.heap task).future.PollClose with
    | none => rfl
    | some pc =>
      simp only
      cases ho : (callPollClose pc task time (stopped task c)) with
      | mk o c' => cases o <;> simp
  · simp [SyncMap.Delete, h]

theorem stopTask_absent (time : Int) (task : TaskRef) (c : Core)
    (h : c.tasks (c.heap task).id = none) :
    stopTask time task c = ⟨Task.remove task c, some ()⟩ := by
  have hm : Function.update c.tasks (c.heap task).id none = c.tasks := by
    rw [← h]; exact Function.update_eq_self _ _
  simp [stopTask, stopTaskBody_eq, h, hm, Run.recover]

theorem stopTask_core (time : Int) (task : TaskRef) (c : Core) :
    (stopTask time task c).core = Task.remove task (stopTaskBody time task c).core := rfl

theorem stopTask_value (time : Int) (task : TaskRef) (c : Core) :
    (stopTask time task c).value = some () := rfl

theorem stopTaskBody_tasks (time : Int) (task : TaskRef) (c : Core) :
    (stopTaskBody time task c).core.tasks = Function.update c.tasks (c.heap task).id none := by
  rw [stopTaskBody_eq]
  split
  · split <;> simp [stopped, callPollClose]
  · rfl

theorem stopTaskBody_id (time : Int) (task : TaskRef) (c : Core) :
    ((stopTaskBody time task c).core.heap task).id = (c.heap task).id := by
  rw [stopTaskBody_eq]
  split
  · split <;> simp [stopped, callPollClose, Task.apply]
  · rfl

theorem stopTaskBody_stop (time : Int) (task : TaskRef) (c : Core)
    (h : (c.tasks (c.heap task).id).isSome) :
    ((stopTaskBody time task c).core.heap task).stop = true := by
  rw [stopTaskBody_eq, if_pos h]
  split <;> simp [stopped, callPollClose, Task.apply]

theorem stopTaskBody_calls (time : Int) (task : TaskRef) (c : Core)
    (h : (c.tasks (c.heap task).id).isSome) :
    (stopTaskBody time task c).core.calls =
      c.calls ++ (if (c.heap task).future.PollClose.isSome then [Call.pollClose task] else []) := by
  rw [stopTaskBody_eq, if_pos h]
  split <;> rename_i hpc <;> simp [stopped, callPollClose, hpc]

theorem remove_free (task : TaskRef) (c : Core) (lvl : Level) :
    ((Task.remove task c).wheel lvl).free task := by
  cases lvl <;> exact Wheel.detach_free _ _

theorem remove_remove (task : TaskRef) (c : Core) :
    Task.remove task (Task.remove task c) = Task.remove task c :=
  clearSlots_clearSlots task c

/-- C6. Stop idempotence: for a task registered in the active map, the first `stopTask`
deletes it from the map, sets its stop flag, clears its wheel slots and calls `PollClose`
once if the future has it; a second `stopTask` right after changes nothing at all, so
there is no second `PollClose`. -/
theorem stopTask_twice (time time' : Int) (task : TaskRef) (c : Core)
    (h : c.tasks (c.heap task).id = some task) :
    (stopTask time task c).core.tasks (c.heap task).id = none ∧
    ((stopTask time task c).core.heap task).stop = true ∧
    (∀ lvl, ((stopTask time task c).core.wheel lvl).free task) ∧
    (stopTask time task c).core.calls =
      c.calls ++ (if (c.heap task).future.PollClose.isSome then [Call.pollClose task] else []) ∧
    stopTask time' task (stopTask time task c).core = stopTask time task c := by
  have hs : (c.tasks (c.heap task).id).isSome := by rw [h]; rfl
  have ht : (stopTask time task c).core.tasks = Function.update c.tasks (c.heap task).id none := by
    rw [stopTask_core]
    simp [Task.remove, stopTaskBody_tasks]
  have hid : ((stopTask time task c).core.heap task).id = (c.heap task).id := by
    rw [stopTask_core]
    simp [Task.remove, stopTaskBody_id]
  refine ⟨?_, ?_, ?_, ?_, ?_⟩
  · rw [ht]; simp
  · rw [stopTask_core]
    simp [Task.remove, stopTaskBody_stop _ _ _ hs]
  · intro lvl
    rw [stopTask_core]
    exact remove_free _ _ _
  · rw [stopTask_core]
    simp [Task.remove, stopTaskBody_calls _ _ _ hs]
  · rw [stopTask_absent _ _ _ (by rw [hid, ht]; simp)]
    rw [stopTask_core, remove_remove]
    rfl

/-- Witness for C6: a registered task with a close notification, stopped twice. -/
theorem stopTask_twice_witness :
    (stopTask 1 0 ((pollStart 0 0 (Core.single Future.closing)).core)).core.calls =
      [.poll 0 .Start, .pollClose 0] ∧
    stopTask 2 0 (stopTask 1 0 ((pollStart 0 0 (Core.single Future.closing)).core)).core =
      stopTask 1 0 ((pollStart 0 0 (Core.single Future.closing)).core) := by
  have h := stopTask_twice 1 2 0 ((pollStart 0 0 (Core.single Future.closing)).core) (by decide)
  exact ⟨by rw [h.2.2.2.1]; decide, h.2.2.2.2⟩

/-! ## The active map -/

theorem stopTask_tasks (time : Int) (task : TaskRef) (c : Core) :
    (stopTask time task c).core.tasks = Function.update c.tasks (c.heap task).id none := by
  rw [stopTask_core]
  simp [Task.remove, stopTaskBody_tasks]

theorem stopTask_id (time : Int) (task : TaskRef) (c : Core) :
    ((stopTask time task c).core.heap task).id = (c.heap task).id := by
  rw [stopTask_core]
  simp [Task.remove, stopTaskBody_id]

theorem stopTask_keeps_stop (time : Int) (task : TaskRef) (c : Core)
    (h : (c.heap task).stop = true) : ((stopTask time task c).core.heap task).stop = true := by
  rw [stopTask_core]
  simp only [Task.remove, clearSlots_heap, stopTaskBody_eq]
  split
  · split <;> simp [stopped, callPollClose, Task.apply]
  · exact h

theorem stopTask_not_member (time : Int) (task : TaskRef) (c : Core)
    (h : (c.heap task).stop = true) :
    (stopTask time task c).core.tasks ((stopTask time task c).core.heap task).id = none ∧
      ((stopTask time task c).core.heap task).stop = true := by
  simp only [stopTask_id, stopTask_tasks, stopTask_keeps_stop _ _ _ h]
  simp

@[simp] theorem callPoll_tasks (task : TaskRef) (now : Int) (iv : Duration) (reason : Reason)
    (c : Core) : (callPoll task now iv reason c).2.tasks = c.tasks := rfl

@[simp] theorem callPoll_id (task : TaskRef) (now : Int) (iv : Duration) (reason : Reason)
    (c : Core) : ((callPoll task now iv reason c).2.heap task).id = (c.heap task).id := by
  simp [callPoll, Task.apply]

@[simp] theorem callPoll_future (task : TaskRef) (now : Int) (iv : Duration) (reason : Reason)
    (c : Core) : ((callPoll task now iv reason c).2.heap task).future = (c.heap task).future := by
  simp [callPoll, Task.apply]

theorem callPoll_outcome (task : TaskRef) (now : Int) (iv : Duration) (reason : Reason)
    (c : Core) :
    (callPoll task now iv reason c).1 =
      ((c.heap task).future.Poll ⟨(c.heap task).view, now, iv, reason⟩).outcome := rfl

theorem pollStart_member (now : Int) (task : TaskRef) (c : Core)
    (hPoll : ∀ ctx, ((c.heap task).future.Poll ctx).outcome ≠ .panicked) :
    ((pollStart now task c).core.tasks ((pollStart now task c).core.heap task).id = some task ↔
      ((pollStart now task c).core.heap task).stop = false) := by
  unfold pollStart pollStartBody
  dsimp only [Run.recover]
  split
  · rename_i c1 heq
    have h1 := congrArg Prod.fst heq
    rw [callPoll_outcome] at h1
    simp only [setTask_heap, Function.update_same] at h1
    exact absurd h1 (hPoll _)
  · rename_i err c1 heq
    clear heq
    by_cases herr : err = some PollError.ErrStop
    · simp only [herr, if_true]
      have hX : ((c1.setTask task { c1.heap task with stop := true }).heap task).stop = true := by
        simp
      rw [if_pos hX]
      obtain ⟨ha, hb⟩ := stopTask_not_member now task _ hX
      simp [ha, hb]
    · simp only [herr, if_false]
      by_cases hstop : (c1.heap task).stop = true
      · rw [if_pos hstop]
        obtain ⟨ha, hb⟩ := stopTask_not_member now task c1 hstop
        simp [ha, hb]
      · rw [if_neg hstop]
        simp only [Bool.not_eq_true] at hstop
        split_ifs <;> simp [SyncMap.Put, hstop]

theorem pollStart_stopped (now : Int) (task : TaskRef) (c : Core) (err : Option PollError)
    (ho : (startEffect now task c).outcome = .returned err)
    (hsig : err = some .ErrStop ∨
      ((c.heap task).stop || (startEffect now task c).stop) = true) :
    ((pollStart now task c).core.heap task).stop = true := by
  unfold pollStart pollStartBody
  dsimp only [Run.recover]
  have hc1 : ((callPoll task now 0 .Start
      (c.setTask task { c.heap task with started := now })).2.heap task) =
      ({ c.heap task with started := now } : Task).apply (startEffect now task c) := by
    simp [callPoll, startEffect]
  split
  · rename_i c1 heq
    have h1 := congrArg Prod.fst heq
    rw [callPoll_outcome] at h1
    simp only [setTask_heap, Function.update_same] at h1
    unfold startEffect at ho
    rw [ho] at h1
    cases h1
  · rename_i err' c1 heq
    have h1 := congrArg Prod.fst heq
    rw [callPoll_outcome] at h1
    simp only [setTask_heap, Function.update_same] at h1
    have ho' := ho
    unfold startEffect at ho'
    rw [ho'] at h1
    injection h1 with h1
    subst h1
    have h2 : c1 = _ := (congrArg Prod.snd heq).symm
    have hst : (c1.heap task).stop = ((c.heap task).stop || (startEffect now task c).stop) := by
      rw [h2, hc1]; simp [Task.apply]
    clear heq h2
    by_cases herr : err = some PollError.ErrStop
    · simp only [herr, if_true]
      have hX : ((c1.setTask task { c1.heap task with stop := true }).heap task).stop = true := by
        simp
      rw [if_pos hX]
      exact stopTask_keeps_stop _ _ _ hX
    · have hs : (c1.heap task).stop = true := by
        rw [hst]
        rcases hsig with h | h
        · exact absurd h herr
        · exact h
      simp only [herr, if_false]
      rw [if_pos hs]
      exact stopTask_keeps_stop _ _ _ hs

theorem stopTask_registered (started : Prop) (time : Int) (task : TaskRef) (c : Core)
    (h : Registered started task c) : Registered started task (stopTask time task c).core := by
  unfold Registered at h ⊢
  by_cases hp : (c.tasks (c.heap task).id).isSome
  · have hs : ((stopTask time task c).core.heap task).stop = true := by
      rw [stopTask_core]
      simp [Task.remove, stopTaskBody_stop _ _ _ hp]
    simp [stopTask_id, stopTask_tasks, hs]
  · have hn : c.tasks (c.heap task).id = none := by
      cases hc : c.tasks (c.heap task).id with
      | none => rfl
      | some x => rw [hc] at hp; exact absurd rfl hp
    rw [stopTask_absent _ _ _ hn]
    simpa [Task.remove] using h

theorem pollWake_registered (started : Prop) (now : Int) (task : TaskRef) (c : Core)
    (hPoll : ∀ ctx, ((c.heap task).future.Poll ctx).outcome ≠ .panicked)
    (h : Registered started task c) : Registered started task (pollWake now task c).core := by
  unfold pollWake
  by_cases hs : (c.heap task).stop = true
  · rw [if_pos hs]; exact h
  · rw [if_neg hs]
    unfold pollWakeBody
    dsimp only [Run.recover]
    unfold Registered at h
    simp only [Bool.not_eq_true] at hs
    by_cases hw : (c.heap task).wakeAfter > 0
    · rw [if_pos hw]
      simpa [Registered, hs] using h
    · rw [if_neg hw]
      split
      · rename_i c1 heq
        have h1 := congrArg Prod.fst heq
        rw [callPoll_outcome] at h1
        simp only [setTask_heap, Function.update_same] at h1
        exact absurd h1 (hPoll _)
      · rename_i err c1 heq
        have h2 : c1 = _ := (congrArg Prod.snd heq).symm
        have ht : c1.tasks = c.tasks := by rw [h2]; simp
        have hid : (c1.heap task).id = (c.heap task).id := by rw [h2]; simp
        clear heq h2
        by_cases herr : err = some PollError.ErrStop
        · simp only [herr, if_true]
          have hX : ((c1.setTask task { c1.heap task with stop := true }).heap task).stop = true := by
            simp
          rw [if_pos hX]
          obtain ⟨ha, hb⟩ := stopTask_not_member now task _ hX
          simp [Registered, ha, hb]
        · simp only [herr, if_false]
          by_cases hstop : (c1.heap task).stop = true
          · rw [if_pos hstop]
            obtain ⟨ha, hb⟩ := stopTask_not_member now task c1 hstop
            simp [Registered, ha, hb]
          · rw [if_neg hstop]
            simp only [Bool.not_eq_true] at hstop
            split_ifs <;> simp [Registered, hstop, ht, hid, hs] <;> simpa [hs] using h

theorem pollInterval_registered (started : Prop) (now : Int) (list : taskSwapList)
    (task : TaskRef) (c : Core)
    (hPoll : ∀ ctx, ((c.heap task).future.Poll ctx).outcome ≠ .panicked)
    (h : Registered started task c) :
    Registered started task (pollInterval now list task c).core := by
  unfold pollInterval
  split
  · exact h
  · rename_i hg
    have hs : (c.heap task).stop = false := by
      simp only [not_or, Bool.not_eq_true] at hg
      exact hg.1
    unfold pollIntervalBody
    dsimp only [Run.recover]
    unfold Registered at h
    split
    · rename_i c1 heq
      have h1 := congrArg Prod.fst heq
      rw [callPoll_outcome] at h1
      simp only [setTask_heap, Function.update_same] at h1
      exact absurd h1 (hPoll _)
    · rename_i err c1 heq
      have h2 : c1 = _ := (congrArg Prod.snd heq).symm
      have ht : c1.tasks = c.tasks := by rw [h2]; simp
      have hid : (c1.heap task).id = (c.heap task).id := by rw [h2]; simp
      clear heq h2
      by_cases herr : err = some PollError.ErrStop
      · simp only [herr, if_true]
        have hX : ((c1.setTask task { c1.heap task with stop := true }).heap task).stop = true := by
          simp
        rw [if_pos hX]
        obtain ⟨ha, hb⟩ := stopTask_not_member now task _ hX
        simp [Registered, ha, hb]
      · simp only [herr, if_false]
        by_cases hstop : (c1.heap task).stop = true
        · rw [if_pos hstop]
          obtain ⟨ha, hb⟩ := stopTask_not_member now task c1 hstop
          simp [Registered, ha, hb]
        · rw [if_neg hstop]
          simp only [Bool.not_eq_true] at hstop
          split_ifs <;> simp [Registered, hstop, ht, hid, hs] <;> simpa [hs] using h

/-! ## Other tasks are left alone -/

theorem Untouched.same (task other : TaskRef) (c : Core) : Untouched task other c c :=
  ⟨rfl, rfl, rfl, fun _ => rfl⟩

theorem Wheel.detach_filter (w : Wheel) (task other : TaskRef) (hne : other ≠ task) :
    (w.detach task).entries.filter (fun e => e.task = other) =
      w.entries.filter (fun e => e.task = other) := by
  simp only [Wheel.detach, List.filter_filter]
  apply List.filter_congr
  intro e _
  by_cases h : e.task = other
  · simp [h, hne]
  · simp [h]

theorem Wheel.schedule_filter (w : Wheel) (task other : TaskRef) (delay : Duration)
    (wake : Bool) (hne : other ≠ task) :
    ((w.detach task).insert task delay wake).entries.filter (fun e => e.task = other) =
      w.entries.filter (fun e => e.task = other) := by
  simp only [Wheel.insert, List.filter_append, Wheel.detach_filter w task other hne]
  simp [Ne.symm hne]

@[simp] theorem setTask_wheel (c : Core) (task : TaskRef) (t : Task) (lvl : Level) :
    (c.setTask task t).wheel lvl = c.wheel lvl := by cases lvl <;> rfl

@[simp] theorem log_wheel (c : Core) (e : Call) (lvl : Level) :
    (c.log e).wheel lvl = c.wheel lvl := by cases lvl <;> rfl

@[simp] theorem clearSlots_wheel (task : TaskRef) (c : Core) (lvl : Level) :
    (Task.clearSlots task c).wheel lvl = (c.wheel lvl).detach task := by cases lvl <;> rfl

theorem setTasks_wheel (c : Core) (m : SyncMap) (lvl : Level) :
    ({ c with tasks := m } : Core).wheel lvl = c.wheel lvl := by cases lvl <;> rfl

theorem schedule_wheel (task : TaskRef) (delay : Duration) (wake : Bool) (c : Core)
    (lvl : Level) :
    (schedule task delay wake c).wheel lvl =
      if c.levelFor delay = some lvl then ((c.wheel lvl).detach task).insert task delay wake
      else if c.levelFor delay = none then c.wheel lvl
      else (c.wheel lvl).detach task := by
  rw [schedule_eq]
  cases h : c.levelFor delay with
  | none => simp
  | some l =>
    cases l <;> cases lvl <;>
      simp [Wheel.schedule, Task.clearSlots, Core.setWheel, Core.wheel, Core.log]

theorem Untouched.of_setTask {task other : TaskRef} {c c1 : Core} (hne : other ≠ task)
    (h : Untouched task other c c1) (t : Task) (ht : t.id = (c1.heap task).id) :
    Untouched task other c (c1.setTask task t) := by
  obtain ⟨h1, h2, h3, h4⟩ := h
  refine ⟨?_, ?_, h3, fun lvl => ?_⟩
  · simp [ht, h1]
  · simp [Function.update_noteq hne, h2]
  · rw [setTask_wheel]; exact h4 lvl

theorem Untouched.of_log {task other : TaskRef} {c c1 : Core}
    (h : Untouched task other c c1) (e : Call) : Untouched task other c (c1.log e) := by
  obtain ⟨h1, h2, h3, h4⟩ := h
  exact ⟨h1, h2, h3, fun lvl => by rw [log_wheel]; exact h4 lvl⟩

theorem Untouched.of_schedule {task other : TaskRef} {c c1 : Core} (hne : other ≠ task)
    (h : Untouched task other c c1) (delay : Duration) (wake : Bool) :
    Untouched task other c (schedule task delay wake c1) := by
  obtain ⟨h1, h2, h3, h4⟩ := h
  refine ⟨by simp [h1], by simp [h2], by simp [h3], fun lvl => ?_⟩
  rw [schedule_wheel]
  split
  · rw [Wheel.schedule_filter _ _ _ _ _ hne]; exact h4 lvl
  · split
    · exact h4 lvl
    · rw [Wheel.detach_filter _ _ _ hne]; exact h4 lvl

theorem Untouched.of_clearSlots {task other : TaskRef} {c c1 : Core} (hne : other ≠ task)
    (h : Untouched task other c c1) : Untouched task other c (Task.clearSlots task c1) := by
  obtain ⟨h1, h2, h3, h4⟩ := h
  refine ⟨h1, h2, h3, fun lvl => ?_⟩
  rw [clearSlots_wheel, Wheel.detach_filter _ _ _ hne]
  exact h4 lvl

theorem Untouched.of_setTasks {task other : TaskRef} {c c1 : Core}
    (hid : (c.heap other).id ≠ (c.heap task).id) (h : Untouched task other c c1)
    (v : Option TaskRef) :
    Untouched task other c
      { c1 with tasks := Function.update c1.tasks (c1.heap task).id v } := by
  obtain ⟨h1, h2, h3, h4⟩ := h
  refine ⟨h1, h2, ?_, fun lvl => by rw [setTasks_wheel]; exact h4 lvl⟩
  simp only []
  rw [h1, Function.update_noteq hid, h3]

theorem Untouched.of_callPoll {task other : TaskRef} {c c1 : Core} (hne : other ≠ task)
    (h : Untouched task other c c1) (now : Int) (iv : Duration) (reason : Reason) :
    Untouched task other c (callPoll task now iv reason c1).2 :=
  (h.of_setTask hne _ (by simp [Task.apply])).of_log _

theorem Untouched.of_callPollClose {task other : TaskRef} {c c1 : Core} (hne : other ≠ task)
    (h : Untouched task other c c1) (pc : CloseEvent → Effect) (time : Int) :
    Untouched task other c (callPollClose pc task time c1).2 :=
  (h.of_setTask hne _ (by simp [Task.apply])).of_log _

theorem Untouched.of_stopTask {task other : TaskRef} {c c1 : Core} (hne : other ≠ task)
    (hid : (c.heap other).id ≠ (c.heap task).id) (h : Untouched task other c c1)
    (time : Int) : Untouched task other c (stopTask time task c1).core := by
  rw [stopTask_core, stopTaskBody_eq]
  unfold Task.remove
  apply Untouched.of_clearSlots hne
  have hs : Untouched task other c (stopped task c1) :=
    ((h.of_setTasks hid none).of_setTask hne { c1.heap task with stop := true } rfl).of_clearSlots hne
  split
  · split
    · exact hs
    · exact hs.of_callPollClose hne _ _
  · exact h.of_setTasks hid none

theorem pollStart_untouched (now : Int) (task other : TaskRef) (c : Core) (hne : other ≠ task)
    (hid : (c.heap other).id ≠ (c.heap task).id) :
    Untouched task other c (pollStart now task c).core := by
  unfold pollStart pollStartBody
  dsimp only [Run.recover]
  have h0 : Untouched task other c
      (callPoll task now 0 .Start (c.setTask task { c.heap task with started := now })).2 :=
    ((Untouched.same task other c).of_setTask hne { c.heap task with started := now } rfl).of_callPoll
      hne _ _ _
  split
  · rename_i c1 heq
    have h2 : c1 = _ := (congrArg Prod.snd heq).symm
    rw [h2]; exact h0
  · rename_i err c1 heq
    have h2 : c1 = _ := (congrArg Prod.snd heq).symm
    rw [← h2] at h0
    clear heq h2
    have h1 : Untouched task other c
        (if err = some PollError.ErrStop then c1.setTask task { c1.heap task with stop := true }
          else c1) := by
      split
      · exact h0.of_setTask hne { c1.heap task with stop := true } rfl
      · exact h0
    generalize (if err = some PollError.ErrStop then
      c1.setTask task { c1.heap task with stop := true } else c1) = c2 at h1 ⊢
    split
    · exact h1.of_stopTask hne hid _
    · have h3 : Untouched task other c { c2 with tasks := c2.tasks.Put (c2.heap task).id task } :=
        h1.of_setTasks hid _
      generalize ({ c2 with tasks := c2.tasks.Put (c2.heap task).id task } : Core) = c3 at h3 ⊢
      dsimp only
      split <;> split <;>
        first
        | exact h3
        | exact h3.of_schedule hne _ _
        | exact (h3.of_schedule hne _ _).of_schedule hne _ _

theorem pollWake_untouched (now : Int) (task other : TaskRef) (c : Core) (hne : other ≠ task)
    (hid : (c.heap other).id ≠ (c.heap task).id) :
    Untouched task other c (pollWake now task c).core := by
  unfold pollWake
  split
  · exact Untouched.same _ _ _
  · unfold pollWakeBody
    dsimp only [Run.recover]
    split
    · exact ((Untouched.same task other c).of_setTask hne { c.heap task with wakeAfter := 0 }
        rfl).of_schedule hne _ _
    · have h0 : Untouched task other c
          (callPoll task now 0 .Wake
            (c.setTask task { c.heap task with wakes := (c.heap task).wakes + 1 })).2 :=
        ((Untouched.same task other c).of_setTask hne
          { c.heap task with wakes := (c.heap task).wakes + 1 } rfl).of_callPoll hne _ _ _
      split
      · rename_i c1 heq
        have h2 : c1 = _ := (congrArg Prod.snd heq).symm
        rw [h2]; exact h0
      · rename_i err c1 heq
        have h2 : c1 = _ := (congrArg Prod.snd heq).symm
        rw [← h2] at h0
        clear heq h2
        have h1 : Untouched task other c
            (if err = some PollError.ErrStop then
              c1.setTask task { c1.heap task with stop := true } else c1) := by
          split
          · exact h0.of_setTask hne { c1.heap task with stop := true } rfl
          · exact h0
        generalize (if err = some PollError.ErrStop then
          c1.setTask task { c1.heap task with stop := true } else c1) = c2 at h1 ⊢
        split
        · exact h1.of_stopTask hne hid _
        · dsimp only
          have h3 : Untouched task other c
              (if (c2.heap task).wakeAfter ≠ (c.heap task).wakeAfter ∧ (c2.heap task).wakeAfter > 0
                then schedule task (c2.heap task).wakeAfter true c2 else c2) := by
            split
            · exact h1.of_schedule hne _ _
            · exact h1
          generalize (if (c2.heap task).wakeAfter ≠ (c.heap task).wakeAfter ∧
            (c2.heap task).wakeAfter > 0 then schedule task (c2.heap task).wakeAfter true c2
            else c2) = c3 at h3 ⊢
          split
          · exact h3.of_setTask hne { c3.heap task with interval := 0 } rfl
          · exact h3

theorem pollInterval_untouched (now : Int) (list : taskSwapList) (task other : TaskRef)
    (c : Core) (hne : other ≠ task) (hid : (c.heap other).id ≠ (c.heap task).id) :
    Untouched task other c (pollInterval now list task c).core := by
  unfold pollInterval
  split
  · exact Untouched.same _ _ _
  · unfold pollIntervalBody
    dsimp only [Run.recover]
    have h0 : Untouched task other c
        (callPoll task now (c.heap task).interval .Interval
          (c.setTask task { c.heap task with intervals := (c.heap task).intervals + 1 })).2 :=
      ((Untouched.same task other c).of_setTask hne
        { c.heap task with intervals := (c.heap task).intervals + 1 } rfl).of_callPoll hne _ _ _
    split
    · rename_i c1 heq
      have h2 : c1 = _ := (congrArg Prod.snd heq).symm
      rw [h2]; exact h0
    · rename_i err c1 heq
      have h2 : c1 = _ := (congrArg Prod.snd heq).symm
      rw [← h2] at h0
      clear heq h2
      have h1 : Untouched task other c
          (if err = some PollError.ErrStop then
            c1.setTask task { c1.heap task with stop := true } else c1) := by
        split
        · exact h0.of_setTask hne { c1.heap task with stop := true } rfl
        · exact h0
      generalize (if err = some PollError.ErrStop then
        c1.setTask task { c1.heap task with stop := true } else c1) = c2 at h1 ⊢
      split
      · exact h1.of_stopTask hne hid _
      · have h3 : Untouched task other c
            (if (c2.heap task).wakeAfter ≠ (c.heap task).wakeAfter ∧ (c2.heap task).wakeAfter > 0
              then schedule task (c2.heap task).wakeAfter true c2 else c2) := by
          split
          · exact h1.of_schedule hne _ _
          · exact h1
        generalize (if (c2.heap task).wakeAfter ≠ (c.heap task).wakeAfter ∧
          (c2.heap task).wakeAfter > 0 then schedule task (c2.heap task).wakeAfter true c2
          else c2) = c3 at h3 ⊢
        split
        · split
          · exact h3.of_setTask hne { c3.heap task with interval := 0 } rfl
          · exact h3.of_schedule hne _ _
        · exact h3

theorem pollInterval_returns (now : Int) (list : taskSwapList) (task : TaskRef) (c : Core) :
    (pollInterval now list task c).value.isSome = true := by
  unfold pollInterval
  split
  · rfl
  · rfl

theorem pollWake_returns (now : Int) (task : TaskRef) (c : Core) :
    (pollWake now task c).value = some () := by
  unfold pollWake
  split <;> rfl

/-! ## Interval polls -/

@[simp] theorem levelFor_setTask (c : Core) (task : TaskRef) (t : Task) (d : Duration) :
    (c.setTask task t).levelFor d = c.levelFor d := rfl

@[simp] theorem levelFor_log (c : Core) (e : Call) (d : Duration) :
    (c.log e).levelFor d = c.levelFor d := rfl

@[simp] theorem levelFor_schedule (task : TaskRef) (delay : Duration) (wake : Bool) (c : Core)
    (d : Duration) : (schedule task delay wake c).levelFor d = c.levelFor d := by
  rw [schedule_eq]
  cases h : c.levelFor delay with
  | none => rfl
  | some l => cases l <;> rfl

theorem pollInterval_run (now : Int) (list : taskSwapList) (task : TaskRef) (c : Core)
    (hg : ¬ ((c.heap task).stop = true ∨ (c.heap task).interval = 0 ∨
      list.dur ≠ (c.heap task).interval))
    (err : Option PollError) (ho : (intervalEffect now task c).outcome = .returned err)
    (herr : err ≠ some .ErrStop) (hstop : (intervalEffect now task c).stop = false) :
    pollInterval now list task c =
      if (intervalEffect now task c).interval ≠ (c.heap task).interval then
        if (intervalEffect now task c).interval ≤ 0 then
          ⟨(intervalPolled now task c).setTask task
            { (intervalPolled now task c).heap task with interval := 0 }, some false⟩
        else
          ⟨schedule task (intervalEffect now task c).interval false (intervalPolled now task c),
            some false⟩
      else ⟨intervalPolled now task c, some true⟩ := by
  have hs : (c.heap task).stop = false := by
    simp only [not_or, Bool.not_eq_true] at hg
    exact hg.1
  unfold pollInterval
  rw [if_neg hg]
  unfold pollIntervalBody
  dsimp only [Run.recover]
  have hc1 : ((callPoll task now (c.heap task).interval .Interval
      (c.setTask task { c.heap task with intervals := (c.heap task).intervals + 1 })).2.heap task)
      = ({ c.heap task with intervals := (c.heap task).intervals + 1 } : Task).apply
          (intervalEffect now task c) := by
    simp [callPoll, intervalEffect]
  have hi : ((intervalPolled now task c).heap task).interval =
      (intervalEffect now task c).interval := by
    unfold intervalPolled
    dsimp only
    split <;> simp [hc1, Task.apply]
  split
  · rename_i c1 heq
    have h1 := congrArg Prod.fst heq
    rw [callPoll_outcome] at h1
    simp only [setTask_heap, Function.update_same] at h1
    unfold intervalEffect at ho
    rw [ho] at h1
    cases h1
  · rename_i err' c1 heq
    have h1 := congrArg Prod.fst heq
    rw [callPoll_outcome] at h1
    simp only [setTask_heap, Function.update_same] at h1
    have ho' := ho
    unfold intervalEffect at ho'
    rw [ho'] at h1
    injection h1 with h1
    subst h1
    have h2 : c1 = _ := (congrArg Prod.snd heq).symm
    have hst : (c1.heap task).stop = false := by
      rw [h2, hc1]; simp [Task.apply, hs, hstop]
    have hin : (c1.heap task).interval = (intervalEffect now task c).interval := by
      rw [h2, hc1]; simp [Task.apply]
    have hp : intervalPolled now task c =
        (if (c1.heap task).wakeAfter ≠ (c.heap task).wakeAfter ∧ (c1.heap task).wakeAfter > 0 then
          schedule task (c1.heap task).wakeAfter true c1 else c1) := by
      rw [h2]; rfl
    clear heq h2
    simp only [herr, if_false, hst, Bool.false_eq_true]
    rw [← hp]
    simp only [hi, Option.getD_some]
    split_ifs <;> rfl

theorem polls_append (a b : List Call) : polls (a ++ b) = polls a ++ polls b := by
  simp [polls, List.filter_append]

theorem intervalDelays_append (task : TaskRef) (a b : List Call) :
    intervalDelays task (a ++ b) = intervalDelays task a ++ intervalDelays task b := by
  simp [intervalDelays, List.filterMap_append]

theorem polls_schedule (task : TaskRef) (d : Duration) (w : Bool) (c : Core) :
    polls (schedule task d w c).calls = polls c.calls := by
  rw [schedule_calls, polls_append]
  cases c.levelFor d <;> simp [polls]

theorem intervalDelays_schedule_wake (task : TaskRef) (d : Duration) (c : Core) :
    intervalDelays task (schedule task d true c).calls = intervalDelays task c.calls := by
  rw [schedule_calls, intervalDelays_append]
  cases c.levelFor d <;> simp [intervalDelays]

theorem intervalDelays_schedule_interval (task : TaskRef) (d : Duration) (c : Core) :
    intervalDelays task (schedule task d false c).calls =
      intervalDelays task c.calls ++ (if (c.levelFor d).isSome then [d] else []) := by
  rw [schedule_calls, intervalDelays_append]
  cases c.levelFor d <;> simp [intervalDelays]

theorem intervalPolled_facts (now : Int) (task : TaskRef) (c : Core) :
    polls (intervalPolled now task c).calls = polls c.calls ++ [Call.poll task .Interval] ∧
    intervalDelays task (intervalPolled now task c).calls = intervalDelays task c.calls ∧
    (intervalPolled now task c).tasks = c.tasks ∧
    ((intervalPolled now task c).heap task).stop =
      ((c.heap task).stop || (intervalEffect now task c).stop) ∧
    ∀ d, (intervalPolled now task c).levelFor d = c.levelFor d := by
  have hc : (callPoll task now (c.heap task).interval .Interval
      (c.setTask task { c.heap task with intervals := (c.heap task).intervals + 1 })).2.calls =
      c.calls ++ [Call.poll task .Interval] := by simp [callPoll]
  have hh : ((callPoll task now (c.heap task).interval .Interval
      (c.setTask task { c.heap task with intervals := (c.heap task).intervals + 1 })).2.heap task).stop
      = ((c.heap task).stop || (intervalEffect now task c).stop) := by
    simp [callPoll, intervalEffect, Task.apply]
  have hl : ∀ d, (callPoll task now (c.heap task).interval .Interval
      (c.setTask task { c.heap task with intervals := (c.heap task).intervals + 1 })).2.levelFor d =
      c.levelFor d := by
    intro d; simp [callPoll]
  unfold intervalPolled
  dsimp only
  split
  · refine ⟨?_, ?_, by simp, by simp [hh], fun d => by simp [hl]⟩
    · rw [polls_schedule, hc, polls_append]; simp [polls]
    · rw [intervalDelays_schedule_wake, hc, intervalDelays_append]; simp [intervalDelays]
  · refine ⟨?_, ?_, by simp, hh, hl⟩
    · rw [hc, polls_append]; simp [polls]
    · rw [hc, intervalDelays_append]; simp [intervalDelays]

theorem stopTask_polls (time : Int) (task : TaskRef) (c : Core) :
    polls (stopTask time task c).core.calls = polls c.calls := by
  rw [stopTask_core]
  simp only [Task.remove, clearSlots_calls, stopTaskBody_eq]
  split
  · split
    · simp [stopped]
    · simp [stopped, callPollClose, polls, List.filter_append]
  · rfl

theorem pollInterval_polls_once (now : Int) (list : taskSwapList) (task : TaskRef) (c : Core)
    (hg : ¬ ((c.heap task).stop = true ∨ (c.heap task).interval = 0 ∨
      list.dur ≠ (c.heap task).interval)) :
    polls (pollInterval now list task c).core.calls =
      polls c.calls ++ [Call.poll task .Interval] := by
  unfold pollInterval
  rw [if_neg hg]
  unfold pollIntervalBody
  dsimp only [Run.recover]
  have hc : polls (callPoll task now (c.heap task).interval .Interval
      (c.setTask task { c.heap task with intervals := (c.heap task).intervals + 1 })).2.calls =
      polls c.calls ++ [Call.poll task .Interval] := by
    simp [callPoll, polls, List.filter_append]
  split
  · rename_i c1 heq
    have h2 : c1 = _ := (congrArg Prod.snd heq).symm
    rw [h2]; exact hc
  · rename_i err c1 heq
    have h2 : c1 = _ := (congrArg Prod.snd heq).symm
    rw [← h2] at hc
    clear heq h2
    have h1 : polls (if err = some PollError.ErrStop then
        c1.setTask task { c1.heap task with stop := true } else c1).calls =
        polls c.calls ++ [Call.poll task .Interval] := by
      split
      · simpa using hc
      · exact hc
    generalize (if err = some PollError.ErrStop then
      c1.setTask task { c1.heap task with stop := true } else c1) = c2 at h1 ⊢
    split
    · rw [stopTask_polls]; exact h1
    · have h3 : polls (if (c2.heap task).wakeAfter ≠ (c.heap task).wakeAfter ∧
          (c2.heap task).wakeAfter > 0 then schedule task (c2.heap task).wakeAfter true c2
          else c2).calls = polls c.calls ++ [Call.poll task .Interval] := by
        split
        · rw [polls_schedule]; exact h1
        · exact h1
      generalize (if (c2.heap task).wakeAfter ≠ (c.heap task).wakeAfter ∧
        (c2.heap task).wakeAfter > 0 then schedule task (c2.heap task).wakeAfter true c2
        else c2) = c3 at h3 ⊢
      split
      · split
        · simpa using h3
        · rw [polls_schedule]; exact h3
      · exact h3

/-- C8 (amended). Interval poll outcome: (a) for a stopped task, a zero interval or a
stale entry, `pollInterval` returns false and leaves the state as it is, without a poll;
(b) otherwise the task is polled once with reason Interval and, if the poll returns
without panic and without a stop signal, `pollInterval` returns true exactly when the
interval is unchanged; for a new positive interval it returns false and schedules one interval
entry with the new delay when some wheel can hold that delay, and nothing otherwise; for a
zeroed interval it returns false, schedules no interval entry and leaves the task in the
map, unstopped, with interval 0. -/
theorem pollInterval_outcome (now : Int) (list : taskSwapList) (task : TaskRef) (c : Core) :
    (((c.heap task).stop = true ∨ (c.heap task).interval = 0 ∨
        list.dur ≠ (c.heap task).interval) →
      pollInterval now list task c = ⟨c, some false⟩) ∧
    (¬ ((c.heap task).stop = true ∨ (c.heap task).interval = 0 ∨
        list.dur ≠ (c.heap task).interval) →
      polls (pollInterval now list task c).core.calls =
        polls c.calls ++ [Call.poll task .Interval] ∧
      ∀ err, (intervalEffect now task c).outcome = .returned err → err ≠ some .ErrStop →
        (intervalEffect now task c).stop = false →
        (pollInterval now list task c).value =
          some (decide ((intervalEffect now task c).interval = (c.heap task).interval)) ∧
        ((intervalEffect now task c).interval = (c.heap task).interval →
          intervalDelays task (pollInterval now list task c).core.calls =
            intervalDelays task c.calls) ∧
        ((intervalEffect now task c).interval ≠ (c.heap task).interval →
          0 < (intervalEffect now task c).interval →
          intervalDelays task (pollInterval now list task c).core.calls =
            intervalDelays task c.calls ++
              (if (c.levelFor (intervalEffect now task c).interval).isSome then
                [(intervalEffect now task c).interval] else [])) ∧
        ((intervalEffect now task c).interval ≠ (c.heap task).interval →
          (intervalEffect now task c).interval ≤ 0 →
          intervalDelays task (pollInterval now list task c).core.calls =
            intervalDelays task c.calls ∧
          (pollInterval now list task c).core.tasks = c.tasks ∧
          ((pollInterval now list task c).core.heap task).stop = false ∧
          ((pollInterval now list task c).core.heap task).interval = 0)) := by
  constructor
  · intro hg
    simp only [pollInterval, if_pos hg]
  · intro hg
    refine ⟨pollInterval_polls_once now list task c hg, ?_⟩
    intro err ho herr hstop
    have hs : (c.heap task).stop = false := by
      simp only [not_or, Bool.not_eq_true] at hg
      exact hg.1
    obtain ⟨hp, hd, ht, hst, hl⟩ := intervalPolled_facts now task c
    rw [pollInterval_run now list task c hg err ho herr hstop]
    by_cases hi : (intervalEffect now task c).interval = (c.heap task).interval
    · simp [hi, hd]
    · by_cases hz : (intervalEffect now task c).interval ≤ 0
      · have hnp : ¬ 0 < (intervalEffect now task c).interval := not_lt.mpr hz
        simp [hi, hz, hnp, hd, ht, hst, hs, hstop]
      · have hpos : 0 < (intervalEffect now task c).interval := not_le.mp hz
        simp [hi, hz, hpos, intervalDelays_schedule_interval, hd, hl]

/-! ## General forms of the defects -/

/-- `Wake` never reports a full queue: for a scheduled task it returns nil, enqueued or not. -/
theorem Wake_never_full (r : ReactorRef) (task : Option TaskRef) (w : World) :
    (Wake r task w).1 ≠ some WakeError.ErrQueueFull := by
  cases task with
  | none => rw [Wake]; simp
  | some t =>
    cases h : (w.heap t).reactor with
    | none =>
      rw [Wake]
      split
      · simp
      · rename_i b hb; rw [h] at hb; cases hb
    | some b => rw [Wake_forward r b t w h]; simp

/-- For a task of another reactor `b` and a positive delay, `WakeAfter` on reactor `a` has
the effect of `WakeAfter` on `b` and leaves the wake queue of `a` alone, but it returns nil
where `b` returns `ErrQueueFull` for a full queue. -/
theorem WakeAfter_forward (a b : ReactorRef) (t : TaskRef) (d : Duration) (w : World)
    (hab : b ≠ a) (hd : 0 < d) (hb : (w.heap t).reactor = some b) :
    (WakeAfter a (some t) d w).2 = (WakeAfter b (some t) d w).2 ∧
    (WakeAfter a (some t) d w).2.wakeQ a = w.wakeQ a ∧
    (WakeAfter a (some t) d w).1 = none ∧
    (WakeAfter b (some t) d w).1 =
      if (w.wakeQ b).full then some WakeError.ErrQueueFull else none := by
  have hd' : ¬ d ≤ 0 := not_le.mpr hd
  have hown : (({ w with heap := Function.update w.heap t { w.heap t with wakeAfter := d } } :
      World).heap t).reactor = some b := by simp [hb]
  have ha : WakeAfter a (some t) d w =
      (none, (({ w with heap := Function.update w.heap t { w.heap t with wakeAfter := d } } :
        World).enqueue b t).2) := by
    unfold WakeAfter
    simp only [if_neg hd']
    split
    · rename_i h; rw [hb] at h; cases h
    · rename_i reactor h
      rw [hb] at h
      cases h
      simp only [ne_eq, hab, not_false_eq_true, if_true]
      exact Wake_own b t _ hown
  have hbb : WakeAfter b (some t) d w =
      (if (w.wakeQ b).full then some WakeError.ErrQueueFull else none,
        (({ w with heap := Function.update w.heap t { w.heap t with wakeAfter := d } } :
          World).enqueue b t).2) := by
    unfold WakeAfter
    simp only [if_neg hd']
    split
    · rename_i h; rw [hb] at h; cases h
    rename_i reactor h
    rw [hb] at h
    cases h
    simp only [ne_eq, not_true_eq_false, if_false]
    by_cases hf : (w.wakeQ b).full
    · have hlt : ¬ (w.wakeQ b).items.length < (w.wakeQ b).cap := by
        unfold BoundedWake.full at hf; omega
      simp [World.enqueue, BoundedWake.Enqueue, hlt, hf]
    · have hlt : (w.wakeQ b).items.length < (w.wakeQ b).cap := by
        unfold BoundedWake.full at hf; omega
      simp [World.enqueue, BoundedWake.Enqueue, hlt, hf]
  refine ⟨by rw [ha, hbb], ?_, by rw [ha], by rw [hbb]⟩
  rw [ha]
  simp [World.enqueue, Function.update_noteq (Ne.symm hab)]

/-- The expiry of a wake slot for an unstopped task whose `wakeAfter` is still positive
does not poll the task: it clears `wakeAfter` and schedules the wake entry again. -/
theorem onTick_wake_pending (now : Int) (list : taskSwapList) (task : TaskRef) (c : Core)
    (hs : (c.heap task).stop = false) (hw : 0 < (c.heap task).wakeAfter) :
    onTick now list ⟨true⟩ task c =
      ⟨schedule task (c.heap task).wakeAfter true
        (c.setTask task { c.heap task with wakeAfter := 0 }), some false⟩ := by
  simp only [onTick, pollWake, hs, Bool.false_eq_true, if_false, if_true, pollWakeBody,
    gt_iff_lt, hw, Run.recover, Option.getD_some, Option.map_some']

/-- A Start poll that returns without a stop signal leaves the `wakeAfter` it set in the
task: `pollStart` schedules the wake entry but does not clear the request. -/
theorem pollStart_keeps_wakeAfter (now : Int) (task : TaskRef) (c : Core)
    (err : Option PollError) (ho : (startEffect now task c).outcome = .returned err)
    (herr : err ≠ some .ErrStop)
    (hstop : ((c.heap task).stop || (startEffect now task c).stop) = false) :
    ((pollStart now task c).core.heap task).stop = false ∧
    ((pollStart now task c).core.heap task).wakeAfter = (startEffect now task c).wakeAfter := by
  unfold pollStart pollStartBody
  dsimp only [Run.recover]
  have hc1 : ((callPoll task now 0 .Start
      (c.setTask task { c.heap task with started := now })).2.heap task) =
      ({ c.heap task with started := now } : Task).apply (startEffect now task c) := by
    simp [callPoll, startEffect]
  split
  · rename_i c1 heq
    have h1 := congrArg Prod.fst heq
    rw [callPoll_outcome] at h1
    simp only [setTask_heap, Function.update_same] at h1
    unfold startEffect at ho
    rw [ho] at h1
    cases h1
  · rename_i err' c1 heq
    have h1 := congrArg Prod.fst heq
    rw [callPoll_outcome] at h1
    simp only [setTask_heap, Function.update_same] at h1
    have ho' := ho
    unfold startEffect at ho'
    rw [ho'] at h1
    injection h1 with h1
    subst h1
    have h2 : c1 = _ := (congrArg Prod.snd heq).symm
    have hst : (c1.heap task).stop = false := by
      rw [h2, hc1]; simpa [Task.apply] using hstop
    have hwa : (c1.heap task).wakeAfter = (startEffect now task c).wakeAfter := by
      rw [h2, hc1]; simp [Task.apply]
    clear heq h2
    simp only [herr, if_false, hst, Bool.false_eq_true]
    split_ifs <;> simp [hst, hwa]

/-! ## Wheel selection -/

theorem levelFor_eq_finestLevel (c : Core) (delay : Duration) (h1 : 0 < c.tickWheel.tickDur)
    (h2 : 0 < c.level2Wheel.tickDur) (h3 : 0 < c.level3Wheel.tickDur) :
    c.levelFor delay = finestLevel c delay := by
  unfold Core.levelFor finestLevel
  simp only [gt_iff_lt, h1, h2, h3, and_true, List.find?, Core.wheel]
  by_cases a1 : delay < c.tickWheel.maxDur
  · simp [a1]
  · by_cases a2 : delay < c.level2Wheel.maxDur
    · simp [a1, a2]
    · by_cases a3 : delay < c.level3Wheel.maxDur <;> simp [a1, a2, a3]

theorem Wheel.detach_of_free (w : Wheel) (task : TaskRef) (h : w.free task) :
    w.detach task = w := by
  have he : w.entries.filter (fun e => e.task != task) = w.entries := by
    apply List.filter_eq_self.mpr
    intro e he
    simpa using h e he
  cases w
  simp only [Wheel.detach] at he ⊢
  rw [he]

theorem Wheel.detach_own (w : Wheel) (task : TaskRef) :
    (w.detach task).entries.filter (fun e => e.task = task) = [] := by
  apply List.filter_eq_nil_iff.mpr
  intro e he
  simpa using Wheel.detach_free w task e he

theorem Wheel.schedule_own (w : Wheel) (task : TaskRef) (delay : Duration) (wake : Bool) :
    ((w.detach task).insert task delay wake).entries.filter (fun e => e.task = task) =
      [⟨task, delay, wake, (w.detach task).slotFor delay⟩] := by
  simp only [Wheel.insert, Wheel.detach, List.filter_append, List.filter_filter]
  have h : w.entries.filter (fun e => (decide (e.task = task) && (e.task != task))) = [] := by
    apply List.filter_eq_nil_iff.mpr
    intro e _
    by_cases he : e.task = task <;> simp [he]
  rw [h]
  simp

theorem maybeProcessTick_ignored (v : Int) (r : Reactor) (h : v < 1 ∨ v = r.lastTick) :
    maybeProcessTick v r = .ok r := by
  simp only [maybeProcessTick, if_pos h]

theorem maybeProcessTick_again (v : Int) (r r1 : Reactor) (h : maybeProcessTick v r = .ok r1) :
    maybeProcessTick v r1 = .ok r1 := by
  rcases maybeProcessTick_ok v r r1 h with ⟨hv, h1⟩ | ⟨_, c, st, rd, ns, h1⟩
  · subst h1
    exact maybeProcessTick_ignored v r1 hv
  · apply maybeProcessTick_ignored
    right
    rw [h1]

/-! ## Cascade ratios -/

theorem NewReactor_ratios_pos (d : Deps) (config : Config) (r : Reactor)
    (h1 : config.Level1Wheel.durations ≠ 0) (h2 : config.Level2Wheel.durations ≠ 0)
    (h3 : config.Level3Wheel.durations ≠ 0) (p1 : 0 < config.Level1Wheel.tickDur)
    (p2 : 0 < config.Level2Wheel.tickDur) (p3 : 0 < config.Level3Wheel.tickDur)
    (hr2 : inInt64 config.Level2Wheel.tickDur) (hr3 : inInt64 config.Level3Wheel.tickDur)
    (h : NewReactor d config = .reactor r) :
    1 ≤ r.ticksPerLevel2 ∧ 1 ≤ r.ticksPerLevel3 := by
  obtain ⟨e1, e2, e3⟩ := NewReactor_set d config h1 h2 h3
  have hne : config.Level1Wheel.tickDur ≠ 0 := ne_of_gt p1
  unfold NewReactor at h
  simp only [e1, e2, e3, if_neg hne] at h
  by_cases hm2 : goMod config.Level2Wheel.tickDur config.Level1Wheel.tickDur = 0
  · by_cases hm3 : goMod config.Level3Wheel.tickDur config.Level1Wheel.tickDur = 0
    · simp only [hm2, hm3, ne_eq, not_true_eq_false, if_false] at h
      injection h with h
      have c2 := goDiv_mul_cancel _ _ hr2 p1 ((goMod_eq_zero_iff _ _).mp hm2)
      have c3 := goDiv_mul_cancel _ _ hr3 p1 ((goMod_eq_zero_iff _ _).mp hm3)
      rw [← h]
      simp only
      constructor
      · by_contra hc
        have : goDiv config.Level2Wheel.tickDur config.Level1Wheel.tickDur ≤ 0 := by omega
        have := mul_nonpos_of_nonpos_of_nonneg this (le_of_lt p1)
        rw [c2] at this
        exact absurd p2 (not_lt.mpr this)
      · by_contra hc
        have : goDiv config.Level3Wheel.tickDur config.Level1Wheel.tickDur ≤ 0 := by omega
        have := mul_nonpos_of_nonpos_of_nonneg this (le_of_lt p1)
        rw [c3] at this
        exact absurd p3 (not_lt.mpr this)
    · simp [hm2, hm3] at h
  · simp [hm2] at h

/-! ## The tick cascade -/

theorem advances_append (a b : List Call) : advances (a ++ b) = advances a ++ advances b := by
  simp [advances, List.filterMap_append]

theorem Steady.at_start (c : Core) : Steady c c := ⟨rfl, fun _ => ⟨rfl, rfl⟩⟩

theorem Steady.setTask_step {c c1 : Core} (h : Steady c c1) (task : TaskRef) (t : Task) :
    Steady c (c1.setTask task t) :=
  ⟨h.1, fun lvl => by rw [setTask_wheel]; exact h.2 lvl⟩

theorem Steady.setTasks_step {c c1 : Core} (h : Steady c c1) (m : SyncMap) :
    Steady c { c1 with tasks := m } :=
  ⟨h.1, fun lvl => by rw [setTasks_wheel]; exact h.2 lvl⟩

theorem Steady.clearSlots_step {c c1 : Core} (h : Steady c c1) (task : TaskRef) :
    Steady c (Task.clearSlots task c1) :=
  ⟨h.1, fun lvl => by rw [clearSlots_wheel]; exact h.2 lvl⟩

theorem Steady.schedule_step {c c1 : Core} (h : Steady c c1) (task : TaskRef)
    (delay : Duration) (wake : Bool) : Steady c (schedule task delay wake c1) := by
  refine ⟨?_, fun lvl => ?_⟩
  · rw [schedule_calls, advances_append, h.1]
    cases c1.levelFor delay <;> simp [advances]
  · rw [schedule_wheel]
    split
    · exact h.2 lvl
    · split
      · exact h.2 lvl
      · exact h.2 lvl

theorem Steady.callPoll_step {c c1 : Core} (h : Steady c c1) (task : TaskRef) (now : Int)
    (iv : Duration) (reason : Reason) : Steady c (callPoll task now iv reason c1).2 := by
  refine ⟨?_, fun lvl => ?_⟩
  · simp only [callPoll, log_calls, setTask_calls, advances_append, h.1]
    simp [advances]
  · simp only [callPoll, log_wheel, setTask_wheel]
    exact h.2 lvl

theorem Steady.callPollClose_step {c c1 : Core} (h : Steady c c1) (pc : CloseEvent → Effect)
    (task : TaskRef) (time : Int) : Steady c (callPollClose pc task time c1).2 := by
  refine ⟨?_, fun lvl => ?_⟩
  · simp only [callPollClose, log_calls, setTask_calls, advances_append, h.1]
    simp [advances]
  · simp only [callPollClose, log_wheel, setTask_wheel]
    exact h.2 lvl

theorem Steady.stopTask_step {c c1 : Core} (h : Steady c c1) (time : Int) (task : TaskRef) :
    Steady c (stopTask time task c1).core := by
  rw [stopTask_core, stopTaskBody_eq]
  unfold Task.remove
  apply Steady.clearSlots_step
  have hs : Steady c (stopped task c1) :=
    ((h.setTasks_step _).setTask_step task { c1.heap task with stop := true }).clearSlots_step task
  split
  · split
    · exact hs
    · exact hs.callPollClose_step _ _ _
  · exact h.setTasks_step _

theorem pollWake_steady (now : Int) (task : TaskRef) (c : Core) :
    Steady c (pollWake now task c).core := by
  unfold pollWake
  split
  · exact Steady.at_start _
  · unfold pollWakeBody
    dsimp only [Run.recover]
    split
    · exact ((Steady.at_start c).setTask_step task { c.heap task with wakeAfter := 0 }).schedule_step
        _ _ _
    · have h0 : Steady c
          (callPoll task now 0 .Wake
            (c.setTask task { c.heap task with wakes := (c.heap task).wakes + 1 })).2 :=
        ((Steady.at_start c).setTask_step task
          { c.heap task with wakes := (c.heap task).wakes + 1 }).callPoll_step _ _ _ _
      split
      · rename_i c1 heq
        have h2 : c1 = _ := (congrArg Prod.snd heq).symm
        rw [h2]; exact h0
      · rename_i err c1 heq
        have h2 : c1 = _ := (congrArg Prod.snd heq).symm
        rw [← h2] at h0
        clear heq h2
        have h1 : Steady c
            (if err = some PollError.ErrStop then
              c1.setTask task { c1.heap task with stop := true } else c1) := by
          split
          · exact h0.setTask_step task { c1.heap task with stop := true }
          · exact h0
        generalize (if err = some PollError.ErrStop then
          c1.setTask task { c1.heap task with stop := true } else c1) = c2 at h1 ⊢
        split
        · exact h1.stopTask_step _ _
        · dsimp only
          have h3 : Steady c
              (if (c2.heap task).wakeAfter ≠ (c.heap task).wakeAfter ∧ (c2.heap task).wakeAfter > 0
                then schedule task (c2.heap task).wakeAfter true c2 else c2) := by
            split
            · exact h1.schedule_step _ _ _
            · exact h1
          generalize (if (c2.heap task).wakeAfter ≠ (c.heap task).wakeAfter ∧
            (c2.heap task).wakeAfter > 0 then schedule task (c2.heap task).wakeAfter true c2
            else c2) = c3 at h3 ⊢
          split
          · exact h3.setTask_step task { c3.heap task with interval := 0 }
          · exact h3

theorem pollInterval_steady (now : Int) (list : taskSwapList) (task : TaskRef) (c : Core) :
    Steady c (pollInterval now list task c).core := by
  unfold pollInterval
  split
  · exact Steady.at_start _
  · unfold pollIntervalBody
    dsimp only [Run.recover]
    have h0 : Steady c
        (callPoll task now (c.heap task).interval .Interval
          (c.setTask task { c.heap task with intervals := (c.heap task).intervals + 1 })).2 :=
      ((Steady.at_start c).setTask_step task
        { c.heap task with intervals := (c.heap task).intervals + 1 }).callPoll_step _ _ _ _
    split
    · rename_i c1 heq
      have h2 : c1 = _ := (congrArg Prod.snd heq).symm
      rw [h2]; exact h0
    · rename_i err c1 heq
      have h2 : c1 = _ := (congrArg Prod.snd heq).symm
      rw [← h2] at h0
      clear heq h2
      have h1 : Steady c
          (if err = some PollError.ErrStop then
            c1.setTask task { c1.heap task with stop := true } else c1) := by
        split
        · exact h0.setTask_step task { c1.heap task with stop := true }
        · exact h0
      generalize (if err = some PollError.ErrStop then
        c1.setTask task { c1.heap task with stop := true } else c1) = c2 at h1 ⊢
      split
      · exact h1.stopTask_step _ _
      · have h3 : Steady c
            (if (c2.heap task).wakeAfter ≠ (c.heap task).wakeAfter ∧ (c2.heap task).wakeAfter > 0
              then schedule task (c2.heap task).wakeAfter true c2 else c2) := by
          split
          · exact h1.schedule_step _ _ _
          · exact h1
        generalize (if (c2.heap task).wakeAfter ≠ (c.heap task).wakeAfter ∧
          (c2.heap task).wakeAfter > 0 then schedule task (c2.heap task).wakeAfter true c2
          else c2) = c3 at h3 ⊢
        split
        · split
          · exact h3.setTask_step task { c3.heap task with interval := 0 }
          · exact h3.schedule_step _ _ _
        · exact h3

theorem onTick_steady (now : Int) (list : taskSwapList) (slot : taskSwapSlot) (task : TaskRef)
    (c : Core) : Steady c (onTick now list slot task c).core := by
  unfold onTick
  split
  · exact pollWake_steady now task c
  · exact pollInterval_steady now list task c

theorem Steady.trans {a b c : Core} (h1 : Steady a b) (h2 : Steady b c) : Steady a c :=
  ⟨h2.1.trans h1.1, fun lvl => ⟨(h2.2 lvl).1.trans (h1.2 lvl).1, (h2.2 lvl).2.trans (h1.2 lvl).2⟩⟩

theorem setWheel_wheel (c : Core) (lvl l : Level) (w : Wheel) :
    (c.setWheel lvl w).wheel l = if l = lvl then w else c.wheel l := by
  cases lvl <;> cases l <;> simp [Core.setWheel, Core.wheel]

theorem setWheel_calls (c : Core) (lvl : Level) (w : Wheel) :
    (c.setWheel lvl w).calls = c.calls := by
  cases lvl <;> rfl

theorem Steady.entries_step {c c1 : Core} (h : Steady c c1) (lvl : Level)
    (es : List WheelEntry) :
    Steady c (c1.setWheel lvl { c1.wheel lvl with entries := es }) := by
  refine ⟨by rw [setWheel_calls]; exact h.1, fun l => ?_⟩
  rw [setWheel_wheel]
  split
  · rename_i hl
    subst hl
    exact h.2 l
  · exact h.2 l

theorem Steady.expire_step (lvl : Level) (now : Int) (due : List WheelEntry) :
    ∀ (c c1 : Core), Steady c c1 →
      Steady c (due.foldl
        (fun c e =>
          let r := onTick now ⟨e.dur⟩ ⟨e.wake⟩ e.task c
          if r.value = some true then
            let w2 := r.core.wheel lvl
            r.core.setWheel lvl
              { w2 with entries := w2.entries ++ [{ e with slot := w2.slotFor e.dur }] }
          else r.core) c1) := by
  induction due with
  | nil => intro c c1 h; exact h
  | cons e es ih =>
    intro c c1 h
    rw [List.foldl_cons]
    apply ih
    have h1 : Steady c (onTick now ⟨e.dur⟩ ⟨e.wake⟩ e.task c1).core :=
      h.trans (onTick_steady now ⟨e.dur⟩ ⟨e.wake⟩ e.task c1)
    dsimp only
    split
    · exact h1.entries_step lvl _
    · exact h1

/-- One call of `Wheel.tick` is one advance of that wheel and of no other: the cursor of
the wheel moves one slot on, whatever the expiry callbacks do. -/
theorem wheelTick_advance (lvl : Level) (now : Int) (c : Core) :
    advances (Wheel.tick lvl now onTick c).calls = advances c.calls ++ [lvl] ∧
      ∀ l, ((Wheel.tick lvl now onTick c).wheel l).cursor =
          (if l = lvl then ((c.wheel l).cursor + 1) % (c.wheel l).durations
            else (c.wheel l).cursor) ∧
        ((Wheel.tick lvl now onTick c).wheel l).durations = (c.wheel l).durations := by
  unfold Wheel.tick
  dsimp only
  have h := Steady.expire_step lvl now
    ((c.wheel lvl).entries.filter (fun e => e.slot = (c.wheel lvl).cursor)) _ _
    (Steady.at_start ((c.setWheel lvl
      { c.wheel lvl with cursor := ((c.wheel lvl).cursor + 1) % (c.wheel lvl).durations
                         entries := (c.wheel lvl).entries.filter
                           (fun e => e.slot ≠ (c.wheel lvl).cursor) }).log (.advance lvl)))
  refine ⟨?_, fun l => ?_⟩
  · rw [h.1, log_calls, setWheel_calls, advances_append]
    simp [advances]
  · rw [(h.2 l).1, (h.2 l).2, log_wheel, setWheel_wheel]
    by_cases hl : l = lvl
    · subst hl
      simp
    · simp [hl]

theorem cascade_advances (tk now tp2 tp3 : Int) (c : Core) :
    advances (cascade tk now tp2 tp3 c).calls =
      advances c.calls ++ [Level.l1] ++ (if goMod tk tp2 = 0 then [Level.l2] else []) ++
        (if goMod tk tp3 = 0 then [Level.l3] else []) := by
  unfold cascade
  dsimp only
  by_cases h2 : goMod tk tp2 = 0 <;> by_cases h3 : goMod tk tp3 = 0
  · rw [if_pos h3, if_pos h2, if_pos h3, if_pos h2, (wheelTick_advance _ _ _).1,
      (wheelTick_advance _ _ _).1, (wheelTick_advance _ _ _).1]
  · rw [if_neg h3, if_pos h2, if_neg h3, if_pos h2, (wheelTick_advance _ _ _).1,
      (wheelTick_advance _ _ _).1, List.append_nil]
  · rw [if_pos h3, if_neg h2, if_pos h3, if_neg h2, (wheelTick_advance _ _ _).1,
      (wheelTick_advance _ _ _).1, List.append_nil]
  · rw [if_neg h3, if_neg h2, if_neg h3, if_neg h2, (wheelTick_advance _ _ _).1,
      List.append_nil, List.append_nil]

theorem condTick_advance (b : Prop) [Decidable b] (lvl : Level) (now : Int) (c : Core) (l : Level) :
    ((if b then Wheel.tick lvl now onTick c else c).wheel l).cursor =
        (if l = lvl ∧ b then ((c.wheel l).cursor + 1) % (c.wheel l).durations
          else (c.wheel l).cursor) ∧
      ((if b then Wheel.tick lvl now onTick c else c).wheel l).durations =
        (c.wheel l).durations := by
  by_cases hb : b
  · have h := (wheelTick_advance lvl now c).2 l
    simpa [hb] using h
  · simp [hb]

theorem cascade_cursor (tk now tp2 tp3 : Int) (c : Core) :
    ((cascade tk now tp2 tp3 c).tickWheel.cursor =
        (c.tickWheel.cursor + 1) % c.tickWheel.durations) ∧
      ((cascade tk now tp2 tp3 c).level2Wheel.cursor =
        if goMod tk tp2 = 0 then (c.level2Wheel.cursor + 1) % c.level2Wheel.durations
        else c.level2Wheel.cursor) ∧
      ((cascade tk now tp2 tp3 c).level3Wheel.cursor =
        if goMod tk tp3 = 0 then (c.level3Wheel.cursor + 1) % c.level3Wheel.durations
        else c.level3Wheel.cursor) := by
  unfold cascade
  dsimp only
  have e1 := (wheelTick_advance .l1 now c).2
  generalize Wheel.tick .l1 now onTick c = c1 at e1 ⊢
  have e2 := condTick_advance (goMod tk tp2 = 0) .l2 now c1
  generalize (if goMod tk tp2 = 0 then Wheel.tick .l2 now onTick c1 else c1) = c2 at e2 ⊢
  have e3 := condTick_advance (goMod tk tp3 = 0) .l3 now c2
  generalize (if goMod tk tp3 = 0 then Wheel.tick .l3 now onTick c2 else c2) = c3 at e3 ⊢
  have a1 := e1 .l1
  have a2 := e1 .l2
  have a3 := e1 .l3
  have b1 := e2 .l1
  have b2 := e2 .l2
  have b3 := e2 .l3
  have d1 := e3 .l1
  have d2 := e3 .l2
  have d3 := e3 .l3
  simp only [Core.wheel, true_and, false_and, if_false, if_true, reduceCtorEq] at a1 a2 a3 b1 b2 b3 d1 d2 d3
  refine ⟨?_, ?_, ?_⟩
  · rw [d1.1, b1.1, a1.1]
  · rw [d2.1, b2.1, a2.1, a2.2]
  · rw [d3.1, b3.1, b3.2, a3.1, a3.2]

theorem tick_advances (t now : Int) (r : Reactor) (h2 : r.ticksPerLevel2 ≠ 0)
    (h3 : r.ticksPerLevel3 ≠ 0) :
    tick t now r = .ok { r with
      core := cascade t now r.ticksPerLevel2 r.ticksPerLevel3 r.core,
      trace := r.trace ++ [Event.tick t] } := by
  rw [tick_eq, if_neg]
  exact fun h => h.elim h2 h3

theorem goMod_succ_eq_zero_iff (n k : Nat) : goMod ((n : Int) + 1) (k : Int) = 0 ↔ k ∣ n + 1 := by
  rw [goMod_eq_zero_iff, ← Int.dvd_iff_emod_eq_zero]
  have h : ((n : Int) + 1) = ((n + 1 : Nat) : Int) := by push_cast; rfl
  rw [h, Int.natCast_dvd_natCast]

theorem runTicks_counts (now : Int) (k2 k3 : Nat) (hk2 : 1 ≤ k2) (hk3 : 1 ≤ k3) :
    ∀ (n : Nat) (r : Reactor), r.ticksPerLevel2 = k2 → r.ticksPerLevel3 = k3 →
      ∃ rn, runTicks n now r = .ok rn ∧ rn.ticksPerLevel2 = k2 ∧ rn.ticksPerLevel3 = k3 ∧
        (advances rn.core.calls).count Level.l1 = (advances r.core.calls).count Level.l1 + n ∧
        (advances rn.core.calls).count Level.l2 =
          (advances r.core.calls).count Level.l2 + n / k2 ∧
        (advances rn.core.calls).count Level.l3 =
          (advances r.core.calls).count Level.l3 + n / k3 := by
  intro n
  induction n with
  | zero =>
    intro r e2 e3
    exact ⟨r, rfl, e2, e3, by simp, by simp, by simp⟩
  | succ n ih =>
    intro r e2 e3
    obtain ⟨rn, hrun, f2, f3, c1, c2, c3⟩ := ih r e2 e3
    have n2 : rn.ticksPerLevel2 ≠ 0 := by rw [f2]; exact_mod_cast (by omega : k2 ≠ 0)
    have n3 : rn.ticksPerLevel3 ≠ 0 := by rw [f3]; exact_mod_cast (by omega : k3 ≠ 0)
    refine ⟨{ rn with
      core := cascade ((n : Int) + 1) now rn.ticksPerLevel2 rn.ticksPerLevel3 rn.core,
      trace := rn.trace ++ [Event.tick ((n : Int) + 1)] }, ?_, ?_, ?_, ?_, ?_, ?_⟩
    · have hs : runTicks (n + 1) now r =
          (match runTicks n now r with
            | .error e => .error e
            | .ok r1 => tick ((n : Int) + 1) now r1) := rfl
      rw [hs, hrun]
      exact tick_advances _ now rn n2 n3
    · exact f2
    · exact f3
    · show (advances (cascade _ now _ _ rn.core).calls).count Level.l1 = _
      rw [cascade_advances, List.count_append, List.count_append, List.count_append, c1]
      have a2 : (if goMod ((n : Int) + 1) rn.ticksPerLevel2 = 0 then [Level.l2] else []).count
          Level.l1 = 0 := by split <;> simp
      have a3 : (if goMod ((n : Int) + 1) rn.ticksPerLevel3 = 0 then [Level.l3] else []).count
          Level.l1 = 0 := by split <;> simp
      rw [a2, a3]
      simp
      omega
    · show (advances (cascade _ now _ _ rn.core).calls).count Level.l2 = _
      rw [cascade_advances, List.count_append, List.count_append, List.count_append, c2, f2, f3,
        Nat.succ_div]
      have a2 : (if goMod ((n : Int) + 1) (k2 : Int) = 0 then [Level.l2] else []).count
          Level.l2 = if k2 ∣ n + 1 then 1 else 0 := by
        by_cases h : k2 ∣ n + 1
        · rw [if_pos ((goMod_succ_eq_zero_iff n k2).mpr h), if_pos h]; simp
        · rw [if_neg (fun g => h ((goMod_succ_eq_zero_iff n k2).mp g)), if_neg h]; simp
      have a3 : (if goMod ((n : Int) + 1) (k3 : Int) = 0 then [Level.l3] else []).count
          Level.l2 = 0 := by split <;> simp
      rw [a2, a3]
      simp
      omega
    · show (advances (cascade _ now _ _ rn.core).calls).count Level.l3 = _
      rw [cascade_advances, List.count_append, List.count_append, List.count_append, c3, f2, f3,
        Nat.succ_div]
      have a2 : (if goMod ((n : Int) + 1) (k2 : Int) = 0 then [Level.l2] else []).count
          Level.l3 = 0 := by split <;> simp
      have a3 : (if goMod ((n : Int) + 1) (k3 : Int) = 0 then [Level.l3] else []).count
          Level.l3 = if k3 ∣ n + 1 then 1 else 0 := by
        by_cases h : k3 ∣ n + 1
        · rw [if_pos ((goMod_succ_eq_zero_iff n k3).mpr h), if_pos h]; simp
        · rw [if_neg (fun g => h ((goMod_succ_eq_zero_iff n k3).mp g)), if_neg h]; simp
      rw [a2, a3]
      simp
      omega

/-! ## What a drain pass does to the tasks -/

theorem foldl_onWake_full (l : List TaskRef) (r : Reactor) :
    l.foldl (fun r x => onWake x r) r =
      { r with core := l.foldl (fun c t => (pollWake r.now t c).core) r.core,
               trace := r.trace ++ l.map Event.wake } := by
  induction l generalizing r with
  | nil => simp
  | cons x xs ih =>
    simp only [List.foldl_cons, ih]
    simp [onWake, Reactor.log]

theorem foldl_onSpawn_full (l : List TaskRef) (r : Reactor) :
    l.foldl (fun r x => onSpawn x r) r =
      { r with core := l.foldl (fun c t => (pollStart r.now t c).core) r.core,
               trace := r.trace ++ l.map Event.spawn } := by
  induction l generalizing r with
  | nil => simp
  | cons x xs ih =>
    simp only [List.foldl_cons, ih]
    simp [onSpawn, Reactor.log]

theorem foldl_onTaskSlotWake_full (l : List (Option TaskRef)) (r : Reactor) :
    l.foldl (fun r s => onTaskSlotWake s r) r = { r with core := wakeSlots r.now l r.core } := by
  induction l generalizing r with
  | nil => rfl
  | cons x xs ih =>
    simp only [List.foldl_cons, ih, wakeSlots]
    cases x <;> simp [onTaskSlotWake]

theorem pollWakeList_full (now : Int) (list : WakeList) (r : Reactor) :
    ∃ st, pollWakeList now list r =
      { r with core := wakeSlots r.now list.wakes r.core, stats := st } := by
  simp only [pollWakeList, foldl_onTaskSlotWake_full, foldl_onFuncSlotWake]
  exact ⟨_, rfl⟩

theorem foldl_onWakeList_full (l : List WakeList) (r : Reactor) :
    ∃ st, l.foldl (fun r x => onWakeList x r) r =
      { r with core := l.foldl (fun c x => wakeSlots r.now x.wakes c) r.core, stats := st,
               trace := r.trace ++ l.map Event.wakeList } := by
  induction l generalizing r with
  | nil => exact ⟨r.stats, by simp⟩
  | cons x xs ih =>
    obtain ⟨st, hc⟩ := ih (onWakeList x r)
    obtain ⟨st1, h1⟩ := pollWakeList_full r.now x (r.log (.wakeList x))
    refine ⟨st, ?_⟩
    simp only [List.foldl_cons, hc]
    simp only [onWakeList, Reactor.log] at h1 ⊢
    simp [h1]

theorem flushWakeListQ_full (n : Nat) (r : Reactor) :
    ∃ st, flushWakeListQ (n, r) = (n + r.wakeListQ.batch.length,
      { r with core := r.wakeListQ.batch.foldl (fun c x => wakeSlots r.now x.wakes c) r.core,
               stats := st, wakeListQ := r.wakeListQ.rest,
               trace := r.trace ++ r.wakeListQ.batch.map Event.wakeList }) := by
  by_cases h : r.wakeListQ.items = []
  · refine ⟨r.stats, ?_⟩
    simp [flushWakeListQ, BoundedWake.IsEmpty, h, BoundedWake.batch_of_empty,
      BoundedWake.rest_of_empty]
  · obtain ⟨st, hc⟩ := foldl_onWakeList_full r.wakeListQ.batch
      { r with wakeListQ := r.wakeListQ.rest }
    simp only [BoundedWake.batch, BoundedWake.rest] at hc ⊢
    have hne : (!r.wakeListQ.IsEmpty) = true := by simp [BoundedWake.IsEmpty, h]
    simp only [flushWakeListQ, hne, if_true, BoundedWake.DequeueMany, hc]
    exact ⟨_, rfl⟩

theorem flushWakeQ_full (n : Nat) (r : Reactor) :
    ∃ st, flushWakeQ (n, r) = (n + r.wakeQ.batch.length,
      { r with core := r.wakeQ.batch.foldl (fun c t => (pollWake r.now t c).core) r.core,
               stats := st, wakeQ := r.wakeQ.rest,
               trace := r.trace ++ r.wakeQ.batch.map Event.wake }) := by
  by_cases h : r.wakeQ.items = []
  · refine ⟨r.stats, ?_⟩
    simp [flushWakeQ, BoundedWake.IsEmpty, h, BoundedWake.batch_of_empty,
      BoundedWake.rest_of_empty]
  · have hc := foldl_onWake_full r.wakeQ.batch { r with wakeQ := r.wakeQ.rest }
    simp only [BoundedWake.batch, BoundedWake.rest] at hc ⊢
    have hne : (!r.wakeQ.IsEmpty) = true := by simp [BoundedWake.IsEmpty, h]
    simp only [flushWakeQ, hne, if_true, BoundedWake.DequeueMany, hc]
    exact ⟨_, rfl⟩

theorem flushSpawnQ_full (n : Nat) (r : Reactor) :
    ∃ st, flushSpawnQ (n, r) = (n + r.spawnQ.batch.length,
      { r with core := r.spawnQ.batch.foldl (fun c t => (pollStart r.now t c).core) r.core,
               stats := st, spawnQ := r.spawnQ.rest,
               trace := r.trace ++ r.spawnQ.batch.map Event.spawn }) := by
  by_cases h : r.spawnQ.items = []
  · refine ⟨r.stats, ?_⟩
    simp [flushSpawnQ, BoundedWake.IsEmpty, h, BoundedWake.batch_of_empty,
      BoundedWake.rest_of_empty]
  · have hc := foldl_onSpawn_full r.spawnQ.batch { r with spawnQ := r.spawnQ.rest }
    simp only [BoundedWake.batch, BoundedWake.rest] at hc ⊢
    have hne : (!r.spawnQ.IsEmpty) = true := by simp [BoundedWake.IsEmpty, h]
    simp only [flushSpawnQ, hne, if_true, BoundedWake.DequeueMany, hc]
    exact ⟨_, rfl⟩

/-- One pass of `flushQueues` in full: the count, the core after the handlers ran on the
batches in queue order, the queues that remain and the items added to the trace. -/
theorem flushQueues_full (r : Reactor) :
    ∃ st, flushQueues r =
      (r.wakeListQ.batch.length + r.invokeQ.batch.length + r.wakeQ.batch.length +
          r.spawnQ.batch.length,
        { r with core := r.drainedCore, stats := st, wakeListQ := r.wakeListQ.rest,
                 invokeQ := r.invokeQ.rest, wakeQ := r.wakeQ.rest, spawnQ := r.spawnQ.rest,
                 trace := r.trace ++ r.drained }) := by
  obtain ⟨st1, h1⟩ := flushWakeListQ_full 0 r
  rw [flushQueues_blocks, h1]
  obtain ⟨st2, h2⟩ := flushInvokeQ_shape (0 + r.wakeListQ.batch.length)
    { r with core := r.wakeListQ.batch.foldl (fun c x => wakeSlots r.now x.wakes c) r.core,
             stats := st1, wakeListQ := r.wakeListQ.rest,
             trace := r.trace ++ r.wakeListQ.batch.map Event.wakeList }
  rw [h2]
  obtain ⟨st3, h3⟩ := flushWakeQ_full (0 + r.wakeListQ.batch.length + r.invokeQ.batch.length)
    { r with core := r.wakeListQ.batch.foldl (fun c x => wakeSlots r.now x.wakes c) r.core,
             stats := st2, wakeListQ := r.wakeListQ.rest, invokeQ := r.invokeQ.rest,
             trace := r.trace ++ r.wakeListQ.batch.map Event.wakeList ++
               r.invokeQ.batch.map Event.fn }
  simp only [List.append_assoc] at h3 ⊢
  rw [h3]
  obtain ⟨st4, h4⟩ := flushSpawnQ_full
    (0 + r.wakeListQ.batch.length + r.invokeQ.batch.length + r.wakeQ.batch.length)
    { r with core := r.wakeQ.batch.foldl (fun c t => (pollWake r.now t c).core)
               (r.wakeListQ.batch.foldl (fun c x => wakeSlots r.now x.wakes c) r.core),
             stats := st3, wakeListQ := r.wakeListQ.rest, invokeQ := r.invokeQ.rest,
             wakeQ := r.wakeQ.rest,
             trace := r.trace ++ (r.wakeListQ.batch.map Event.wakeList ++
               (r.invokeQ.batch.map Event.fn ++ r.wakeQ.batch.map Event.wake)) }
  simp only [List.append_assoc] at h4 ⊢
  rw [h4]
  refine ⟨st4, ?_⟩
  simp [Reactor.drained, Reactor.drainedCore]

/-! ## Tick processing comes first -/

theorem ticked_of_trace (r r' : Reactor) (ns : List Int) (ds : List Event)
    (h : r'.trace = r.trace ++ ns.map Event.tick ++ ds) (hds : ∀ e ∈ ds, e.isTick = false) :
    r'.ticked = r.ticked ++ ns := by
  simp only [Reactor.ticked, h, List.filterMap_append, filterMap_tick_map,
    filterMap_tick_of_not_tick ds hds, List.append_nil]

theorem maybeProcessTick_ticked (v : Int) (r : Reactor) (h2 : r.ticksPerLevel2 ≠ 0)
    (h3 : r.ticksPerLevel3 ≠ 0) (hL : minInt64 ≤ r.lastTick) (hmax : v < maxInt64) :
    ∃ r', maybeProcessTick v r = .ok r' ∧ r'.ticked = r.ticked ++ ticksDue v r := by
  by_cases hign : v < 1 ∨ v = r.lastTick
  · refine ⟨r, by simp only [maybeProcessTick, if_pos hign], ?_⟩
    simp only [ticksDue, if_pos hign, List.append_nil]
  · by_cases hs : r.lastTick < v - 1
    · obtain ⟨c1, hc⟩ := catchup_total r.lastTick v { r with currentTick := v } h2 h3
        (by omega) (by omega) hmax
      obtain ⟨r', hp⟩ := processTick_total v
        { r with currentTick := v, lastTick := v, core := c1, reads := r.reads + 1,
                 trace := r.trace ++
                   (upFrom (r.lastTick + 1) (v - r.lastTick).toNat).map Event.tick } h2 h3
      obtain ⟨c, st, hshape⟩ := processTick_ok _ _ _ hp
      refine ⟨r', ?_, ?_⟩
      · simp only [maybeProcessTick, if_neg hign, hs, if_true, hc]
        exact hp
      · simp only [ticksDue, if_neg hign, if_pos hs]
        apply ticked_of_trace r r' _ r.drained _ (drained_not_tick r)
        rw [hshape]
        simp [Reactor.drained]
    · obtain ⟨r', hp⟩ := processTick_total v { r with currentTick := v, lastTick := v } h2 h3
      obtain ⟨c, st, hshape⟩ := processTick_ok _ _ _ hp
      refine ⟨r', ?_, ?_⟩
      · simp only [maybeProcessTick, if_neg hign, hs, if_false]
        exact hp
      · simp only [ticksDue, if_neg hign, if_neg hs]
        apply ticked_of_trace r r' _ r.drained _ (drained_not_tick r)
        rw [hshape]
        simp [Reactor.drained]

theorem flushLoop_ticked (fuel : Nat) (r r' : Reactor) (h : flushLoop fuel r = .ok r') :
    r'.ticked = r.ticked ∧ r'.lastTick = r.lastTick ∧ r'.currentTick = r.currentTick := by
  obtain ⟨c, st, rd, nw, ds, hr', hds⟩ := flushLoop_ok fuel r r' h
  refine ⟨?_, by rw [hr'], by rw [hr']⟩
  have ht : r'.trace = r.trace ++ ([] : List Int).map Event.tick ++ ds := by rw [hr']; simp
  simpa using ticked_of_trace r r' [] ds ht hds

/-- The order inside `onWakeMessage`: an ignored tick value leaves the tick counter alone
and only drained items are added to the trace; any other value is processed first, so the
tick counter is `v` and the trace gets the catch-up ticks, the tick `v`, the items of the
flush that belongs to the tick and only then the items of the drain loop. -/
theorem onWakeMessage_order (v : Int) (r r' : Reactor) (h : onWakeMessage v r = .ok r') :
    ((v < 1 ∨ v = r.lastTick) → r'.lastTick = r.lastTick ∧
      ∃ ds, r'.trace = r.trace ++ ds ∧ ∀ e ∈ ds, e.isTick = false) ∧
    (¬ (v < 1 ∨ v = r.lastTick) → r'.lastTick = v ∧ r'.currentTick = v ∧
      ∃ (ns : List Int) (ds : List Event),
        r'.trace = r.trace ++ ns.map Event.tick ++ [Event.tick v] ++ r.drained ++ ds ∧
          ∀ e ∈ ds, e.isTick = false) := by
  unfold onWakeMessage at h
  cases hm : maybeProcessTick v r with
  | error e => simp [hm] at h
  | ok r1 =>
    simp only [hm, NanoTime] at h
    obtain ⟨c, st, rd, nw, ds, hr', hds⟩ := flushLoop_ok _ _ _ h
    rcases maybeProcessTick_ok _ _ _ hm with ⟨hv, h1⟩ | ⟨hv, c1, st1, rd1, ns, h1⟩
    · subst h1
      refine ⟨fun _ => ⟨by rw [hr'], ds, by rw [hr'], hds⟩, fun hn => absurd hv hn⟩
    · refine ⟨fun hi => absurd hi hv, fun _ => ⟨by rw [hr', h1], by rw [hr', h1], ns, ds, ?_, hds⟩⟩
      rw [hr', h1]

theorem onWakeMessage_ticked (v : Int) (r : Reactor) (h2 : r.ticksPerLevel2 ≠ 0)
    (h3 : r.ticksPerLevel3 ≠ 0) (hL : minInt64 ≤ r.lastTick) (hmax : v < maxInt64) :
    ∃ r', onWakeMessage v r = .ok r' ∧ r'.ticked = r.ticked ++ ticksDue v r := by
  obtain ⟨r1, hm, ht⟩ := maybeProcessTick_ticked v r h2 h3 hL hmax
  obtain ⟨r', hr'⟩ := onWakeMessage_total v r h2 h3 hL hmax
  refine ⟨r', hr', ?_⟩
  simp only [onWakeMessage, hm, NanoTime] at hr'
  rw [(flushLoop_ticked _ _ _ hr').1]
  exact ht

/-! ## The claims -/

/-- C1. Catch-up completeness fails on the code: with `lastTick = 4`, `maybeProcessTick 7`
hands the tick numbers 5, 6, 7 and then 7 once more to `Reactor.tick`, because the loop of
`catchup` runs up to and including the current tick and `processTick` ticks it again. -/
theorem catchup_repeats_current_tick :
    tickedBy (maybeProcessTick 7 (Reactor.example (fun _ => Task.fresh 0 none Future.idle) 4)) =
      some [5, 6, 7, 7] := by
  decide

/-- C3. Wake backpressure fails on the code: on a full wake queue `Wake` returns nil
although nothing was enqueued, where `WakeAfter` returns `ErrQueueFull`. -/
theorem Wake_ignores_full_queue :
    (World.example.wakeQ 1).full ∧ (World.example.heap 7).reactor = some 1 ∧
    (Wake 1 (some 7) World.example).1 = none ∧
    ((Wake 1 (some 7) World.example).2.wakeQ 1).items = [5, 6] ∧
    (WakeAfter 1 (some 7) 5 World.example).1 = some WakeError.ErrQueueFull := by
  refine ⟨by decide, by decide, ?_, ?_, by decide⟩
  · rw [Wake_own _ _ _ rfl]
  · rw [Wake_own _ _ _ rfl]; decide

/-- C4. A delayed wake requested by the Start poll is not polled at the first expiry:
`pollStart` schedules one wake entry but leaves `wakeAfter` set, so the first `onTick` on
the wake slot only schedules the entry again, and the Wake poll comes at the second
expiry (where it stops the task and takes it out of the active map). -/
theorem start_wake_deferred_to_second_expiry :
    (pollStart 0 0 (Core.single Future.wakeOnce)).core.calls =
      [.poll 0 .Start, .schedule .l1 0 (50 * Millisecond) true] ∧
    (pollStart 0 0 (Core.single Future.wakeOnce)).core.tasks 1 = some 0 ∧
    (onTick 5 ⟨50 * Millisecond⟩ ⟨true⟩ 0 (pollStart 0 0 (Core.single Future.wakeOnce)).core).core.calls =
      [.poll 0 .Start, .schedule .l1 0 (50 * Millisecond) true,
        .schedule .l1 0 (50 * Millisecond) true] ∧
    (onTick 10 ⟨50 * Millisecond⟩ ⟨true⟩ 0
      (onTick 5 ⟨50 * Millisecond⟩ ⟨true⟩ 0
        (pollStart 0 0 (Core.single Future.wakeOnce)).core).core).core.calls =
      [.poll 0 .Start, .schedule .l1 0 (50 * Millisecond) true,
        .schedule .l1 0 (50 * Millisecond) true, .poll 0 .Wake] ∧
    (onTick 10 ⟨50 * Millisecond⟩ ⟨true⟩ 0
      (onTick 5 ⟨50 * Millisecond⟩ ⟨true⟩ 0
        (pollStart 0 0 (Core.single Future.wakeOnce)).core).core).core.tasks 1 = none := by
  decide

/-- C5. Cross-reactor forwarding loses the full-queue error: reactor 0 forwards
`WakeAfter` for a task of reactor 1, whose wake queue is full, and returns nil, where the
same call on reactor 1 returns `ErrQueueFull`; neither call enqueues the task. -/
theorem WakeAfter_forward_hides_full_queue :
    (World.example.wakeQ 1).full ∧ (World.example.heap 7).reactor = some 1 ∧
    (WakeAfter 0 (some 7) 5 World.example).1 = none ∧
    (WakeAfter 1 (some 7) 5 World.example).1 = some WakeError.ErrQueueFull ∧
    ((WakeAfter 0 (some 7) 5 World.example).2.wakeQ 1).items = [5, 6] ∧
    ((WakeAfter 1 (some 7) 5 World.example).2.wakeQ 1).items = [5, 6] := by
  refine ⟨by decide, by decide, ?_, by decide, ?_, by decide⟩
  · simp only [WakeAfter]
    rw [if_neg (by decide)]
    simp only [World.example, Task.fresh]
    rw [if_pos (by decide), Wake_own _ _ _ rfl]
  · simp only [WakeAfter]
    rw [if_neg (by decide)]
    simp only [World.example, Task.fresh]
    rw [if_pos (by decide), Wake_own _ _ _ rfl]
    decide

/-- C7 (amended). Active-map invariant, for user logic whose `Poll` does not panic: after
`pollStart` the task is in the active map exactly if its stop flag is unset, which is
exactly if the Start poll neither found or set the stop flag nor returned `ErrStop`; and
`pollWake`, `pollInterval` and `stopTask` keep the invariant that the task is in the map
exactly if it has been started and its stop flag is unset. -/
theorem active_map_invariant (started : Prop) (now : Int) (list : taskSwapList)
    (task : TaskRef) (c : Core)
    (hPoll : ∀ ctx, ((c.heap task).future.Poll ctx).outcome ≠ .panicked) :
    Registered True task (pollStart now task c).core ∧
    ((pollStart now task c).core.tasks ((pollStart now task c).core.heap task).id = some task ↔
      ((c.heap task).stop = false ∧ (startEffect now task c).stop = false ∧
        (startEffect now task c).outcome ≠ .returned (some .ErrStop))) ∧
    (Registered started task c → Registered started task (pollWake now task c).core) ∧
    (Registered started task c →
      Registered started task (pollInterval now list task c).core) ∧
    (Registered started task c → Registered started task (stopTask now task c).core) := by
  refine ⟨?_, ?_, pollWake_registered started now task c hPoll,
    pollInterval_registered started now list task c hPoll,
    stopTask_registered started now task c⟩
  · unfold Registered
    rw [pollStart_member now task c hPoll]
    simp
  · rw [pollStart_member now task c hPoll]
    cases ho : (startEffect now task c).outcome with
    | panicked => exact absurd ho (hPoll _)
    | returned err =>
      constructor
      · intro hs
        by_contra hn
        have hsig : err = some PollError.ErrStop ∨
            ((c.heap task).stop || (startEffect now task c).stop) = true := by
          by_cases he : err = some PollError.ErrStop
          · exact Or.inl he
          · right
            by_contra hb
            simp only [Bool.or_eq_true, not_or, Bool.not_eq_true] at hb
            exact hn ⟨hb.1, hb.2, fun hc => he (Completion.returned.inj hc)⟩
        rw [pollStart_stopped now task c err ho hsig] at hs
        cases hs
      · rintro ⟨h1, h2, h3⟩
        have herr : err ≠ some PollError.ErrStop := fun hc => h3 (by rw [hc])
        exact (pollStart_keeps_wakeAfter now task c err ho herr (by simp [h1, h2])).1

/-- Witness for C7: a task with idle logic is in the map after its Start poll. -/
theorem active_map_invariant_witness :
    Registered True 0 (pollStart 0 0 (Core.single Future.idle)).core :=
  (active_map_invariant True 0 ⟨0⟩ 0 (Core.single Future.idle)
    (fun ctx => by simp [Core.single, Core.example, Task.fresh, Future.idle])).1

/-- Counterexample for C7: a task whose Start poll panics has been polled by `pollStart`
and is not stopped, yet it is not in the active map. -/
theorem active_map_invariant_panicking_start :
    (pollStart 0 0 (Core.single Future.panicking)).core.calls = [.poll 0 .Start] ∧
    ((pollStart 0 0 (Core.single Future.panicking)).core.heap 0).stop = false ∧
    (pollStart 0 0 (Core.single Future.panicking)).core.tasks
      ((pollStart 0 0 (Core.single Future.panicking)).core.heap 0).id = none := by
  decide

/-- Witness for C8: a task that changes its interval from 100ms to 50ms gets one interval
entry of 50ms. -/
theorem pollInterval_outcome_witness :
    intervalDelays 0
      (pollInterval 5 ⟨100 * Millisecond⟩ 0
        (Core.every100ms (Future.retime (50 * Millisecond)))).core.calls =
      [50 * Millisecond] := by
  have h := (((pollInterval_outcome 5 ⟨100 * Millisecond⟩ 0
    (Core.every100ms (Future.retime (50 * Millisecond)))).2 (by decide)).2 none (by decide)
    (by decide) (by decide)).2.2.1 (by decide) (by decide)
  rw [h]
  decide

/-- Counterexample for C8: a task that changes its interval from 100ms to 100s, beyond the
range of all three wheels, is polled and `pollInterval` returns false, but no interval
entry is scheduled; and a task whose Interval poll panics keeps its interval, yet
`pollInterval` returns false. -/
theorem pollInterval_drops_long_interval :
    ((pollInterval 5 ⟨100 * Millisecond⟩ 0
        (Core.every100ms (Future.retime (100 * Second)))).value = some false ∧
      (pollInterval 5 ⟨100 * Millisecond⟩ 0
        (Core.every100ms (Future.retime (100 * Second)))).core.calls = [.poll 0 .Interval] ∧
      ((pollInterval 5 ⟨100 * Millisecond⟩ 0
        (Core.every100ms (Future.retime (100 * Second)))).core.heap 0).interval = 100 * Second ∧
      (pollInterval 5 ⟨100 * Millisecond⟩ 0
        (Core.every100ms (Future.retime (100 * Second)))).core.tickWheel.entries = [] ∧
      (pollInterval 5 ⟨100 * Millisecond⟩ 0
        (Core.every100ms (Future.retime (100 * Second)))).core.level2Wheel.entries = [] ∧
      (pollInterval 5 ⟨100 * Millisecond⟩ 0
        (Core.every100ms (Future.retime (100 * Second)))).core.level3Wheel.entries = []) ∧
    ((pollInterval 5 ⟨100 * Millisecond⟩ 0 (Core.every100ms Future.panicking)).value =
        some false ∧
      ((pollInterval 5 ⟨100 * Millisecond⟩ 0 (Core.every100ms Future.panicking)).core.heap
        0).interval = 100 * Millisecond ∧
      ((pollInterval 5 ⟨100 * Millisecond⟩ 0 (Core.every100ms Future.panicking)).core.heap
        0).stop = false) := by
  decide

/-- C9. Drain order and completeness: one pass of `flushQueues` hands the batch of each
queue to its handler, wake lists first, then callbacks, then wakes, then spawns, returns the
number of items handled and leaves the core that these handlers produce, `pollWake` for the
slots of the wake lists and for the wakes and `pollStart` for the spawns.  `onWakeMessage`
runs tick processing first: for a tick value that is not ignored the tick counters are `v`
when it returns, and the trace got the catch-up ticks, the tick `v`, and only then drained
items; for an ignored value only drained items are added.  When it returns all four queues
are empty; and it returns whenever the cascade ratios are non-zero and the tick value is
below the largest `int64`, having handed exactly the ticks `ticksDue v r` to `tick`. -/
theorem drain_order_and_completeness (r : Reactor) (v : Int) :
    ((flushQueues r).1 = r.wakeListQ.batch.length + r.invokeQ.batch.length +
        r.wakeQ.batch.length + r.spawnQ.batch.length ∧
      (flushQueues r).2.trace = r.trace ++ r.wakeListQ.batch.map Event.wakeList ++
        r.invokeQ.batch.map Event.fn ++ r.wakeQ.batch.map Event.wake ++
        r.spawnQ.batch.map Event.spawn ∧
      (flushQueues r).2.core = r.drainedCore ∧
      (flushQueues r).2.wakeListQ = r.wakeListQ.rest ∧
      (flushQueues r).2.invokeQ = r.invokeQ.rest ∧
      (flushQueues r).2.wakeQ = r.wakeQ.rest ∧
      (flushQueues r).2.spawnQ = r.spawnQ.rest) ∧
    (∀ r', onWakeMessage v r = .ok r' →
      (r'.wakeListQ.items = [] ∧ r'.invokeQ.items = [] ∧ r'.wakeQ.items = [] ∧
        r'.spawnQ.items = []) ∧
      ((v < 1 ∨ v = r.lastTick) → r'.lastTick = r.lastTick ∧
        ∃ ds, r'.trace = r.trace ++ ds ∧ ∀ e ∈ ds, e.isTick = false) ∧
      (¬ (v < 1 ∨ v = r.lastTick) → r'.lastTick = v ∧ r'.currentTick = v ∧
        ∃ (ns : List Int) (ds : List Event),
          r'.trace = r.trace ++ ns.map Event.tick ++ [Event.tick v] ++ r.drained ++ ds ∧
            ∀ e ∈ ds, e.isTick = false)) ∧
    (r.ticksPerLevel2 ≠ 0 → r.ticksPerLevel3 ≠ 0 → minInt64 ≤ r.lastTick → v < maxInt64 →
      ∃ r', onWakeMessage v r = .ok r' ∧ r'.ticked = r.ticked ++ ticksDue v r) := by
  refine ⟨?_, ?_, onWakeMessage_ticked v r⟩
  · obtain ⟨st, h⟩ := flushQueues_full r
    rw [h]
    simp [Reactor.drained]
  · intro r' h
    obtain ⟨hq, _⟩ := onWakeMessage_ok v r r' h
    refine ⟨?_, onWakeMessage_order v r r' h⟩
    simp only [Reactor.queued] at hq
    refine ⟨?_, ?_, ?_, ?_⟩ <;> apply List.length_eq_zero.mp <;> omega

/-- Witness for C9: the busy example reactor, at last tick 4, gets the wake message 5: it
returns with all queues empty and the tick counter at 5, and tick 5 is the one tick handed
to `tick`; one pass of `flushQueues` on it handles four items and polls task 0 twice with
reason Wake and once with reason Start. -/
theorem drain_order_and_completeness_witness :
    (∃ r', onWakeMessage 5 Reactor.busy = .ok r' ∧
      (r'.wakeListQ.items = [] ∧ r'.invokeQ.items = [] ∧ r'.wakeQ.items = [] ∧
        r'.spawnQ.items = []) ∧
      r'.lastTick = 5 ∧ r'.ticked = [5]) ∧
    (flushQueues Reactor.busy).1 = 4 ∧
    polls (flushQueues Reactor.busy).2.core.calls =
      [.poll 0 .Wake, .poll 0 .Wake, .poll 0 .Start] := by
  have h := drain_order_and_completeness Reactor.busy 5
  obtain ⟨r', hr, ht⟩ := h.2.2 (by decide) (by decide) (by decide) (by decide)
  have ho := h.2.1 r' hr
  refine ⟨⟨r', hr, ho.1, (ho.2.2 (by decide)).1, by rw [ht]; decide⟩, ?_, ?_⟩
  · rw [h.1.1]; decide
  · rw [h.1.2.2.1]; decide

/-- C10. Panic isolation: `pollStart`, `pollWake`, `pollInterval` and `stopTask` always
return normally, whatever the user logic does and in particular when it panics, and they
leave every other task as it was: its object with the stop flag, its entry in the active
map and its entries in the wheels. -/
theorem panic_isolation (now : Int) (list : taskSwapList) (task other : TaskRef) (c : Core)
    (hne : other ≠ task) (hid : (c.heap other).id ≠ (c.heap task).id) :
    ((pollStart now task c).value = some () ∧
      Untouched task other c (pollStart now task c).core) ∧
    ((pollWake now task c).value = some () ∧
      Untouched task other c (pollWake now task c).core) ∧
    ((pollInterval now list task c).value.isSome = true ∧
      Untouched task other c (pollInterval now list task c).core) ∧
    ((stopTask now task c).value = some () ∧
      Untouched task other c (stopTask now task c).core) :=
  ⟨⟨rfl, pollStart_untouched now task other c hne hid⟩,
    ⟨pollWake_returns now task c, pollWake_untouched now task other c hne hid⟩,
    ⟨pollInterval_returns now list task c, pollInterval_untouched now list task other c hne hid⟩,
    ⟨rfl, (Untouched.same task other c).of_stopTask hne hid now⟩⟩

/-- Witness for C10: the Start poll of task 0 panics, the panic leaves the body of
`pollStart` and is recovered, and task 1 is untouched. -/
theorem panic_isolation_witness :
    (pollStartBody 0 0 Core.pair).value = none ∧
    (pollStart 0 0 Core.pair).value = some () ∧
    Untouched 0 1 Core.pair (pollStart 0 0 Core.pair).core :=
  ⟨by decide, (panic_isolation 0 ⟨0⟩ 0 1 Core.pair (by decide) (by decide)).1.1,
    (panic_isolation 0 ⟨0⟩ 0 1 Core.pair (by decide) (by decide)).1.2⟩

/-- C11 (amended). Wheel selection in `schedule`: when all three wheels have positive tick
durations, `schedule` puts the task, with the given delay and wake flag, into the finest
wheel whose `maxDur` strictly exceeds the delay.  The task is first detached from any prior
slot, so each of the other two wheels is what it was without the entries of the task, and
is unchanged if it held none; afterwards the task has this one entry and no other, and the
entries of every other task are as before in all three wheels.  If no `maxDur` exceeds the
delay, the state is left as it was and the request is dropped. -/
theorem schedule_selects_finest (task : TaskRef) (delay : Duration) (wake : Bool) (c : Core)
    (h1 : 0 < c.tickWheel.tickDur) (h2 : 0 < c.level2Wheel.tickDur)
    (h3 : 0 < c.level3Wheel.tickDur) :
    (∀ lvl, finestLevel c delay = some lvl →
      ((schedule task delay wake c).wheel lvl).entries =
        ((c.wheel lvl).detach task).entries ++
          [⟨task, delay, wake, (c.wheel lvl).slotFor delay⟩] ∧
      (∀ l, l ≠ lvl → (schedule task delay wake c).wheel l = (c.wheel l).detach task) ∧
      (∀ l, l ≠ lvl → (c.wheel l).free task → (schedule task delay wake c).wheel l = c.wheel l) ∧
      (∀ l, ((schedule task delay wake c).wheel l).entries.filter (fun e => e.task = task) =
        if l = lvl then [⟨task, delay, wake, (c.wheel lvl).slotFor delay⟩] else []) ∧
      (∀ l other, other ≠ task →
        ((schedule task delay wake c).wheel l).entries.filter (fun e => e.task = other) =
          (c.wheel l).entries.filter (fun e => e.task = other))) ∧
    (finestLevel c delay = none → schedule task delay wake c = c) := by
  have hl := levelFor_eq_finestLevel c delay h1 h2 h3
  constructor
  · intro lvl hf
    rw [← hl] at hf
    have hother : ∀ l, l ≠ lvl →
        (schedule task delay wake c).wheel l = (c.wheel l).detach task := by
      intro l hne
      rw [schedule_wheel, if_neg (by rw [hf]; exact fun hc => hne (Option.some.inj hc).symm),
        if_neg (by rw [hf]; exact fun hc => Option.noConfusion hc)]
    refine ⟨?_, hother, ?_, ?_, ?_⟩
    · rw [schedule_wheel, if_pos hf]; rfl
    · intro l hne hfree
      rw [hother l hne, Wheel.detach_of_free _ _ hfree]
    · intro l
      by_cases hlv : l = lvl
      · subst hlv
        rw [if_pos rfl, schedule_wheel, if_pos hf]
        exact Wheel.schedule_own _ _ _ _
      · rw [if_neg hlv, hother l hlv]
        exact Wheel.detach_own _ _
    · intro l other hne
      by_cases hlv : l = lvl
      · subst hlv
        rw [schedule_wheel, if_pos hf]
        exact Wheel.schedule_filter _ _ _ _ _ hne
      · rw [hother l hlv]
        exact Wheel.detach_filter _ _ _ hne
  · intro hf
    rw [← hl] at hf
    rw [schedule_eq, hf]

/-- Witness for C11: in the example core (wheels up to 250ms, 4s and 64s) a delay of 1s goes
to level 2 and leaves level 1, which holds nothing of the task, as it was; a delay of 100s
is dropped. -/
theorem schedule_selects_finest_witness :
    ((schedule 0 Second true (Core.single Future.idle)).wheel Level.l2).entries =
      [⟨0, Second, true, 4⟩] ∧
    (schedule 0 Second true (Core.single Future.idle)).wheel Level.l1 =
      (Core.single Future.idle).wheel Level.l1 ∧
    schedule 0 (100 * Second) true (Core.single Future.idle) = Core.single Future.idle := by
  have h := schedule_selects_finest 0 Second true (Core.single Future.idle)
    (by decide) (by decide) (by decide)
  have h' := schedule_selects_finest 0 (100 * Second) true (Core.single Future.idle)
    (by decide) (by decide) (by decide)
  refine ⟨?_, (h.1 Level.l2 (by decide)).2.2.1 Level.l1 (by decide)
    (by unfold Wheel.free; decide),
    h'.2 (by decide)⟩
  rw [(h.1 Level.l2 (by decide)).1]
  decide

/-- Counterexample for C11: task 0 waits in the level-2 wheel for a wake after 1s;
all tick durations are positive and level 1 is the finest wheel for a delay of 50ms, but
`schedule` with 50ms does not leave the level-2 wheel untouched: the entry of the task is
taken out of it. -/
theorem schedule_detaches_other_wheel :
    (0 < Core.waiting.tickWheel.tickDur ∧ 0 < Core.waiting.level2Wheel.tickDur ∧
      0 < Core.waiting.level3Wheel.tickDur) ∧
    finestLevel Core.waiting (50 * Millisecond) = some Level.l1 ∧
    (Core.waiting.wheel Level.l2).entries = [⟨0, Second, true, 4⟩] ∧
    ((schedule 0 (50 * Millisecond) true Core.waiting).wheel Level.l1).entries =
      [⟨0, 50 * Millisecond, true, 5⟩] ∧
    ((schedule 0 (50 * Millisecond) true Core.waiting).wheel Level.l2).entries = [] ∧
    ¬ (∀ l, l ≠ Level.l1 →
      (schedule 0 (50 * Millisecond) true Core.waiting).wheel l = Core.waiting.wheel l) := by
  refine ⟨by decide, by decide, by decide, by decide, by decide, ?_⟩
  intro h
  exact absurd (h Level.l2 (by decide)) (by decide)

/-- C12. Tick cascade: with both ratios at least 1, `tick t now` returns, and what it adds
to the log of wheel advances is level 1 once, then level 2 once iff `t mod ticksPerLevel2 = 0`,
then level 3 once iff `t mod ticksPerLevel3 = 0`; the cursors of the three wheels move
accordingly, one slot or none.  Hence `tick 1, ..., tick n` in turn advance level 1 `n`
times, level 2 `n / ticksPerLevel2` times and level 3 `n / ticksPerLevel3` times, whatever the
polled tasks do. -/
theorem tick_cascade (t now : Int) (r : Reactor) (h2 : 1 ≤ r.ticksPerLevel2)
    (h3 : 1 ≤ r.ticksPerLevel3) :
    (∃ r', tick t now r = .ok r' ∧
      advances r'.core.calls =
        advances r.core.calls ++ [Level.l1] ++
          (if t % r.ticksPerLevel2 = 0 then [Level.l2] else []) ++
          (if t % r.ticksPerLevel3 = 0 then [Level.l3] else []) ∧
      r'.core.tickWheel.cursor =
        (r.core.tickWheel.cursor + 1) % r.core.tickWheel.durations ∧
      r'.core.level2Wheel.cursor =
        (if t % r.ticksPerLevel2 = 0 then
          (r.core.level2Wheel.cursor + 1) % r.core.level2Wheel.durations
        else r.core.level2Wheel.cursor) ∧
      r'.core.level3Wheel.cursor =
        (if t % r.ticksPerLevel3 = 0 then
          (r.core.level3Wheel.cursor + 1) % r.core.level3Wheel.durations
        else r.core.level3Wheel.cursor)) ∧
    ∀ n : Nat, ∃ rn, runTicks n now r = .ok rn ∧
      ((advances rn.core.calls).count Level.l1 : Int) =
        (advances r.core.calls).count Level.l1 + n ∧
      ((advances rn.core.calls).count Level.l2 : Int) =
        (advances r.core.calls).count Level.l2 + (n : Int) / r.ticksPerLevel2 ∧
      ((advances rn.core.calls).count Level.l3 : Int) =
        (advances r.core.calls).count Level.l3 + (n : Int) / r.ticksPerLevel3 := by
  have n2 : r.ticksPerLevel2 ≠ 0 := by omega
  have n3 : r.ticksPerLevel3 ≠ 0 := by omega
  constructor
  · refine ⟨_, tick_advances t now r n2 n3, ?_, ?_⟩
    · show advances (cascade t now _ _ r.core).calls = _
      rw [cascade_advances]
      simp only [goMod_eq_zero_iff]
    · have hc := cascade_cursor t now r.ticksPerLevel2 r.ticksPerLevel3 r.core
      simp only [goMod_eq_zero_iff] at hc
      exact hc
  · intro n
    have e2 : r.ticksPerLevel2 = (r.ticksPerLevel2.toNat : Int) := by omega
    have e3 : r.ticksPerLevel3 = (r.ticksPerLevel3.toNat : Int) := by omega
    obtain ⟨rn, hrun, _, _, c1, c2, c3⟩ :=
      runTicks_counts now r.ticksPerLevel2.toNat r.ticksPerLevel3.toNat (by omega) (by omega)
        n r e2 e3
    refine ⟨rn, hrun, ?_, ?_, ?_⟩
    · rw [c1]; push_cast; rfl
    · rw [c2]
      nth_rewrite 2 [e2]
      push_cast
      rfl
    · rw [c3]
      nth_rewrite 2 [e3]
      push_cast
      rfl

/-- Witness for C12: in the example reactor (ratios 25 and 400) tick 25 advances level 1 and
then level 2, and the ticks 1 to 50 advance level 2 twice and level 3 not at all. -/
theorem tick_cascade_witness :
    (∃ r', tick 25 0 (Reactor.example (fun _ => Task.fresh 1 (some 0) Future.idle) 0) = .ok r' ∧
      advances r'.core.calls = [Level.l1, Level.l2]) ∧
    (∃ rn, runTicks 50 0 (Reactor.example (fun _ => Task.fresh 1 (some 0) Future.idle) 0) =
        .ok rn ∧
      ((advances rn.core.calls).count Level.l1 : Int) = 50 ∧
      ((advances rn.core.calls).count Level.l2 : Int) = 2 ∧
      ((advances rn.core.calls).count Level.l3 : Int) = 0) := by
  have h := tick_cascade 25 0 (Reactor.example (fun _ => Task.fresh 1 (some 0) Future.idle) 0)
    (by decide) (by decide)
  constructor
  · obtain ⟨r', hr, ha, _⟩ := h.1
    exact ⟨r', hr, by rw [ha]; decide⟩
  · obtain ⟨rn, hr, c1, c2, c3⟩ := h.2 50
    exact ⟨rn, hr, by rw [c1]; decide, by rw [c2]; decide, by rw [c3]; decide⟩

/-- C13. Duplicate and non-positive ticks are ignored: for `v < 1` or `v = lastTick`,
`maybeProcessTick v` returns the reactor as it was (tick counters, wheels, queues,
statistics and traces: no wheel tick is invoked); and for every `v` two calls in a row do
what one call does. -/
theorem maybeProcessTick_idempotent (v : Int) (r : Reactor) :
    ((v < 1 ∨ v = r.lastTick) → maybeProcessTick v r = .ok r) ∧
    maybeProcessTickTwice v r = maybeProcessTick v r := by
  refine ⟨maybeProcessTick_ignored v r, ?_⟩
  unfold maybeProcessTickTwice
  cases h : maybeProcessTick v r with
  | error e => rfl
  | ok r1 => exact maybeProcessTick_again v r r1 h

/-- Witness for C13: at last tick 4 the tick values 4 and 0 change nothing. -/
theorem maybeProcessTick_idempotent_witness :
    maybeProcessTick 4 Reactor.busy = .ok Reactor.busy ∧
    maybeProcessTick 0 Reactor.busy = .ok Reactor.busy :=
  ⟨(maybeProcessTick_idempotent 4 Reactor.busy).1 (Or.inr (by decide)),
    (maybeProcessTick_idempotent 0 Reactor.busy).1 (Or.inl (by decide))⟩

/-- C14. Cascade ratios can be zero: a configuration whose level-2 wheel is set with a tick
duration of 0 passes the divisibility checks (`0 % 10ms = 0`), `NewReactor` returns a
reactor with `ticksPerLevel2 = 0`, and the first `Reactor.tick` panics in
`tick % r.ticksPerLevel2`. -/
theorem NewReactor_zero_ratio :
    ∃ r, NewReactor Deps.example (Config.ofTicks (10 * Millisecond) 0 (4 * Second)) =
        .reactor r ∧
      r.ticksPerLevel2 = 0 ∧ tick 1 0 r = .error .divideByZero :=
  ⟨_, rfl, by decide, rfl⟩

end Wormhole
